import Mathlib

/-!
Isometric voxel rasteriser: `vxl.h`, `vxl.c`, `common.h`

A shallow embedding of the voxel volume of spaceforce2020 and proofs about it.

Conventions of the embedding

* C `int` is `Int`. The shifts and masks of the source are written
  arithmetically, as two's complement defines them: `x >> k` is the floor
  quotient `x / 2^k`, `x << k` is `x * 2^k`, and `x & m` for a mask
  `m = 2^k - 1` is the non-negative remainder `x % (m + 1)`.
* `u8` and `u32` cells are `Nat`; a `u8` argument is reduced `% 256` where it
  is stored.
* The three buffers `data`, `shade` and `bitmap` are total maps from the C
  index to the cell, all cells `0` after `calloc`. The allocated cells are
  those with index in `[0, n)`. In C an access with an index outside this
  range is undefined behaviour; here it touches a cell of the same map that no
  in-range access ever sees, so that the index of every access can be stated.
  What a map other than the one accessed holds after such an access is a fact
  of the embedding only: the source does not say where the three buffers lie
  relative to each other.
* A queue (`union ivec3*` plus its `_len` counter) is the list of its first
  `_len` entries: a push appends, `_len = 0` empties the list.
* A `for` loop over an `int` range is a fold over the list of its iteration
  values, in loop order.
-/

namespace SpaceForce

/-! ## common.h -/

/-- The `union ivec3` of common.h: three C ints. -/
structure ivec3 where
  x : Int
  y : Int
  z : Int
deriving DecidableEq

/-- The C expression `x >> k` on a two's complement int (arithmetic shift). -/
def shr (x : Int) (k : Nat) : Int := x / 2 ^ k

/-- The C expression `x << k`. -/
def shl (x : Int) (k : Nat) : Int := x * 2 ^ k

/-- The C expression `x & m` for a low-bit mask `m = 2^k - 1`. -/
def band_mask (x m : Int) : Int := x % (m + 1)

/-- The macro `MIN(a,b) ((a)<(b)?(a):(b))`. -/
def MIN (a b : Int) : Int := if a < b then a else b

/-- The function `potceil` of common.h: `m = (1 << p) - 1; return (v+m) & ~m`.
Clearing the low `p` bits of `v+m` subtracts its remainder modulo `m+1`. -/
def potceil (v : Int) (p : Nat) : Int :=
  let m := shl 1 p - 1
  (v + m) - band_mask (v + m) m

/-! ## vxl.h -/

def CHUNK_LENGTH_LOG2 : Nat := 3

def CHUNK_LENGTH : Int := shl 1 CHUNK_LENGTH_LOG2

def CHUNK_LENGTH_MASK : Int := CHUNK_LENGTH - 1

/-- The `struct vxl` of vxl.h. -/
structure vxl where
  dim_x : Int
  dim_y : Int
  dim_z : Int
  chunk_dim_x : Int
  chunk_dim_y : Int
  chunk_dim_z : Int
  cdxy : Int
  data : Int → Nat
  shade : Int → Nat
  shade_queue_cap : Int
  shade_queue : List ivec3
  render_queue_cap : Int
  render_queue : List ivec3
  bitmap_width : Int
  bitmap_height : Int
  bitmap : Int → Nat
  rotation : Int
  rotation_vx : Int
  rotation_vy : Int
  full_update : Int

/-- The counter `shade_queue_len`. -/
def vxl.shade_queue_len (s : vxl) : Int := s.shade_queue.length

/-- The counter `render_queue_len`. -/
def vxl.render_queue_len (s : vxl) : Int := s.render_queue.length

def vxl_chunk_idx (s : vxl) (cx cy cz : Int) : Int :=
  cx + cy * s.chunk_dim_x + cz * s.cdxy

def vxl_local_idx (x y z : Int) : Int :=
  x + shl y CHUNK_LENGTH_LOG2 + shl z (2 * CHUNK_LENGTH_LOG2)

def vxl_idx (s : vxl) (x y z : Int) : Int :=
  let chunk_x := shr x CHUNK_LENGTH_LOG2
  let chunk_y := shr y CHUNK_LENGTH_LOG2
  let chunk_z := shr z CHUNK_LENGTH_LOG2
  let chunk_index := vxl_chunk_idx s chunk_x chunk_y chunk_z
  let local_x := band_mask x CHUNK_LENGTH_MASK
  let local_y := band_mask y CHUNK_LENGTH_MASK
  let local_z := band_mask z CHUNK_LENGTH_MASK
  let local_index := vxl_local_idx local_x local_y local_z
  local_index + shl chunk_index (3 * CHUNK_LENGTH_LOG2)

def vxl_inside (s : vxl) (x y z : Int) : Bool :=
  decide (x ≥ 0) && decide (y ≥ 0) && decide (z ≥ 0) &&
    decide (x < s.dim_x) && decide (y < s.dim_y) && decide (z < s.dim_z)

/-! ## vxl.c -/

/-- The ints `lo, lo+1, ..., hi-1`: the values of `for (int i = lo; i < hi; i++)`. -/
def irange (lo hi : Int) : List Int :=
  (List.range (hi - lo).toNat).map (fun i => lo + (i : Int))

def vxl_bounding_rect (dx dy dz : Int) : Int × Int :=
  (2 * (dx + dy - 1), dx + dy + (dz - 1) * 2)

def diagonal_count (dx dy dz : Int) : Int :=
  dx * dy + (dz - 1) * (dx + dy - 1)

def diagonal_dist (vx vy vz dx dy dz x y z : Int) : Int :=
  let nx := if vx < 0 then x else dx - x - 1
  let ny := if vy < 0 then y else dy - y - 1
  let nz := if vz < 0 then z else dz - z - 1
  MIN nx (MIN ny nz)

/-- The function `as_diagonal`; the three in/out pointers are the argument and
the result. -/
def as_diagonal (vx vy vz dx dy dz : Int) (p : ivec3) : ivec3 :=
  let n := diagonal_dist vx vy vz dx dy dz p.x p.y p.z
  ⟨p.x + vx * n, p.y + vy * n, p.z + vz * n⟩

/-- The four bytes of a 32-bit two's complement int, in memory order
(little-endian, the layout the comment in `ivec3cmp` discusses). -/
def int_bytes (v : Int) : List Nat :=
  let u := (v % 4294967296).toNat
  [u % 256, u / 256 % 256, u / 65536 % 256, u / 16777216 % 256]

/-- The twelve bytes of a `union ivec3`. -/
def ivec3_bytes (a : ivec3) : List Nat :=
  int_bytes a.x ++ int_bytes a.y ++ int_bytes a.z

/-- The C library `memcmp` on two byte strings of the same length: the sign of
the first differing pair of bytes, compared as unsigned chars. -/
def memcmp : List Nat → List Nat → Int
  | a :: as, b :: bs => if a < b then -1 else if b < a then 1 else memcmp as bs
  | _, _ => 0

def ivec3cmp (a b : ivec3) : Int := memcmp (ivec3_bytes a) (ivec3_bytes b)

/-- The C library `qsort` with comparator `cmp`: the entries in ascending
order of the comparator. -/
def qsort (cmp : ivec3 → ivec3 → Int) (q : List ivec3) : List ivec3 :=
  q.insertionSort (fun a b => cmp a b ≤ 0)

def SHADE_X : Nat := 1

def SHADE_Y : Nat := 2

def SHADE_Z : Nat := 3

def SHADE_XY : Nat := 4

/-- The function `update_shade`. The source does not check `(x,y,z)` or its
three neighbours against the volume: the reads of `data` and the write of
`shade` use `vxl_idx` as it comes, in range or not. -/
def update_shade (s : vxl) (x y z : Int) : vxl :=
  let vx := s.rotation_vx
  let vy := s.rotation_vy
  let vz : Int := -1
  let nx := s.data (vxl_idx s (x - vx) y z) == 0
  let ny := s.data (vxl_idx s x (y - vy) z) == 0
  let nz := s.data (vxl_idx s x y (z - vz)) == 0
  let set_shade :=
    if nz then SHADE_Z
    else if nx && !ny then SHADE_X
    else if ny && !nx then SHADE_Y
    else if nx && ny then SHADE_XY
    else SHADE_X
  { s with shade := Function.update s.shade (vxl_idx s x y z) set_shade }

/-- The function `get_voxel_rgba`: the pair `(rgba0, rgba1)` after the call,
given the pair before it (left alone when the shade is none of the four
classes). -/
def get_voxel_rgba (rgba : Nat × Nat) (_voxel shade : Nat) : Nat × Nat :=
  if shade = SHADE_X then (0xff555555, 0xff555555)
  else if shade = SHADE_Y then (0xff777777, 0xff777777)
  else if shade = SHADE_Z then (0xffaaaaaa, 0xffaaaaaa)
  else if shade = SHADE_XY then (0xff777777, 0xff555555)
  else rgba

/-- The marching loop of `render_diagonal`, `n` iterations left: the colour
pair and the coordinate `(x,y,z)` when the loop ends. -/
def render_march (s : vxl) (vx vy vz : Int) : Nat → Int → Int → Int → (Nat × Nat) × ivec3
  | 0, x, y, z => ((0, 0), ⟨x, y, z⟩)
  | n + 1, x, y, z =>
    let idx := vxl_idx s x y z
    let v := s.data idx
    if v > 0 then (get_voxel_rgba (0, 0) v (s.shade idx), ⟨x, y, z⟩)
    else render_march s vx vy vz n (x + vx) (y + vy) (z + vz)

/-- The position `(sx, sy)` and the colour pair that `render_diagonal` draws
for the start coordinate `(x,y,z)`. -/
def render_target (s : vxl) (x y z : Int) : (Int × Int) × (Nat × Nat) :=
  let vx := s.rotation_vx
  let vy := s.rotation_vy
  let vz : Int := -1
  let dx := s.dim_x
  let dy := s.dim_y
  let dz := s.dim_z
  let dist := diagonal_dist vx vy vz dx dy dz x y z
  let r := render_march s vx vy vz (dist + 1).toNat x y z
  let xq := r.2.x
  let yq := r.2.y
  let zq := r.2.z
  let sx := 2 * (dx - 1 + xq - yq)
  let sy := (xq + yq) + 2 * (dz - 1 - zq)
  ((sx, sy), r.1)

def render_diagonal (s : vxl) (x y z : Int) : vxl :=
  let t := render_target s x y z
  let sx := t.1.1
  let sy := t.1.2
  let rgba0 := t.2.1
  let rgba1 := t.2.2
  let w := s.bitmap_width
  let pixel := sx + sy * w
  let b0 := Function.update s.bitmap pixel rgba0
  let b1 := Function.update b0 (pixel + 1) rgba1
  let b2 := Function.update b1 (pixel + w) rgba0
  let b3 := Function.update b2 (pixel + (w + 1)) rgba1
  { s with bitmap := b3 }

def clear_bitmap (s : vxl) : vxl :=
  { s with bitmap := fun i =>
      if 0 ≤ i ∧ i < s.bitmap_width * s.bitmap_height then 0 else s.bitmap i }

/-- The coordinates the shade loops of a full flush visit, in loop order. -/
def full_shade_coords (s : vxl) : List ivec3 :=
  let dx := s.dim_x
  let dy := s.dim_y
  let dz := s.dim_z
  let vx := s.rotation_vx
  let vy := s.rotation_vy
  let x0 : Int := if vx > 0 then 1 else 0
  let x1 : Int := if vx > 0 then dx else dx - 1
  let y0 : Int := if vy > 0 then 1 else 0
  let y1 : Int := if vy > 0 then dy else dy - 1
  let z0 : Int := 0
  let z1 : Int := dz - 1
  (irange z0 z1).flatMap fun z =>
    (irange y0 y1).flatMap fun y =>
      (irange x0 x1).map fun x => ⟨x, y, z⟩

/-- The start coordinates the render loops of a full flush visit, in loop
order: the top face, then for each lower layer the two front sides. -/
def full_render_coords (s : vxl) : List ivec3 :=
  let dx := s.dim_x
  let dy := s.dim_y
  let dz := s.dim_z
  let vx := s.rotation_vx
  let vy := s.rotation_vy
  let top : List ivec3 :=
    (irange 0 dy).flatMap fun v => (irange 0 dx).map fun u => ⟨u, v, dz - 1⟩
  let xfront : Int := if vx < 0 then dx - 1 else 0
  let yfront : Int := if vy < 0 then dy - 1 else 0
  let sides : List ivec3 :=
    (irange 0 (dz - 1)).flatMap fun v =>
      ((irange 0 dx).map fun u => (⟨u, yfront, v⟩ : ivec3)) ++
      ((irange 0 dy).map fun u => (⟨xfront, u, v⟩ : ivec3))
  top ++ sides

/-- The queue walk of an incremental flush: `f` is applied to every entry
except those that compare equal to their predecessor; `prev` is the entry
before the current one (`none` at `i = 0`). -/
def flush_walk {σ : Type} (f : σ → ivec3 → σ) : Option ivec3 → List ivec3 → σ → σ
  | _, [], t => t
  | none, p :: rest, t => flush_walk f (some p) rest (f t p)
  | some q, p :: rest, t =>
    if ivec3cmp p q = 0 then flush_walk f (some p) rest t
    else flush_walk f (some p) rest (f t p)

/-- The function `vxl_flush`. In incremental mode `update_shade` and
`render_diagonal` are called on the queue entries as they are, with no bounds
test; an entry outside the volume makes `update_shade` access `data` and
`shade` outside `[0, n)`. -/
def vxl_flush (s : vxl) : vxl :=
  if s.full_update ≠ 0 then
    let s1 := clear_bitmap s
    let s2 := (full_shade_coords s1).foldl (fun t c => update_shade t c.x c.y c.z) s1
    let s3 := (full_render_coords s2).foldl (fun t c => render_diagonal t c.x c.y c.z) s2
    { s3 with full_update := 0 }
  else
    let s1 := flush_walk (fun t c => update_shade t c.x c.y c.z) none
      (qsort ivec3cmp s.shade_queue) s
    let s2 := { s1 with shade_queue := [] }
    let s3 := flush_walk (fun t c => render_diagonal t c.x c.y c.z) none
      (qsort ivec3cmp s2.render_queue) s2
    { s3 with render_queue := [] }

/-- The three `assert`s that close `vxl_flush`, on the state it leaves. -/
def vxl_flush_asserts (s : vxl) : Bool :=
  decide (s.full_update = 0) && decide (s.shade_queue_len = 0) &&
    decide (s.render_queue_len = 0)

/-- The 3×3×3 push loop of `vxl_put`: the entries appended to the shade
queue, in loop order. -/
def put_shade_pushes (s : vxl) (x y z : Int) : List ivec3 :=
  (irange (-1) 2).flatMap fun az =>
    (irange (-1) 2).flatMap fun ay =>
      (irange (-1) 2).flatMap fun ax =>
        let x1 := x + ax
        let y1 := y + ay
        let z1 := z + az
        if x1 < 0 ∧ x1 ≥ s.dim_x then []
        else if y1 < 0 ∧ y1 ≥ s.dim_y then []
        else if z1 < 0 ∧ z1 ≥ s.dim_z then []
        else [⟨x1, y1, z1⟩]

/-- The condition `must_flush` of `vxl_put`. -/
def must_flush (s : vxl) : Bool :=
  let shade_max_req : Int := 3 * 3 * 3
  let render_req : Int := 1
  decide (s.shade_queue_len + shade_max_req > s.shade_queue_cap) ||
    decide (s.render_queue_len + render_req > s.render_queue_cap)

/-- The function `vxl_put`: the returned int and the volume afterwards. -/
def vxl_put (s : vxl) (x y z : Int) (v : Nat) : Int × vxl :=
  if !vxl_inside s x y z then (0, s)
  else
    let v := v % 256
    let idx := vxl_idx s x y z
    let p := s.data idx
    let s1 := { s with data := Function.update s.data idx v }
    if s1.full_update ≠ 0 ∨ p = v then (0, s1)
    else
      let mf := must_flush s1
      let ret : Int := if mf then 1 else 0
      let s2 := if mf then vxl_flush s1 else s1
      let do_update_shade := (decide (p = 0)) != (decide (v = 0))
      let ref : ivec3 := ⟨x, y, z⟩
      let s3 :=
        if do_update_shade then
          { s2 with shade_queue := s2.shade_queue ++ put_shade_pushes s2 x y z }
        else s2
      let r := as_diagonal (-s3.rotation_vx) (-s3.rotation_vy) 1
        s3.dim_x s3.dim_y s3.dim_z ref
      (ret, { s3 with render_queue := s3.render_queue ++ [r] })

def vxl_set_full_update (s : vxl) : vxl :=
  if s.full_update ≠ 0 then s
  else { vxl_flush s with full_update := 1 }

/-- One turn of the loop of `vxl_set_rotation`: `tmp = vx; vx = vy; vy = -tmp`. -/
def rotate_view (v : Int × Int) : Int × Int := (v.2, -v.1)

def vxl_set_rotation (s : vxl) (rotation : Int) : vxl :=
  let rotation := band_mask rotation 3
  let v := Nat.iterate rotate_view rotation.toNat (-1, -1)
  let s1 := { s with rotation_vx := v.1, rotation_vy := v.2 }
  if rotation ≠ s1.rotation then vxl_set_full_update { s1 with rotation := rotation }
  else s1

def vxl_init (dim_x dim_y dim_z : Int) : vxl :=
  let dim_x := potceil dim_x CHUNK_LENGTH_LOG2
  let dim_y := potceil dim_y CHUNK_LENGTH_LOG2
  let dim_z := potceil dim_z CHUNK_LENGTH_LOG2
  let chunk_dim_x := shr dim_x CHUNK_LENGTH_LOG2
  let chunk_dim_y := shr dim_y CHUNK_LENGTH_LOG2
  let chunk_dim_z := shr dim_z CHUNK_LENGTH_LOG2
  let rect := vxl_bounding_rect dim_x dim_y dim_z
  let base_cap : Int := shl 1 14
  vxl_set_rotation
    { dim_x := dim_x
      dim_y := dim_y
      dim_z := dim_z
      chunk_dim_x := chunk_dim_x
      chunk_dim_y := chunk_dim_y
      chunk_dim_z := chunk_dim_z
      cdxy := chunk_dim_x * chunk_dim_y
      data := fun _ => 0
      shade := fun _ => 0
      shade_queue_cap := 4 * base_cap
      shade_queue := []
      render_queue_cap := base_cap
      render_queue := []
      bitmap_width := rect.1
      bitmap_height := rect.2
      bitmap := fun _ => 0
      rotation := 0
      rotation_vx := 0
      rotation_vy := 0
      full_update := 0 }
    0

/-- The volumes a client can reach: `vxl_init` with positive dimensions,
followed by any calls of the four operations of vxl.h. -/
inductive Reachable : vxl → Prop
  | init (dx dy dz : Int) (hx : 0 < dx) (hy : 0 < dy) (hz : 0 < dz) :
      Reachable (vxl_init dx dy dz)
  | put (s : vxl) (x y z : Int) (v : Nat) (h : Reachable s) :
      Reachable (vxl_put s x y z v).2
  | flush (s : vxl) (h : Reachable s) : Reachable (vxl_flush s)
  | set_rotation (s : vxl) (r : Int) (h : Reachable s) :
      Reachable (vxl_set_rotation s r)
  | set_full_update (s : vxl) (h : Reachable s) :
      Reachable (vxl_set_full_update s)

/-! ## Predicates and auxiliary definitions of the statements -/

/-- The shape `vxl_init` gives a volume: every dimension a positive multiple of
the chunk length, with the chunk counts derived from it. -/
def dims_chunked (s : vxl) : Prop :=
  0 < s.dim_x ∧ 0 < s.dim_y ∧ 0 < s.dim_z ∧
  s.dim_x % 8 = 0 ∧ s.dim_y % 8 = 0 ∧ s.dim_z % 8 = 0 ∧
  s.chunk_dim_x = shr s.dim_x CHUNK_LENGTH_LOG2 ∧
  s.chunk_dim_y = shr s.dim_y CHUNK_LENGTH_LOG2 ∧
  s.chunk_dim_z = shr s.dim_z CHUNK_LENGTH_LOG2 ∧
  s.cdxy = s.chunk_dim_x * s.chunk_dim_y

/-- Everything of a volume but its two caches (shade and bitmap). -/
def vxl.frame (s : vxl) : vxl := { s with shade := fun _ => 0, bitmap := fun _ => 0 }

/-- The part of a volume that no operation changes after `vxl_init`. -/
def vxl.geom (s : vxl) : List Int :=
  [s.dim_x, s.dim_y, s.dim_z, s.chunk_dim_x, s.chunk_dim_y, s.chunk_dim_z, s.cdxy,
    s.shade_queue_cap, s.render_queue_cap, s.bitmap_width, s.bitmap_height]

/-- The volume `vxl_put` works on once it has decided to queue: the cell is
written and, when a queue lacks headroom, the volume is flushed. -/
def put_ready (s : vxl) (x y z : Int) (v : Nat) : vxl :=
  let s1 := { s with data := Function.update s.data (vxl_idx s x y z) (v % 256) }
  if must_flush s1 then vxl_flush s1 else s1

/-- What holds of every volume a client can reach. -/
structure Inv (s : vxl) : Prop where
  dims : dims_chunked s
  scap : s.shade_queue_cap = 65536
  rcap : s.render_queue_cap = 16384
  slen : s.shade_queue_len ≤ s.shade_queue_cap
  rlen : s.render_queue_len ≤ s.render_queue_cap
  flag : s.full_update = 0 ∨ s.full_update = 1
  idle : s.full_update ≠ 0 → s.shade_queue = [] ∧ s.render_queue = []

/-- The entries a queueing `vxl_put` appends to the shade queue: the 3×3×3 loop
when the voxel changes between empty and non-empty, nothing otherwise. -/
def put_shade_entries (s : vxl) (x y z : Int) (v : Nat) : List ivec3 :=
  if (decide (s.data (vxl_idx s x y z) = 0)) != (decide (v % 256 = 0))
    then put_shade_pushes s x y z else []

/-- The entry a queueing `vxl_put` appends to the render queue. -/
def put_render_entry (s : vxl) (x y z : Int) : ivec3 :=
  as_diagonal (-s.rotation_vx) (-s.rotation_vy) 1 s.dim_x s.dim_y s.dim_z ⟨x, y, z⟩

/-- A value a C `int` can hold. -/
def int32 (v : Int) : Prop := -2147483648 ≤ v ∧ v < 2147483648

/-- A coordinate a `union ivec3` can hold. -/
def ivec3.valid (a : ivec3) : Prop := int32 a.x ∧ int32 a.y ∧ int32 a.z

/-- The coordinates to which the walk of an incremental flush applies its
operation on the queue `q`, in the order of the calls: the walk itself, run
with an operation that records its argument. -/
def flush_calls (q : List ivec3) : List ivec3 :=
  flush_walk (fun tr c => tr ++ [c]) none (qsort ivec3cmp q) []

/-- The calls of the walk over `l` when the entry before `l` is `prev`. -/
def walk_calls (prev : Option ivec3) (l : List ivec3) : List ivec3 :=
  flush_walk (fun tr c => tr ++ [c]) prev l []

instance ivec3.valid_decidable : DecidablePred ivec3.valid := fun a => by
  unfold ivec3.valid int32
  infer_instance

/-- The view vector `vxl_set_rotation` derives from a rotation in `0..3`. -/
def view_of_rotation (rotation : Int) : Int × Int :=
  Nat.iterate rotate_view rotation.toNat (-1, -1)

/-- What holds of the rotation state and the bitmap size of every volume a
client can reach. -/
structure ViewInv (s : vxl) : Prop where
  rot : 0 ≤ s.rotation ∧ s.rotation < 4
  view : (s.rotation_vx, s.rotation_vy) = view_of_rotation s.rotation
  width : s.bitmap_width = 2 * (s.dim_x + s.dim_y - 1)
  height : s.bitmap_height = s.dim_x + s.dim_y + (s.dim_z - 1) * 2

/-- The coordinate `(x,y,z)` lies in the box `[0,dx) × [0,dy) × [0,dz)`. -/
def in_box (dx dy dz x y z : Int) : Prop :=
  0 ≤ x ∧ x < dx ∧ 0 ≤ y ∧ y < dy ∧ 0 ≤ z ∧ z < dz

/-- The coordinate `k` steps along `(vx,vy,vz)` from `p`. -/
def ivec3.step (p : ivec3) (vx vy vz k : Int) : ivec3 :=
  ⟨p.x + k * vx, p.y + k * vy, p.z + k * vz⟩

instance in_box_decidable (dx dy dz x y z : Int) : Decidable (in_box dx dy dz x y z) := by
  unfold in_box
  infer_instance

/-- The volume of the concrete scenario: `vxl_init(4,4,1)`, `vxl_set_full_update`,
`vxl_set_rotation(0)`, `vxl_put(x,y,0,1)` for all `0 ≤ x,y < 4`, `vxl_flush`. -/
def scenario_4x4x1 : vxl :=
  vxl_flush
    ((irange 0 4).foldl (fun s y => (irange 0 4).foldl (fun s x => (vxl_put s x y 0 1).2) s)
      (vxl_set_rotation (vxl_set_full_update (vxl_init 4 4 1)) 0))

/-- The pixel `(px,py)` lies in the 2×2 block at the projected position
`sx = 2*(dim_x-1+x-y)`, `sy = x+y+2*(dim_z-1-z)` of one of the sixteen voxels
`(x,y,0)` of the scenario (`dim_x = dim_z = 8`). -/
def in_silhouette (px py : Int) : Bool :=
  (irange 0 4).any fun y => (irange 0 4).any fun x =>
    let sx := 2 * (8 - 1 + x - y)
    let sy := x + y + 2 * (8 - 1 - 0)
    (decide (px = sx) || decide (px = sx + 1)) && (decide (py = sy) || decide (py = sy + 1))

/-- The four pixel writes of `render_diagonal` on a bitmap of width `w`, for the
position and colour pair `t`. -/
def write_block (b : Int → Nat) (w : Int) (t : (Int × Int) × (Nat × Nat)) : Int → Nat :=
  let pixel := t.1.1 + t.1.2 * w
  Function.update
    (Function.update (Function.update (Function.update b pixel t.2.1) (pixel + 1) t.2.2)
      (pixel + w) t.2.1)
    (pixel + (w + 1)) t.2.2

/-- The volume of the scenario just before its flush. -/
def scenario_4x4x1_written : vxl :=
  (irange 0 4).foldl (fun s y => (irange 0 4).foldl (fun s x => (vxl_put s x y 0 1).2) s)
    (vxl_set_rotation (vxl_set_full_update (vxl_init 4 4 1)) 0)

/-- The volume of the scenario after the shade loops of its flush. -/
def scenario_4x4x1_shaded : vxl :=
  (full_shade_coords (clear_bitmap scenario_4x4x1_written)).foldl
    (fun t c => update_shade t c.x c.y c.z) (clear_bitmap scenario_4x4x1_written)

/-- The positions and colour pairs the render loops of the scenario's flush
draw, in loop order. -/
def scenario_4x4x1_targets : List ((Int × Int) × (Nat × Nat)) :=
  (full_render_coords scenario_4x4x1_shaded).map
    (fun c => render_target scenario_4x4x1_shaded c.x c.y c.z)

/-- The bitmap the scenario is expected to leave, by pixel index (width 30). -/
def scenario_4x4x1_expected (i : Int) : Nat :=
  if in_silhouette (i % 30) (i / 30) then 0xffaaaaaa else 0

/-- The shade class as the specification words it, from the three flags
"neighbour is empty": Z if `nz`; otherwise X if `nx` and not `ny`; otherwise Y
if `ny` and not `nx`; otherwise XY if `nx` and `ny`; otherwise X. -/
def shade_class_spec (nx ny nz : Bool) : Nat :=
  if nz then 3
  else if nx && !ny then 1
  else if ny && !nx then 2
  else if nx && ny then 4
  else 1

/-- The class of `(x,y,z)` on the occupancy of `s`: the specified class of the
flags of its neighbours `(x-vx,y,z)`, `(x,y-vy,z)` and `(x,y,z+1)`. -/
def shade_class (s : vxl) (x y z : Int) : Nat :=
  shade_class_spec (s.data (vxl_idx s (x - s.rotation_vx) y z) == 0)
    (s.data (vxl_idx s x (y - s.rotation_vy) z) == 0)
    (s.data (vxl_idx s x y (z + 1)) == 0)

/-- The projection of `render_diagonal`: the position `(sx, sy)` of the block
drawn for the coordinate `c`. -/
def render_project (s : vxl) (c : ivec3) : Int × Int :=
  (2 * (s.dim_x - 1 + c.x - c.y), (c.x + c.y) + 2 * (s.dim_z - 1 - c.z))

/-- The four pixels of the 2×2 block at position `p`. -/
def block_pixels (p : Int × Int) : List (Int × Int) :=
  [(p.1, p.2), (p.1 + 1, p.2), (p.1, p.2 + 1), (p.1 + 1, p.2 + 1)]

/-- `n` rounds of writing 1 and then 0 at voxel `(1,2,0)` with `vxl_put`. -/
def toggle_puts : Nat → vxl → vxl
  | 0, s => s
  | n + 1, s => (vxl_put (vxl_put (toggle_puts n s) 1 2 0 1).2 1 2 0 0).2

/-- The volume after `vxl_put`. -/
def put_volume (s : vxl) (x y z : Int) (v : Nat) : vxl := (vxl_put s x y z v).2

/-- A reachable volume whose shade queue has no headroom left: the volume of
`vxl_init(4,4,1)` after 1213 rounds of `toggle_puts` and one more write of 1 at
`(1,2,0)`, 2427 writes in incremental mode with 27 shade entries each. -/
def queue_filled : vxl := put_volume (toggle_puts 1213 (vxl_init 4 4 1)) 1 2 0 1

/-- What holds after `k` rounds of `toggle_puts` on the fresh volume, as long
as no write has flushed. -/
def toggle_inv (k : Nat) (s : vxl) : Prop :=
  s.geom = (vxl_init 4 4 1).geom ∧ s.full_update = 0 ∧ s.data (vxl_idx s 1 2 0) = 0 ∧
  s.shade = (vxl_init 4 4 1).shade ∧
  s.shade_queue.length = 54 * k ∧ s.render_queue.length = 2 * k ∧
  (∀ c ∈ s.shade_queue, c ∈ put_shade_pushes (vxl_init 4 4 1) 1 2 0)

/-! ## The chunked index -/

theorem vxl_idx_eq (s : vxl) (x y z : Int) :
    vxl_idx s x y z =
      (x % 8 + y % 8 * 8 + z % 8 * 64) +
        (x / 8 + y / 8 * s.chunk_dim_x + z / 8 * s.cdxy) * 512 := by
  simp [vxl_idx, vxl_chunk_idx, vxl_local_idx, shr, shl, band_mask,
    CHUNK_LENGTH_MASK, CHUNK_LENGTH, CHUNK_LENGTH_LOG2]

theorem vxl_inside_iff (s : vxl) (x y z : Int) :
    vxl_inside s x y z = true ↔
      0 ≤ x ∧ 0 ≤ y ∧ 0 ≤ z ∧ x < s.dim_x ∧ y < s.dim_y ∧ z < s.dim_z := by
  simp [vxl_inside, and_assoc]

/-- Digits of a two-digit number in base `a` are determined by the number. -/
theorem radix_unique (a r q r' q' : Int) (hr : 0 ≤ r) (hra : r < a)
    (hr' : 0 ≤ r') (hra' : r' < a) (h : r + q * a = r' + q' * a) :
    r = r' ∧ q = q' := by
  have h1 : (r + q * a) % a = r := by
    rw [Int.add_mul_emod_self]; exact Int.emod_eq_of_lt hr hra
  have h2 : (r' + q' * a) % a = r' := by
    rw [Int.add_mul_emod_self]; exact Int.emod_eq_of_lt hr' hra'
  have hrr : r = r' := by rw [← h1, ← h2, h]
  refine ⟨hrr, ?_⟩
  have ha : 0 < a := lt_of_le_of_lt hr hra
  have h3 : q * a = q' * a := by omega
  exact Int.eq_of_mul_eq_mul_right (ne_of_gt ha) h3

/-- A two-digit number in base `a` with digits below `a` and `b` is below `a * b`. -/
theorem radix_bound (a b r q : Int) (hr : 0 ≤ r) (hra : r < a) (hq : 0 ≤ q) (hqb : q < b) :
    0 ≤ r + q * a ∧ r + q * a < a * b := by
  have ha : 0 < a := lt_of_le_of_lt hr hra
  have h1 : 0 ≤ q * a := Int.mul_nonneg hq (le_of_lt ha)
  have h2 : (q + 1) * a ≤ b * a := Int.mul_le_mul_of_nonneg_right (by omega) (le_of_lt ha)
  constructor
  · omega
  · have : (q + 1) * a = q * a + a := by ring
    have : b * a = a * b := by ring
    omega

/-- The chunk index of an in-bounds coordinate, and its range. -/
theorem chunk_index_bound (s : vxl) (h : dims_chunked s) (x y z : Int)
    (hin : vxl_inside s x y z = true) :
    0 ≤ x / 8 + y / 8 * s.chunk_dim_x + z / 8 * s.cdxy ∧
    (x / 8 + y / 8 * s.chunk_dim_x + z / 8 * s.cdxy) * 512 + 512 ≤
      s.dim_x * s.dim_y * s.dim_z := by
  obtain ⟨hx, hy, hz, mx, my, mz, cx, cy, cz, cxy⟩ := h
  rw [vxl_inside_iff] at hin
  obtain ⟨x0, y0, z0, x1, y1, z1⟩ := hin
  simp only [shr, CHUNK_LENGTH_LOG2] at cx cy cz
  norm_num at cx cy cz
  have b1 := radix_bound s.chunk_dim_x s.chunk_dim_y (x / 8) (y / 8)
    (by omega) (by omega) (by omega) (by omega)
  rw [cxy]
  have b2 := radix_bound (s.chunk_dim_x * s.chunk_dim_y) s.chunk_dim_z
    (x / 8 + y / 8 * s.chunk_dim_x) (z / 8) b1.1 b1.2 (by omega) (by omega)
  have e : s.dim_x * s.dim_y * s.dim_z =
      (s.chunk_dim_x * s.chunk_dim_y * s.chunk_dim_z) * 512 := by
    have ex : s.dim_x = s.chunk_dim_x * 8 := by omega
    have ey : s.dim_y = s.chunk_dim_y * 8 := by omega
    have ez : s.dim_z = s.chunk_dim_z * 8 := by omega
    rw [ex, ey, ez]; ring
  rw [e]
  constructor
  · exact b2.1
  · have := b2.2
    omega

theorem vxl_idx_range (s : vxl) (h : dims_chunked s) (x y z : Int)
    (hin : vxl_inside s x y z = true) :
    0 ≤ vxl_idx s x y z ∧ vxl_idx s x y z < s.dim_x * s.dim_y * s.dim_z := by
  have hb := chunk_index_bound s h x y z hin
  rw [vxl_idx_eq]
  omega

theorem vxl_idx_inj (s : vxl) (h : dims_chunked s) (x y z x' y' z' : Int)
    (hin : vxl_inside s x y z = true) (hin' : vxl_inside s x' y' z' = true)
    (e : vxl_idx s x y z = vxl_idx s x' y' z') : x = x' ∧ y = y' ∧ z = z' := by
  obtain ⟨hx, hy, hz, mx, my, mz, cx, cy, cz, cxy⟩ := h
  rw [vxl_inside_iff] at hin hin'
  obtain ⟨x0, y0, z0, x1, y1, z1⟩ := hin
  obtain ⟨x0', y0', z0', x1', y1', z1'⟩ := hin'
  simp only [shr, CHUNK_LENGTH_LOG2] at cx cy cz
  norm_num at cx cy cz
  rw [vxl_idx_eq, vxl_idx_eq] at e
  have hc : x / 8 + y / 8 * s.chunk_dim_x + z / 8 * s.cdxy =
      x' / 8 + y' / 8 * s.chunk_dim_x + z' / 8 * s.cdxy := by omega
  have hl : x % 8 + y % 8 * 8 + z % 8 * 64 = x' % 8 + y' % 8 * 8 + z' % 8 * 64 := by omega
  rw [cxy] at hc
  have b1 := radix_bound s.chunk_dim_x s.chunk_dim_y (x / 8) (y / 8)
    (by omega) (by omega) (by omega) (by omega)
  have b1' := radix_bound s.chunk_dim_x s.chunk_dim_y (x' / 8) (y' / 8)
    (by omega) (by omega) (by omega) (by omega)
  have u2 := radix_unique (s.chunk_dim_x * s.chunk_dim_y)
    (x / 8 + y / 8 * s.chunk_dim_x) (z / 8) (x' / 8 + y' / 8 * s.chunk_dim_x) (z' / 8)
    b1.1 b1.2 b1'.1 b1'.2 hc
  have u1 := radix_unique s.chunk_dim_x (x / 8) (y / 8) (x' / 8) (y' / 8)
    (by omega) (by omega) (by omega) (by omega) u2.1
  obtain ⟨ux, uy⟩ := u1
  have uz := u2.2
  omega

theorem vxl_idx_surj (s : vxl) (h : dims_chunked s) (i : Int) (h0 : 0 ≤ i)
    (h1 : i < s.dim_x * s.dim_y * s.dim_z) :
    ∃ x y z, vxl_inside s x y z = true ∧ vxl_idx s x y z = i := by
  obtain ⟨hx, hy, hz, mx, my, mz, cx, cy, cz, cxy⟩ := h
  simp only [shr, CHUNK_LENGTH_LOG2] at cx cy cz
  norm_num at cx cy cz
  have ex : s.dim_x = s.chunk_dim_x * 8 := by omega
  have ey : s.dim_y = s.chunk_dim_y * 8 := by omega
  have ez : s.dim_z = s.chunk_dim_z * 8 := by omega
  have ha : 0 < s.chunk_dim_x := by omega
  have hb : 0 < s.chunk_dim_y := by omega
  have hc : 0 < s.chunk_dim_z := by omega
  have e : s.dim_x * s.dim_y * s.dim_z =
      (s.chunk_dim_x * s.chunk_dim_y * s.chunk_dim_z) * 512 := by
    rw [ex, ey, ez]; ring
  -- the chunk index and its three digits
  set C := i / 512 with hC
  set cxv := C % s.chunk_dim_x with hcx
  set D := C / s.chunk_dim_x with hD
  set cyv := D % s.chunk_dim_y with hcy
  set czv := D / s.chunk_dim_y with hcz
  have C0 : 0 ≤ C := by omega
  have C1 : C < s.chunk_dim_x * s.chunk_dim_y * s.chunk_dim_z := by
    rw [e] at h1; omega
  have hCd : cxv + D * s.chunk_dim_x = C := by
    rw [mul_comm]; exact Int.emod_add_ediv C s.chunk_dim_x
  have hDd : cyv + czv * s.chunk_dim_y = D := by
    rw [mul_comm]; exact Int.emod_add_ediv D s.chunk_dim_y
  have cx0 : 0 ≤ cxv := Int.emod_nonneg _ (ne_of_gt ha)
  have cx1 : cxv < s.chunk_dim_x := Int.emod_lt_of_pos _ ha
  have cy0 : 0 ≤ cyv := Int.emod_nonneg _ (ne_of_gt hb)
  have cy1 : cyv < s.chunk_dim_y := Int.emod_lt_of_pos _ hb
  have D0 : 0 ≤ D := Int.ediv_nonneg C0 (le_of_lt ha)
  have cz0 : 0 ≤ czv := Int.ediv_nonneg D0 (le_of_lt hb)
  have D1 : D < s.chunk_dim_y * s.chunk_dim_z := by
    apply Int.ediv_lt_of_lt_mul ha
    calc C < s.chunk_dim_x * s.chunk_dim_y * s.chunk_dim_z := C1
      _ = s.chunk_dim_y * s.chunk_dim_z * s.chunk_dim_x := by ring
  have cz1 : czv < s.chunk_dim_z := by
    apply Int.ediv_lt_of_lt_mul hb
    calc D < s.chunk_dim_y * s.chunk_dim_z := D1
      _ = s.chunk_dim_z * s.chunk_dim_y := by ring
  refine ⟨cxv * 8 + i % 8, cyv * 8 + i / 8 % 8, czv * 8 + i / 64 % 8, ?_, ?_⟩
  · rw [vxl_inside_iff]; omega
  · rw [vxl_idx_eq, cxy]
    have q1 : (cxv * 8 + i % 8) / 8 = cxv := by omega
    have q2 : (cyv * 8 + i / 8 % 8) / 8 = cyv := by omega
    have q3 : (czv * 8 + i / 64 % 8) / 8 = czv := by omega
    rw [q1, q2, q3]
    have q4 : cxv + cyv * s.chunk_dim_x + czv * (s.chunk_dim_x * s.chunk_dim_y) = C := by
      rw [← hCd, ← hDd]; ring
    rw [q4]
    omega

/-- C1. On a volume whose dimensions are positive multiples of 8 (chunk counts
`dim >> 3`, `cdxy = chunk_dim_x * chunk_dim_y`), `vxl_idx` maps the in-bounds
coordinates one-to-one onto the indices `0 .. dim_x*dim_y*dim_z - 1`: every
in-bounds coordinate gets an index in that range, distinct in-bounds
coordinates get distinct indices, and every index of the range is hit. -/
theorem C1_vxl_idx_bijection (s : vxl) (h : dims_chunked s) :
    (∀ x y z, vxl_inside s x y z = true →
      0 ≤ vxl_idx s x y z ∧ vxl_idx s x y z < s.dim_x * s.dim_y * s.dim_z) ∧
    (∀ x y z x' y' z', vxl_inside s x y z = true → vxl_inside s x' y' z' = true →
      vxl_idx s x y z = vxl_idx s x' y' z' → x = x' ∧ y = y' ∧ z = z') ∧
    (∀ i, 0 ≤ i → i < s.dim_x * s.dim_y * s.dim_z →
      ∃ x y z, vxl_inside s x y z = true ∧ vxl_idx s x y z = i) :=
  ⟨vxl_idx_range s h, fun x y z x' y' z' a b c => vxl_idx_inj s h x y z x' y' z' a b c,
    vxl_idx_surj s h⟩

/-! ## Frames: what the cache updates leave alone -/

theorem update_shade_frame (s : vxl) (x y z : Int) :
    (update_shade s x y z).frame = s.frame := rfl

theorem render_diagonal_frame (s : vxl) (x y z : Int) :
    (render_diagonal s x y z).frame = s.frame := rfl

theorem clear_bitmap_frame (s : vxl) : (clear_bitmap s).frame = s.frame := rfl

theorem foldl_frame (f : vxl → ivec3 → vxl) (hf : ∀ t c, (f t c).frame = t.frame)
    (l : List ivec3) (s : vxl) : (l.foldl f s).frame = s.frame := by
  induction l generalizing s with
  | nil => rfl
  | cons c l ih => rw [List.foldl_cons, ih, hf]

theorem flush_walk_frame (f : vxl → ivec3 → vxl) (hf : ∀ t c, (f t c).frame = t.frame)
    (prev : Option ivec3) (l : List ivec3) (s : vxl) :
    (flush_walk f prev l s).frame = s.frame := by
  induction l generalizing s prev with
  | nil => cases prev <;> rfl
  | cons c l ih =>
    cases prev with
    | none => rw [flush_walk, ih, hf]
    | some q =>
      rw [flush_walk]
      split
      · rw [ih]
      · rw [ih, hf]

theorem vxl_flush_frame_full (s : vxl) (h : s.full_update ≠ 0) :
    (vxl_flush s).frame = { s with full_update := 0 }.frame := by
  have e1 := foldl_frame (fun t c => update_shade t c.x c.y c.z)
    (fun t c => update_shade_frame t c.x c.y c.z)
    (full_shade_coords (clear_bitmap s)) (clear_bitmap s)
  have e2 := foldl_frame (fun t c => render_diagonal t c.x c.y c.z)
    (fun t c => render_diagonal_frame t c.x c.y c.z)
    (full_render_coords ((full_shade_coords (clear_bitmap s)).foldl
      (fun t c => update_shade t c.x c.y c.z) (clear_bitmap s)))
    ((full_shade_coords (clear_bitmap s)).foldl
      (fun t c => update_shade t c.x c.y c.z) (clear_bitmap s))
  have e := e2.trans (e1.trans (clear_bitmap_frame s))
  simp only [vxl_flush, if_pos h]
  simp only [vxl.frame] at e ⊢
  simp only [vxl.mk.injEq] at e ⊢
  simp_all

theorem vxl_flush_frame_incr (s : vxl) (h : s.full_update = 0) :
    (vxl_flush s).frame = { s with shade_queue := [], render_queue := [] }.frame := by
  have hn : ¬ (s.full_update ≠ 0) := by simp [h]
  simp only [vxl_flush, if_neg hn]
  obtain ⟨s1, hs1⟩ : ∃ s1, s1 = flush_walk (fun t c => update_shade t c.x c.y c.z) none
    (qsort ivec3cmp s.shade_queue) s := ⟨_, rfl⟩
  have e1 : s1.frame = s.frame := by
    rw [hs1]
    exact flush_walk_frame _ (fun t c => update_shade_frame t c.x c.y c.z) _ _ _
  rw [← hs1]
  have e2 := flush_walk_frame (fun t c => render_diagonal t c.x c.y c.z)
    (fun t c => render_diagonal_frame t c.x c.y c.z) none
    (qsort ivec3cmp s1.render_queue) { s1 with shade_queue := [] }
  generalize flush_walk (fun t c => render_diagonal t c.x c.y c.z) none
    (qsort ivec3cmp s1.render_queue) { s1 with shade_queue := [] } = s3 at e2 ⊢
  simp only [vxl.frame] at e1 e2 ⊢
  simp only [vxl.mk.injEq] at e1 e2 ⊢
  simp_all

/-- Two volumes with the same frame agree on the flag, the queues and the occupancy. -/
theorem frame_dynamic {t s : vxl} (h : t.frame = s.frame) :
    t.data = s.data ∧ t.shade_queue = s.shade_queue ∧ t.render_queue = s.render_queue ∧
    t.full_update = s.full_update ∧ t.rotation = s.rotation ∧
    t.rotation_vx = s.rotation_vx ∧ t.rotation_vy = s.rotation_vy := by
  simp only [vxl.frame, vxl.mk.injEq] at h
  simp only [h, and_self]

/-- Two volumes with the same frame have the same dimensions and capacities. -/
theorem frame_static {t s : vxl} (h : t.frame = s.frame) :
    t.dim_x = s.dim_x ∧ t.dim_y = s.dim_y ∧ t.dim_z = s.dim_z ∧
    t.chunk_dim_x = s.chunk_dim_x ∧ t.chunk_dim_y = s.chunk_dim_y ∧
    t.chunk_dim_z = s.chunk_dim_z ∧ t.cdxy = s.cdxy ∧
    t.shade_queue_cap = s.shade_queue_cap ∧ t.render_queue_cap = s.render_queue_cap ∧
    t.bitmap_width = s.bitmap_width ∧ t.bitmap_height = s.bitmap_height := by
  simp only [vxl.frame, vxl.mk.injEq] at h
  simp only [h, and_self]

theorem frame_geom {t s : vxl} (h : t.frame = s.frame) : t.geom = s.geom := by
  obtain ⟨a1, a2, a3, a4, a5, a6, a7, a8, a9, a10, a11⟩ := frame_static h
  simp only [vxl.geom, a1, a2, a3, a4, a5, a6, a7, a8, a9, a10, a11]

theorem geom_fields {t s : vxl} (h : t.geom = s.geom) :
    t.dim_x = s.dim_x ∧ t.dim_y = s.dim_y ∧ t.dim_z = s.dim_z ∧
    t.chunk_dim_x = s.chunk_dim_x ∧ t.chunk_dim_y = s.chunk_dim_y ∧
    t.chunk_dim_z = s.chunk_dim_z ∧ t.cdxy = s.cdxy ∧
    t.shade_queue_cap = s.shade_queue_cap ∧ t.render_queue_cap = s.render_queue_cap ∧
    t.bitmap_width = s.bitmap_width ∧ t.bitmap_height = s.bitmap_height := by
  simpa [vxl.geom] using h

theorem geom_vxl_idx {t s : vxl} (h : t.geom = s.geom) (x y z : Int) :
    vxl_idx t x y z = vxl_idx s x y z := by
  obtain ⟨-, -, -, a4, -, -, a7, -⟩ := geom_fields h
  rw [vxl_idx_eq, vxl_idx_eq, a4, a7]

theorem geom_vxl_inside {t s : vxl} (h : t.geom = s.geom) (x y z : Int) :
    vxl_inside t x y z = vxl_inside s x y z := by
  obtain ⟨a1, a2, a3, -⟩ := geom_fields h
  simp only [vxl_inside, a1, a2, a3]

theorem geom_dims_chunked {t s : vxl} (h : t.geom = s.geom) (hs : dims_chunked s) :
    dims_chunked t := by
  obtain ⟨a1, a2, a3, a4, a5, a6, a7, -⟩ := geom_fields h
  simpa only [dims_chunked, a1, a2, a3, a4, a5, a6, a7] using hs

/-- What `vxl_flush` leaves of the frame: the flag is cleared in full mode, the
queues are emptied in incremental mode. -/
theorem vxl_flush_frame (s : vxl) :
    (vxl_flush s).frame =
      (if s.full_update ≠ 0 then { s with full_update := 0 }
       else { s with shade_queue := [], render_queue := [] }).frame := by
  by_cases h : s.full_update ≠ 0
  · rw [if_pos h]; exact vxl_flush_frame_full s h
  · rw [if_neg h]; exact vxl_flush_frame_incr s (by simpa using h)

theorem vxl_flush_geom (s : vxl) : (vxl_flush s).geom = s.geom := by
  rw [frame_geom (vxl_flush_frame s)]
  split <;> rfl

/-- No statement of `vxl_flush` assigns to the `data` map. This is a fact about
the maps of the embedding; a flush that writes outside the shade buffer leaves
the C occupancy array undetermined. -/
theorem vxl_flush_data (s : vxl) : (vxl_flush s).data = s.data := by
  rw [(frame_dynamic (vxl_flush_frame s)).1]
  split <;> rfl

theorem vxl_flush_view (s : vxl) :
    (vxl_flush s).rotation = s.rotation ∧ (vxl_flush s).rotation_vx = s.rotation_vx ∧
    (vxl_flush s).rotation_vy = s.rotation_vy := by
  obtain ⟨-, -, -, -, a, b, c⟩ := frame_dynamic (vxl_flush_frame s)
  rw [a, b, c]
  split <;> exact ⟨rfl, rfl, rfl⟩

theorem vxl_flush_full_update (s : vxl) : (vxl_flush s).full_update = 0 := by
  rw [(frame_dynamic (vxl_flush_frame s)).2.2.2.1]
  by_cases h : s.full_update ≠ 0
  · rw [if_pos h]
  · rw [if_neg h]; simpa using h

theorem vxl_flush_queues (s : vxl) :
    (vxl_flush s).shade_queue = (if s.full_update ≠ 0 then s.shade_queue else []) ∧
    (vxl_flush s).render_queue = (if s.full_update ≠ 0 then s.render_queue else []) := by
  obtain ⟨-, a, b, -⟩ := frame_dynamic (vxl_flush_frame s)
  rw [a, b]
  split <;> exact ⟨rfl, rfl⟩

/-! ## vxl_put, case by case -/

theorem vxl_put_outside (s : vxl) (x y z : Int) (v : Nat)
    (h : vxl_inside s x y z = false) : vxl_put s x y z v = (0, s) := by
  simp [vxl_put, h]

theorem vxl_put_quiet (s : vxl) (x y z : Int) (v : Nat)
    (hin : vxl_inside s x y z = true)
    (hq : s.full_update ≠ 0 ∨ s.data (vxl_idx s x y z) = v % 256) :
    vxl_put s x y z v =
      (0, { s with data := Function.update s.data (vxl_idx s x y z) (v % 256) }) := by
  simp only [vxl_put, hin, Bool.not_true, Bool.false_eq_true, if_false]
  rw [if_pos hq]

theorem vxl_put_queued (s : vxl) (x y z : Int) (v : Nat)
    (hin : vxl_inside s x y z = true) (hf : s.full_update = 0)
    (hv : s.data (vxl_idx s x y z) ≠ v % 256) :
    vxl_put s x y z v =
      ((if must_flush { s with data := Function.update s.data (vxl_idx s x y z) (v % 256) }
          then 1 else 0),
        { put_ready s x y z v with
          shade_queue := (put_ready s x y z v).shade_queue ++
            (if (decide (s.data (vxl_idx s x y z) = 0)) != (decide (v % 256 = 0))
              then put_shade_pushes (put_ready s x y z v) x y z else []),
          render_queue := (put_ready s x y z v).render_queue ++
            [as_diagonal (-(put_ready s x y z v).rotation_vx)
              (-(put_ready s x y z v).rotation_vy) 1
              (put_ready s x y z v).dim_x (put_ready s x y z v).dim_y
              (put_ready s x y z v).dim_z ⟨x, y, z⟩] }) := by
  have hq : ¬ (s.full_update ≠ 0 ∨ s.data (vxl_idx s x y z) = v % 256) := by
    simp [hf, hv]
  simp only [vxl_put, hin, Bool.not_true, Bool.false_eq_true, if_false]
  rw [if_neg hq]
  simp only [put_ready]
  split <;> split <;> simp

/-- A `vxl_put` that queues without flushing: the cell is written and the
entries are appended. -/
theorem vxl_put_unflushed (s : vxl) (x y z : Int) (v : Nat)
    (hin : vxl_inside s x y z = true) (hf : s.full_update = 0)
    (hv : s.data (vxl_idx s x y z) ≠ v % 256)
    (hm : must_flush { s with data := Function.update s.data (vxl_idx s x y z) (v % 256) }
      = false) :
    vxl_put s x y z v =
      (0, { s with
        data := Function.update s.data (vxl_idx s x y z) (v % 256)
        shade_queue := s.shade_queue ++
          (if (decide (s.data (vxl_idx s x y z) = 0)) != (decide (v % 256 = 0))
            then put_shade_pushes s x y z else [])
        render_queue := s.render_queue ++
          [as_diagonal (-s.rotation_vx) (-s.rotation_vy) 1 s.dim_x s.dim_y s.dim_z
            ⟨x, y, z⟩] }) := by
  have hp : put_ready s x y z v =
      { s with data := Function.update s.data (vxl_idx s x y z) (v % 256) } := by
    simp only [put_ready, hm, Bool.false_eq_true, if_false]
  rw [vxl_put_queued s x y z v hin hf hv, hp]
  simp only [hm, Bool.false_eq_true, if_false]
  rfl

/-- A `vxl_put` that flushes: the result is 1 and the shade cache is the one
the flush of the written volume leaves. -/
theorem vxl_put_flushed (s : vxl) (x y z : Int) (v : Nat)
    (hin : vxl_inside s x y z = true) (hf : s.full_update = 0)
    (hv : s.data (vxl_idx s x y z) ≠ v % 256)
    (hm : must_flush { s with data := Function.update s.data (vxl_idx s x y z) (v % 256) }
      = true) :
    (vxl_put s x y z v).1 = 1 ∧
    (vxl_put s x y z v).2.shade =
      (vxl_flush { s with data := Function.update s.data (vxl_idx s x y z) (v % 256) }).shade := by
  have hp : put_ready s x y z v =
      vxl_flush { s with data := Function.update s.data (vxl_idx s x y z) (v % 256) } := by
    simp only [put_ready, hm, if_true]
  rw [vxl_put_queued s x y z v hin hf hv, hp]
  simp only [hm, if_true, and_self]

/-! ## The invariant of reachable volumes -/

theorem potceil_three (v : Int) : potceil v CHUNK_LENGTH_LOG2 = (v + 7) - (v + 7) % 8 := by
  simp [potceil, shl, band_mask, CHUNK_LENGTH_LOG2]

theorem irange_neg_one_two : irange (-1) 2 = [-1, 0, 1] := by decide

theorem length_flatMap_le {α β : Type} (l : List α) (f : α → List β) (k : Nat)
    (h : ∀ a, (f a).length ≤ k) : (l.flatMap f).length ≤ l.length * k := by
  induction l with
  | nil => simp
  | cons a l ih =>
    simp only [List.flatMap_cons, List.length_append, List.length_cons]
    have := h a
    have e : (l.length + 1) * k = l.length * k + k := by ring
    omega

theorem put_shade_pushes_length_le (s : vxl) (x y z : Int) :
    (put_shade_pushes s x y z).length ≤ 27 := by
  unfold put_shade_pushes
  rw [irange_neg_one_two]
  refine le_trans (length_flatMap_le _ _ 9 ?_) (by simp)
  intro az
  refine le_trans (length_flatMap_le _ _ 3 ?_) (by simp)
  intro ay
  refine le_trans (length_flatMap_le _ _ 1 ?_) (by simp)
  intro ax
  simp only
  split_ifs <;> simp

theorem Inv_of_frame {t s : vxl} (h : t.frame = s.frame) (hs : Inv s) : Inv t := by
  obtain ⟨-, a2, a3, a4, -⟩ := frame_dynamic h
  obtain ⟨-, -, -, -, -, -, -, b8, b9, -⟩ := frame_static h
  have g := frame_geom h
  refine ⟨geom_dims_chunked g hs.dims, ?_, ?_, ?_, ?_, ?_, ?_⟩
  · rw [b8]; exact hs.scap
  · rw [b9]; exact hs.rcap
  · simp only [vxl.shade_queue_len, a2, b8]; exact hs.slen
  · simp only [vxl.render_queue_len, a3, b9]; exact hs.rlen
  · rw [a4]; exact hs.flag
  · rw [a2, a3, a4]; exact hs.idle

theorem Inv_vxl_flush (s : vxl) (hs : Inv s) : Inv (vxl_flush s) := by
  refine Inv_of_frame (vxl_flush_frame s) ?_
  by_cases h : s.full_update ≠ 0
  · rw [if_pos h]
    obtain ⟨q1, q2⟩ := hs.idle h
    refine ⟨hs.dims, hs.scap, hs.rcap, hs.slen, hs.rlen, Or.inl rfl, fun _ => ⟨q1, q2⟩⟩
  · rw [if_neg h]
    refine ⟨hs.dims, hs.scap, hs.rcap, ?_, ?_, hs.flag, fun _ => ⟨rfl, rfl⟩⟩
    · have := hs.scap
      simp only [vxl.shade_queue_len, List.length_nil] at *
      omega
    · have := hs.rcap
      simp only [vxl.render_queue_len, List.length_nil] at *
      omega

/-- After `vxl_flush` the flag is clear and, on a volume that satisfies the
invariant, both queues are empty. -/
theorem vxl_flush_idle (s : vxl) (hs : Inv s) :
    (vxl_flush s).full_update = 0 ∧ (vxl_flush s).shade_queue = [] ∧
    (vxl_flush s).render_queue = [] := by
  refine ⟨vxl_flush_full_update s, ?_⟩
  obtain ⟨a, b⟩ := vxl_flush_queues s
  rw [a, b]
  by_cases h : s.full_update ≠ 0
  · rw [if_pos h, if_pos h]; exact hs.idle h
  · rw [if_neg h, if_neg h]; exact ⟨rfl, rfl⟩

theorem Inv_set_data (s : vxl) (d : Int → Nat) (hs : Inv s) : Inv { s with data := d } :=
  ⟨hs.dims, hs.scap, hs.rcap, hs.slen, hs.rlen, hs.flag, hs.idle⟩

/-- The volume on which `vxl_put` pushes: same geometry, incremental mode, the
cell written, and headroom for 27 shade entries and one render entry. -/
theorem put_ready_spec (s : vxl) (x y z : Int) (v : Nat) (hs : Inv s)
    (hf : s.full_update = 0) :
    Inv (put_ready s x y z v) ∧
    (put_ready s x y z v).geom = s.geom ∧
    (put_ready s x y z v).full_update = 0 ∧
    (put_ready s x y z v).data = Function.update s.data (vxl_idx s x y z) (v % 256) ∧
    (put_ready s x y z v).shade_queue_len + 27 ≤ (put_ready s x y z v).shade_queue_cap ∧
    (put_ready s x y z v).render_queue_len + 1 ≤ (put_ready s x y z v).render_queue_cap := by
  have h1 : Inv { s with data := Function.update s.data (vxl_idx s x y z) (v % 256) } :=
    Inv_set_data s _ hs
  simp only [put_ready]
  split
  · rename_i hm
    obtain ⟨i1, i2, i3⟩ := vxl_flush_idle _ h1
    have hi := Inv_vxl_flush _ h1
    refine ⟨hi, vxl_flush_geom _, i1, vxl_flush_data _, ?_, ?_⟩
    · rw [hi.scap]; simp [vxl.shade_queue_len, i2]
    · rw [hi.rcap]; simp [vxl.render_queue_len, i3]
  · rename_i hm
    refine ⟨h1, rfl, hf, rfl, ?_, ?_⟩
    · simp only [must_flush, vxl.shade_queue_len, vxl.render_queue_len, Bool.or_eq_true,
        decide_eq_true_eq, not_or, not_lt] at hm ⊢
      have := hm.1
      omega
    · simp only [must_flush, vxl.shade_queue_len, vxl.render_queue_len, Bool.or_eq_true,
        decide_eq_true_eq, not_or, not_lt] at hm ⊢
      have := hm.2
      omega

theorem Inv_vxl_put (s : vxl) (x y z : Int) (v : Nat) (hs : Inv s) :
    Inv (vxl_put s x y z v).2 := by
  by_cases hin : vxl_inside s x y z = true
  · by_cases hq : s.full_update ≠ 0 ∨ s.data (vxl_idx s x y z) = v % 256
    · rw [vxl_put_quiet s x y z v hin hq]
      exact Inv_set_data s _ hs
    · have hf : s.full_update = 0 := by
        by_contra hc; exact hq (Or.inl hc)
      have hv : s.data (vxl_idx s x y z) ≠ v % 256 := fun hc => hq (Or.inr hc)
      rw [vxl_put_queued s x y z v hin hf hv]
      obtain ⟨hi, -, h0, -, h27, h1⟩ := put_ready_spec s x y z v hs hf
      generalize put_ready s x y z v = t at hi h0 h27 h1
      refine ⟨hi.dims, hi.scap, hi.rcap, ?_, ?_, Or.inl h0, fun hc => absurd h0 hc⟩
      · simp only [vxl.shade_queue_len, List.length_append, Nat.cast_add] at h27 ⊢
        have hl : ((if (decide (s.data (vxl_idx s x y z) = 0) != decide (v % 256 = 0)) = true
            then put_shade_pushes t x y z else []).length : Int) ≤ 27 := by
          split
          · exact_mod_cast put_shade_pushes_length_le t x y z
          · simp
        omega
      · simp only [vxl.render_queue_len, List.length_append, Nat.cast_add,
          List.length_singleton, Nat.cast_one] at h1 ⊢
        omega
  · have hout : vxl_inside s x y z = false := by simpa using hin
    rw [vxl_put_outside s x y z v hout]
    exact hs

theorem Inv_vxl_set_full_update (s : vxl) (hs : Inv s) : Inv (vxl_set_full_update s) := by
  unfold vxl_set_full_update
  split
  · exact hs
  · have hi := Inv_vxl_flush s hs
    obtain ⟨-, i2, i3⟩ := vxl_flush_idle s hs
    exact ⟨hi.dims, hi.scap, hi.rcap, hi.slen, hi.rlen, Or.inr rfl, fun _ => ⟨i2, i3⟩⟩

theorem Inv_vxl_set_rotation (s : vxl) (r : Int) (hs : Inv s) :
    Inv (vxl_set_rotation s r) := by
  unfold vxl_set_rotation
  simp only
  split
  · exact Inv_vxl_set_full_update _
      ⟨hs.dims, hs.scap, hs.rcap, hs.slen, hs.rlen, hs.flag, hs.idle⟩
  · exact ⟨hs.dims, hs.scap, hs.rcap, hs.slen, hs.rlen, hs.flag, hs.idle⟩

theorem vxl_init_dims_chunked (dx dy dz : Int) (hx : 0 < dx) (hy : 0 < dy) (hz : 0 < dz) :
    dims_chunked (vxl_init dx dy dz) := by
  simp only [vxl_init, vxl_set_rotation, band_mask, dims_chunked, potceil_three]
  norm_num
  omega

theorem Inv_vxl_init (dx dy dz : Int) (hx : 0 < dx) (hy : 0 < dy) (hz : 0 < dz) :
    Inv (vxl_init dx dy dz) := by
  refine ⟨vxl_init_dims_chunked dx dy dz hx hy hz, ?_, ?_, ?_, ?_, ?_, ?_⟩ <;>
    simp [vxl_init, vxl_set_rotation, band_mask, shl, vxl.shade_queue_len,
      vxl.render_queue_len]

theorem Reachable.inv {s : vxl} (h : Reachable s) : Inv s := by
  induction h with
  | init dx dy dz hx hy hz => exact Inv_vxl_init dx dy dz hx hy hz
  | put s x y z v _ ih => exact Inv_vxl_put s x y z v ih
  | flush s _ ih => exact Inv_vxl_flush s ih
  | set_rotation s r _ ih => exact Inv_vxl_set_rotation s r ih
  | set_full_update s _ ih => exact Inv_vxl_set_full_update s ih

theorem C1_vxl_idx_bijection_witness :
    dims_chunked (vxl_init 4 4 1) ∧
    (0 ≤ vxl_idx (vxl_init 4 4 1) 1 2 0 ∧
      vxl_idx (vxl_init 4 4 1) 1 2 0 <
        (vxl_init 4 4 1).dim_x * (vxl_init 4 4 1).dim_y * (vxl_init 4 4 1).dim_z) ∧
    (∃ x y z, vxl_inside (vxl_init 4 4 1) x y z = true ∧ vxl_idx (vxl_init 4 4 1) x y z = 511) :=
  ⟨vxl_init_dims_chunked 4 4 1 (by decide) (by decide) (by decide),
    (C1_vxl_idx_bijection (vxl_init 4 4 1)
      (vxl_init_dims_chunked 4 4 1 (by decide) (by decide) (by decide))).1 1 2 0 (by decide),
    (C1_vxl_idx_bijection (vxl_init 4 4 1)
      (vxl_init_dims_chunked 4 4 1 (by decide) (by decide) (by decide))).2.2 511
      (by decide) (by decide)⟩

theorem put_ready_data (s : vxl) (x y z : Int) (v : Nat) :
    (put_ready s x y z v).data = Function.update s.data (vxl_idx s x y z) (v % 256) := by
  simp only [put_ready]
  split
  · exact vxl_flush_data _
  · rfl

theorem put_ready_geom (s : vxl) (x y z : Int) (v : Nat) :
    (put_ready s x y z v).geom = s.geom := by
  simp only [put_ready]
  split
  · exact vxl_flush_geom _
  · rfl

theorem vxl_put_geom (s : vxl) (x y z : Int) (v : Nat) :
    (vxl_put s x y z v).2.geom = s.geom := by
  by_cases hin : vxl_inside s x y z = true
  · by_cases hq : s.full_update ≠ 0 ∨ s.data (vxl_idx s x y z) = v % 256
    · rw [vxl_put_quiet s x y z v hin hq]; rfl
    · have hf : s.full_update = 0 := by
        by_contra hc; exact hq (Or.inl hc)
      have hv : s.data (vxl_idx s x y z) ≠ v % 256 := fun hc => hq (Or.inr hc)
      rw [vxl_put_queued s x y z v hin hf hv]
      exact put_ready_geom s x y z v
  · have hout : vxl_inside s x y z = false := by simpa using hin
    rw [vxl_put_outside s x y z v hout]

theorem vxl_put_data (s : vxl) (x y z : Int) (v : Nat) (hin : vxl_inside s x y z = true) :
    (vxl_put s x y z v).2.data = Function.update s.data (vxl_idx s x y z) (v % 256) := by
  by_cases hq : s.full_update ≠ 0 ∨ s.data (vxl_idx s x y z) = v % 256
  · rw [vxl_put_quiet s x y z v hin hq]
  · have hf : s.full_update = 0 := by
      by_contra hc; exact hq (Or.inl hc)
    have hv : s.data (vxl_idx s x y z) ≠ v % 256 := fun hc => hq (Or.inr hc)
    rw [vxl_put_queued s x y z v hin hf hv]
    exact put_ready_data s x y z v

theorem put_shade_pushes_geom {t s : vxl} (h : t.geom = s.geom) (x y z : Int) :
    put_shade_pushes t x y z = put_shade_pushes s x y z := by
  obtain ⟨a1, a2, a3, -⟩ := geom_fields h
  simp only [put_shade_pushes, a1, a2, a3]

/-! ## The claims about vxl_put and vxl_flush -/

/-- C2. A `vxl_put` at a coordinate that is out of range on some axis (negative,
or not below the dimension) returns 0 and gives back the volume as it was:
occupancy, shade, queues, bitmap and flags are all unchanged. -/
theorem C2_put_out_of_range (s : vxl) (x y z : Int) (v : Nat)
    (h : x < 0 ∨ s.dim_x ≤ x ∨ y < 0 ∨ s.dim_y ≤ y ∨ z < 0 ∨ s.dim_z ≤ z) :
    vxl_put s x y z v = (0, s) := by
  apply vxl_put_outside
  rw [← Bool.not_eq_true, vxl_inside_iff]
  omega

theorem C2_put_out_of_range_witness :
    ((-1 : Int) < 0 ∨ (vxl_init 4 4 1).dim_x ≤ -1 ∨ (2 : Int) < 0 ∨
      (vxl_init 4 4 1).dim_y ≤ 2 ∨ (8 : Int) < 0 ∨ (vxl_init 4 4 1).dim_z ≤ 8) ∧
    vxl_put (vxl_init 4 4 1) (-1) 2 8 5 = (0, vxl_init 4 4 1) :=
  ⟨Or.inl (by decide), C2_put_out_of_range (vxl_init 4 4 1) (-1) 2 8 5 (Or.inl (by decide))⟩

/-- Read-back of a `vxl_put` that does not flush. When an in-bounds `vxl_put` of
a byte `v` returns 0, no flush has run: the occupancy read back at `(x,y,z)`
is `v` and the occupancy of every other in-bounds voxel is as it was. -/
theorem vxl_put_read_back (s : vxl) (hd : dims_chunked s) (x y z : Int) (v : Nat)
    (hv : v < 256) (hin : vxl_inside s x y z = true) (h0 : (vxl_put s x y z v).1 = 0) :
    (vxl_put s x y z v).2.data (vxl_idx (vxl_put s x y z v).2 x y z) = v ∧
    ∀ x' y' z', vxl_inside s x' y' z' = true → (x', y', z') ≠ (x, y, z) →
      (vxl_put s x y z v).2.data (vxl_idx (vxl_put s x y z v).2 x' y' z') =
        s.data (vxl_idx s x' y' z') := by
  have hg := vxl_put_geom s x y z v
  have hm : v % 256 = v := Nat.mod_eq_of_lt hv
  have hdat : (vxl_put s x y z v).2.data =
      Function.update s.data (vxl_idx s x y z) (v % 256) := by
    by_cases hq : s.full_update ≠ 0 ∨ s.data (vxl_idx s x y z) = v % 256
    · rw [vxl_put_quiet s x y z v hin hq]
    · have hf : s.full_update = 0 := by
        by_contra hc; exact hq (Or.inl hc)
      have hne : s.data (vxl_idx s x y z) ≠ v % 256 := fun hc => hq (Or.inr hc)
      have hmf : must_flush
          { s with data := Function.update s.data (vxl_idx s x y z) (v % 256) } = false := by
        by_contra hc
        rw [Bool.not_eq_false] at hc
        rw [(vxl_put_flushed s x y z v hin hf hne hc).1] at h0
        exact absurd h0 (by decide)
      rw [vxl_put_unflushed s x y z v hin hf hne hmf]
  constructor
  · rw [geom_vxl_idx hg, hdat, Function.update_same, hm]
  · intro x' y' z' hin' hne
    rw [geom_vxl_idx hg, hdat, Function.update_noteq]
    intro e
    obtain ⟨e1, e2, e3⟩ := vxl_idx_inj s hd x' y' z' x y z hin' hin e
    exact hne (by rw [e1, e2, e3])

/-- C4. An in-bounds `vxl_put` of a byte `v` made while the full-update flag is
set, or whose value equals the voxel's current one, returns 0 and gives back
the volume with the occupancy cell of `(x,y,z)` set to `v` and nothing else
changed: queues, shade, bitmap, rotation and flag are those of before, so no
flush took place. -/
theorem C4_put_without_bookkeeping (s : vxl) (x y z : Int) (v : Nat) (hv : v < 256)
    (hin : vxl_inside s x y z = true)
    (hq : s.full_update ≠ 0 ∨ s.data (vxl_idx s x y z) = v) :
    vxl_put s x y z v =
      (0, { s with data := Function.update s.data (vxl_idx s x y z) v }) := by
  have hm : v % 256 = v := Nat.mod_eq_of_lt hv
  have := vxl_put_quiet s x y z v hin (by rw [hm]; exact hq)
  rw [hm] at this
  exact this

theorem C4_put_without_bookkeeping_witness :
    vxl_put (vxl_set_full_update (vxl_init 4 4 1)) 3 3 0 7 =
      (0, { vxl_set_full_update (vxl_init 4 4 1) with
        data := Function.update (vxl_set_full_update (vxl_init 4 4 1)).data
          (vxl_idx (vxl_set_full_update (vxl_init 4 4 1)) 3 3 0) 7 }) :=
  C4_put_without_bookkeeping (vxl_set_full_update (vxl_init 4 4 1)) 3 3 0 7 (by decide)
    (by decide) (Or.inl (by decide))

theorem must_flush_iff (s : vxl) :
    must_flush s = true ↔
      (s.shade_queue_len + 27 > s.shade_queue_cap ∨
        s.render_queue_len + 1 > s.render_queue_cap) := by
  simp [must_flush]

/-- C5. The result of `vxl_put` tells whether it flushed. For an in-bounds put of
a byte `v` in incremental mode whose value differs from the old one, the
result is 1 exactly when `shade_queue_len + 27 > shade_queue_cap` or
`render_queue_len + 1 > render_queue_cap` held on entry; then the volume with
the cell written is flushed first and the queues afterwards hold only the
entries of this write; otherwise the result is 0 and the entries are appended
to the queues of the unflushed volume. In every other case (out of bounds,
full-update mode, unchanged value) the result is 0 and the volume is not
flushed. -/
theorem C5_put_result_iff_flush (s : vxl) (x y z : Int) (v : Nat) (hv : v < 256) :
    (vxl_inside s x y z = true → s.full_update = 0 → s.data (vxl_idx s x y z) ≠ v →
      ((vxl_put s x y z v).1 = 1 ↔
        (s.shade_queue_len + 27 > s.shade_queue_cap ∨
          s.render_queue_len + 1 > s.render_queue_cap)) ∧
      ((s.shade_queue_len + 27 > s.shade_queue_cap ∨
          s.render_queue_len + 1 > s.render_queue_cap) →
        (vxl_put s x y z v).2 =
          { vxl_flush { s with data := Function.update s.data (vxl_idx s x y z) v } with
            shade_queue := put_shade_entries s x y z v
            render_queue := [put_render_entry s x y z] }) ∧
      (¬ (s.shade_queue_len + 27 > s.shade_queue_cap ∨
          s.render_queue_len + 1 > s.render_queue_cap) →
        (vxl_put s x y z v).1 = 0 ∧
        (vxl_put s x y z v).2 =
          { s with
            data := Function.update s.data (vxl_idx s x y z) v
            shade_queue := s.shade_queue ++ put_shade_entries s x y z v
            render_queue := s.render_queue ++ [put_render_entry s x y z] })) ∧
    (vxl_inside s x y z = false → vxl_put s x y z v = (0, s)) ∧
    (vxl_inside s x y z = true → (s.full_update ≠ 0 ∨ s.data (vxl_idx s x y z) = v) →
      vxl_put s x y z v =
        (0, { s with data := Function.update s.data (vxl_idx s x y z) v })) := by
  have hm : v % 256 = v := Nat.mod_eq_of_lt hv
  refine ⟨?_, vxl_put_outside s x y z v, fun hin hq => by
    have hq' := vxl_put_quiet s x y z v hin (by rw [hm]; exact hq)
    rw [hm] at hq'
    exact hq'⟩
  intro hin hf hne
  have hne' : s.data (vxl_idx s x y z) ≠ v % 256 := by rw [hm]; exact hne
  have e := vxl_put_queued s x y z v hin hf hne'
  have hp : put_ready s x y z v =
      if must_flush { s with data := Function.update s.data (vxl_idx s x y z) v }
      then vxl_flush { s with data := Function.update s.data (vxl_idx s x y z) v }
      else { s with data := Function.update s.data (vxl_idx s x y z) v } := by
    simp only [put_ready, hm]
  rw [hm] at e
  have hc : (s.shade_queue_len + 27 > s.shade_queue_cap ∨
      s.render_queue_len + 1 > s.render_queue_cap) ↔
      must_flush { s with data := Function.update s.data (vxl_idx s x y z) v }
        = true :=
    (must_flush_iff { s with data := Function.update s.data (vxl_idx s x y z) v }).symm
  rw [hc]
  refine ⟨?_, ?_, ?_⟩
  · rw [e]
    by_cases hb : must_flush
        { s with data := Function.update s.data (vxl_idx s x y z) v } = true
    · simp [hb]
    · simp [hb]
  · intro hb
    rw [e]
    rw [if_pos hb] at hp
    obtain ⟨q1, q2⟩ := vxl_flush_queues
      { s with data := Function.update s.data (vxl_idx s x y z) v }
    have hn : ¬ (s.full_update ≠ 0) := by simp [hf]
    simp only [if_neg hn] at q1 q2
    obtain ⟨-, -, -, -, -, v1, v2⟩ := frame_dynamic (vxl_flush_frame
      { s with data := Function.update s.data (vxl_idx s x y z) v })
    obtain ⟨d1, d2, d3, -⟩ := frame_static (vxl_flush_frame
      { s with data := Function.update s.data (vxl_idx s x y z) v })
    simp only [if_neg hn] at v1 v2 d1 d2 d3
    have hg := put_shade_pushes_geom (vxl_flush_geom
      { s with data := Function.update s.data (vxl_idx s x y z) v }) x y z
    simp only [hp, q1, q2, List.nil_append, v1, v2, d1, d2, d3, hg, put_shade_entries,
      put_render_entry, hm]
    rfl
  · intro hb
    rw [e]
    rw [if_neg hb] at hp
    simp only [hp, if_neg hb, put_shade_entries, put_render_entry, hm, true_and]
    rfl

theorem C5_put_result_iff_flush_witness :
    ((vxl_put (vxl_init 4 4 1) 1 2 0 5).1 = 1 ↔
      ((vxl_init 4 4 1).shade_queue_len + 27 > (vxl_init 4 4 1).shade_queue_cap ∨
        (vxl_init 4 4 1).render_queue_len + 1 > (vxl_init 4 4 1).render_queue_cap)) :=
  ((C5_put_result_iff_flush (vxl_init 4 4 1) 1 2 0 5 (by decide)).1
    (by decide) (by decide) (by decide)).1

/-- C6. Queue bounds. In every volume reachable from `vxl_init` by `vxl_put`,
`vxl_flush`, `vxl_set_rotation` and `vxl_set_full_update`, each queue length
lies between 0 and its capacity, and the capacities are 65536 and 16384; a
push therefore never lands past the end of a queue. -/
theorem C6_queue_bounds (s : vxl) (h : Reachable s) :
    0 ≤ s.shade_queue_len ∧ s.shade_queue_len ≤ s.shade_queue_cap ∧
    0 ≤ s.render_queue_len ∧ s.render_queue_len ≤ s.render_queue_cap ∧
    s.shade_queue_cap = 65536 ∧ s.render_queue_cap = 16384 :=
  ⟨by simp [vxl.shade_queue_len], h.inv.slen, by simp [vxl.render_queue_len], h.inv.rlen,
    h.inv.scap, h.inv.rcap⟩

theorem C6_queue_bounds_witness :
    0 ≤ (vxl_put (vxl_init 4 4 1) 1 2 0 5).2.shade_queue_len ∧
    (vxl_put (vxl_init 4 4 1) 1 2 0 5).2.shade_queue_len ≤
      (vxl_put (vxl_init 4 4 1) 1 2 0 5).2.shade_queue_cap ∧
    0 ≤ (vxl_put (vxl_init 4 4 1) 1 2 0 5).2.render_queue_len ∧
    (vxl_put (vxl_init 4 4 1) 1 2 0 5).2.render_queue_len ≤
      (vxl_put (vxl_init 4 4 1) 1 2 0 5).2.render_queue_cap ∧
    (vxl_put (vxl_init 4 4 1) 1 2 0 5).2.shade_queue_cap = 65536 ∧
    (vxl_put (vxl_init 4 4 1) 1 2 0 5).2.render_queue_cap = 16384 :=
  C6_queue_bounds _ (Reachable.put _ 1 2 0 5
    (Reachable.init 4 4 1 (by decide) (by decide) (by decide)))

theorem eq_of_queues_nil (t : vxl) (h1 : t.shade_queue = []) (h2 : t.render_queue = []) :
    { t with shade_queue := [], render_queue := [] } = t := by
  cases t
  simp only at h1 h2
  subst h1 h2
  rfl

theorem vxl_flush_idle_eq (t : vxl) (hf : t.full_update = 0) (h1 : t.shade_queue = [])
    (h2 : t.render_queue = []) : vxl_flush t = t := by
  have hn : ¬ (t.full_update ≠ 0) := by simp [hf]
  simp only [vxl_flush, if_neg hn, h1, h2, qsort, List.insertionSort, flush_walk]
  cases t
  simp only at h1 h2
  subst h1 h2
  rfl

/-- C8. Flushing twice. On a reachable volume a second `vxl_flush` right after
the first changes nothing: the whole volume, bitmap included, is the one the
first flush left. -/
theorem C8_flush_idempotent (s : vxl) (h : Reachable s) :
    vxl_flush (vxl_flush s) = vxl_flush s := by
  obtain ⟨a, b, c⟩ := vxl_flush_idle s h.inv
  exact vxl_flush_idle_eq _ a b c

theorem C8_flush_idempotent_witness :
    vxl_flush (vxl_flush (vxl_put (vxl_init 4 4 1) 1 2 0 5).2) =
      vxl_flush (vxl_put (vxl_init 4 4 1) 1 2 0 5).2 :=
  C8_flush_idempotent _ (Reachable.put _ 1 2 0 5
    (Reachable.init 4 4 1 (by decide) (by decide) (by decide)))

/-- The counters after a flush. On a reachable volume, in full mode as in
incremental mode, `vxl_flush` leaves the full-update flag 0 and both queue
lengths 0, so its three closing assertions hold. -/
theorem vxl_flush_counters (s : vxl) (h : Reachable s) :
    (vxl_flush s).full_update = 0 ∧ (vxl_flush s).shade_queue_len = 0 ∧
    (vxl_flush s).render_queue_len = 0 ∧ vxl_flush_asserts (vxl_flush s) = true := by
  obtain ⟨a, b, c⟩ := vxl_flush_idle s h.inv
  refine ⟨a, ?_, ?_, ?_⟩
  · simp [vxl.shade_queue_len, b]
  · simp [vxl.render_queue_len, c]
  · simp [vxl_flush_asserts, vxl.shade_queue_len, vxl.render_queue_len, a, b, c]

/-! ## The queue walk of an incremental flush -/

theorem flush_walk_record (prev : Option ivec3) (l : List ivec3) (acc : List ivec3) :
    flush_walk (fun tr c => tr ++ [c]) prev l acc = acc ++ walk_calls prev l := by
  induction l generalizing prev acc with
  | nil => cases prev <;> simp [walk_calls, flush_walk]
  | cons p rest ih =>
    cases prev with
    | none =>
      simp only [walk_calls, flush_walk]
      rw [ih, ih (some p) ([] ++ [p])]
      simp
    | some q =>
      simp only [walk_calls, flush_walk]
      split
      · rw [ih]; rfl
      · rw [ih, ih (some p) ([] ++ [p])]
        simp

theorem walk_calls_none_cons (p : ivec3) (rest : List ivec3) :
    walk_calls none (p :: rest) = p :: walk_calls (some p) rest := by
  simp only [walk_calls, flush_walk]
  rw [flush_walk_record]
  rfl

theorem walk_calls_some_cons (q p : ivec3) (rest : List ivec3) :
    walk_calls (some q) (p :: rest) =
      if ivec3cmp p q = 0 then walk_calls (some p) rest
      else p :: walk_calls (some p) rest := by
  simp only [walk_calls, flush_walk]
  split
  · rfl
  · rw [flush_walk_record]
    rfl

/-- The walk applies its operation to its calls, one after the other. -/
theorem flush_walk_eq_foldl {σ : Type} (f : σ → ivec3 → σ) (prev : Option ivec3)
    (l : List ivec3) (t : σ) :
    flush_walk f prev l t = (walk_calls prev l).foldl f t := by
  induction l generalizing prev t with
  | nil => cases prev <;> simp [walk_calls, flush_walk]
  | cons p rest ih =>
    cases prev with
    | none => rw [walk_calls_none_cons, flush_walk, ih]; rfl
    | some q =>
      rw [walk_calls_some_cons, flush_walk]
      split
      · rw [ih]
      · rw [ih]; rfl

/-! ### memcmp as an order on byte strings of one length -/

theorem memcmp_self (a : List Nat) : memcmp a a = 0 := by
  induction a with
  | nil => rfl
  | cons x xs ih => simp [memcmp, ih]

theorem memcmp_eq_zero (a b : List Nat) (hl : a.length = b.length)
    (h : memcmp a b = 0) : a = b := by
  induction a generalizing b with
  | nil =>
    cases b with
    | nil => rfl
    | cons y ys => simp at hl
  | cons x xs ih =>
    cases b with
    | nil => simp at hl
    | cons y ys =>
      simp only [memcmp] at h
      split at h
      · omega
      · split at h
        · omega
        · have hxy : x = y := by omega
          rw [hxy, ih ys (by simpa using hl) h]

theorem memcmp_swap (a b : List Nat) : memcmp b a = - memcmp a b := by
  induction a generalizing b with
  | nil => cases b <;> simp [memcmp]
  | cons x xs ih =>
    cases b with
    | nil => simp [memcmp]
    | cons y ys =>
      simp only [memcmp]
      split_ifs <;> first | omega | exact ih ys

theorem memcmp_trans (a b c : List Nat) (hab : a.length = b.length)
    (hbc : b.length = c.length) (h1 : memcmp a b ≤ 0) (h2 : memcmp b c ≤ 0) :
    memcmp a c ≤ 0 := by
  induction a generalizing b c with
  | nil => simp [memcmp]
  | cons x xs ih =>
    cases b with
    | nil => simp at hab
    | cons y ys =>
      cases c with
      | nil => simp at hbc
      | cons w ws =>
        simp only [memcmp] at h1 h2 ⊢
        simp only [List.length_cons, add_left_inj] at hab hbc
        split_ifs at h1 h2 ⊢ <;> first | omega | exact ih ys ws hab hbc h1 h2

theorem ivec3_bytes_length (a : ivec3) : (ivec3_bytes a).length = 12 := by
  simp [ivec3_bytes, int_bytes]

theorem int_bytes_inj (v w : Int) (hv : int32 v) (hw : int32 w)
    (h : int_bytes v = int_bytes w) : v = w := by
  simp only [int_bytes, List.cons.injEq, and_true] at h
  obtain ⟨h0, h1, h2, h3⟩ := h
  obtain ⟨v0, v1⟩ := hv
  obtain ⟨w0, w1⟩ := hw
  have hv0 : 0 ≤ v % 4294967296 := Int.emod_nonneg _ (by decide)
  have hw0 : 0 ≤ w % 4294967296 := Int.emod_nonneg _ (by decide)
  have hv1 : v % 4294967296 < 4294967296 := Int.emod_lt_of_pos _ (by decide)
  have hw1 : w % 4294967296 < 4294967296 := Int.emod_lt_of_pos _ (by decide)
  have hu : (v % 4294967296).toNat = (w % 4294967296).toNat := by omega
  omega

theorem ivec3_bytes_inj (a b : ivec3) (ha : a.valid) (hb : b.valid)
    (h : ivec3_bytes a = ivec3_bytes b) : a = b := by
  have l1 : (int_bytes a.x).length = (int_bytes b.x).length := by simp [int_bytes]
  have l2 : (int_bytes a.y).length = (int_bytes b.y).length := by simp [int_bytes]
  simp only [ivec3_bytes, List.append_assoc] at h
  obtain ⟨e1, h'⟩ := List.append_inj h l1
  obtain ⟨e2, e3⟩ := List.append_inj h' l2
  cases a
  cases b
  simp only [ivec3.mk.injEq]
  exact ⟨int_bytes_inj _ _ ha.1 hb.1 e1, int_bytes_inj _ _ ha.2.1 hb.2.1 e2,
    int_bytes_inj _ _ ha.2.2 hb.2.2 e3⟩

/-- The comparator is 0 exactly on equal coordinates. -/
theorem ivec3cmp_eq_zero_iff (a b : ivec3) (ha : a.valid) (hb : b.valid) :
    ivec3cmp a b = 0 ↔ a = b := by
  constructor
  · intro h
    apply ivec3_bytes_inj a b ha hb
    exact memcmp_eq_zero _ _ (by rw [ivec3_bytes_length, ivec3_bytes_length]) h
  · intro h
    rw [h]
    exact memcmp_self _

theorem ivec3cmp_antisymm (a b : ivec3) (ha : a.valid) (hb : b.valid)
    (h1 : ivec3cmp a b ≤ 0) (h2 : ivec3cmp b a ≤ 0) : a = b := by
  apply (ivec3cmp_eq_zero_iff a b ha hb).1
  have := memcmp_swap (ivec3_bytes a) (ivec3_bytes b)
  simp only [ivec3cmp] at h1 h2 ⊢
  omega

theorem qsort_sorted (q : List ivec3) :
    (qsort ivec3cmp q).Sorted (fun a b => ivec3cmp a b ≤ 0) := by
  haveI : IsTotal ivec3 (fun a b => ivec3cmp a b ≤ 0) := ⟨fun a b => by
    have := memcmp_swap (ivec3_bytes a) (ivec3_bytes b)
    simp only [ivec3cmp]
    omega⟩
  haveI : IsTrans ivec3 (fun a b => ivec3cmp a b ≤ 0) := ⟨fun a b c h1 h2 =>
    memcmp_trans _ _ _ (by rw [ivec3_bytes_length, ivec3_bytes_length])
      (by rw [ivec3_bytes_length, ivec3_bytes_length]) h1 h2⟩
  exact List.sorted_insertionSort _ q

theorem qsort_perm (q : List ivec3) : (qsort ivec3cmp q).Perm q :=
  List.perm_insertionSort _ q

/-- In a sorted run that follows the entry `q`, the walk calls exactly the
entries different from `q`. -/
theorem mem_walk_calls_some (q : ivec3) (l : List ivec3)
    (hs : (q :: l).Sorted (fun a b => ivec3cmp a b ≤ 0))
    (hv : ∀ c ∈ q :: l, c.valid) (c : ivec3) :
    c ∈ walk_calls (some q) l ↔ c ∈ l ∧ c ≠ q := by
  induction l generalizing q with
  | nil => simp [walk_calls, flush_walk]
  | cons p rest ih =>
    have hq : q.valid := hv q (by simp)
    have hp : p.valid := hv p (by simp)
    obtain ⟨hqall, hs'⟩ := List.sorted_cons.1 hs
    have ih' := ih p hs' (fun c hc => hv c (List.mem_cons_of_mem _ hc))
    rw [walk_calls_some_cons]
    by_cases hpq : ivec3cmp p q = 0
    · rw [if_pos hpq, ih']
      have e : p = q := (ivec3cmp_eq_zero_iff p q hp hq).1 hpq
      subst e
      simp only [List.mem_cons]
      constructor
      · rintro ⟨h1, h2⟩; exact ⟨Or.inr h1, h2⟩
      · rintro ⟨h1 | h1, h2⟩
        · exact absurd h1 h2
        · exact ⟨h1, h2⟩
    · rw [if_neg hpq]
      have hne : p ≠ q := fun e => hpq ((ivec3cmp_eq_zero_iff p q hp hq).2 e)
      simp only [List.mem_cons, ih']
      constructor
      · rintro (h1 | ⟨h1, h2⟩)
        · exact ⟨Or.inl h1, by rw [h1]; exact hne⟩
        · refine ⟨Or.inr h1, ?_⟩
          intro e
          subst e
          have hpc : ivec3cmp p c ≤ 0 := (List.sorted_cons.1 hs').1 c h1
          have hcp : ivec3cmp c p ≤ 0 := hqall p (by simp)
          exact hne (ivec3cmp_antisymm p c hp hq hpc hcp)
      · rintro ⟨h1 | h1, h2⟩
        · exact Or.inl h1
        · by_cases e : c = p
          · exact Or.inl e
          · exact Or.inr ⟨h1, e⟩

theorem nodup_walk_calls_some (q : ivec3) (l : List ivec3)
    (hs : (q :: l).Sorted (fun a b => ivec3cmp a b ≤ 0))
    (hv : ∀ c ∈ q :: l, c.valid) : (walk_calls (some q) l).Nodup := by
  induction l generalizing q with
  | nil => simp [walk_calls, flush_walk]
  | cons p rest ih =>
    obtain ⟨-, hs'⟩ := List.sorted_cons.1 hs
    have hv' : ∀ c ∈ p :: rest, c.valid := fun c hc => hv c (List.mem_cons_of_mem _ hc)
    rw [walk_calls_some_cons]
    split
    · exact ih p hs' hv'
    · refine List.nodup_cons.2 ⟨?_, ih p hs' hv'⟩
      rw [mem_walk_calls_some p rest hs' hv']
      exact fun h => h.2 rfl

/-- Over a sorted queue the walk calls every entry of the queue, each once. -/
theorem walk_calls_none_spec (l : List ivec3)
    (hs : l.Sorted (fun a b => ivec3cmp a b ≤ 0)) (hv : ∀ c ∈ l, c.valid) :
    (walk_calls none l).Nodup ∧ ∀ c, c ∈ walk_calls none l ↔ c ∈ l := by
  cases l with
  | nil => simp [walk_calls, flush_walk]
  | cons p rest =>
    rw [walk_calls_none_cons]
    constructor
    · refine List.nodup_cons.2 ⟨?_, nodup_walk_calls_some p rest hs hv⟩
      rw [mem_walk_calls_some p rest hs hv]
      exact fun h => h.2 rfl
    · intro c
      simp only [List.mem_cons, mem_walk_calls_some p rest hs hv]
      constructor
      · rintro (h | ⟨h, -⟩)
        · exact Or.inl h
        · exact Or.inr h
      · rintro (h | h)
        · exact Or.inl h
        · by_cases e : c = p
          · exact Or.inl e
          · exact Or.inr ⟨h, e⟩

theorem flush_calls_spec (q : List ivec3) (hv : ∀ c ∈ q, c.valid) :
    (flush_calls q).Nodup ∧ ∀ c, c ∈ flush_calls q ↔ c ∈ q := by
  have hp := qsort_perm q
  obtain ⟨h1, h2⟩ := walk_calls_none_spec (qsort ivec3cmp q) (qsort_sorted q)
    (fun c hc => hv c (hp.mem_iff.1 hc))
  exact ⟨h1, fun c => (h2 c).trans hp.mem_iff⟩

theorem vxl_flush_incremental (s : vxl) (hf : s.full_update = 0) :
    vxl_flush s =
      { (flush_calls s.render_queue).foldl (fun t c => render_diagonal t c.x c.y c.z)
          { (flush_calls s.shade_queue).foldl (fun t c => update_shade t c.x c.y c.z) s with
            shade_queue := [] } with
        render_queue := [] } := by
  have hn : ¬ (s.full_update ≠ 0) := by simp [hf]
  have c1 : ∀ q, flush_calls q = walk_calls none (qsort ivec3cmp q) := fun _ => rfl
  have e := foldl_frame (fun t c => update_shade t c.x c.y c.z)
    (fun t c => update_shade_frame t c.x c.y c.z)
    (walk_calls none (qsort ivec3cmp s.shade_queue)) s
  simp only [vxl_flush, if_neg hn]
  rw [flush_walk_eq_foldl, flush_walk_eq_foldl, c1, c1]
  simp only [(frame_dynamic e).2.2.1]

/-- C10. Deduplication in an incremental flush. With the flag clear,
`vxl_flush` applies `update_shade` to the list `flush_calls` of the shade
queue and then `render_diagonal` to the list `flush_calls` of the render
queue; each of these lists has no repetition and has exactly the coordinates
present in its queue, however often a coordinate was queued. The comparator
`ivec3cmp` returns 0 exactly for equal coordinates. -/
theorem C10_flush_dedup (s : vxl) (hf : s.full_update = 0)
    (hs : ∀ c ∈ s.shade_queue, c.valid) (hr : ∀ c ∈ s.render_queue, c.valid) :
    vxl_flush s =
      { (flush_calls s.render_queue).foldl (fun t c => render_diagonal t c.x c.y c.z)
          { (flush_calls s.shade_queue).foldl (fun t c => update_shade t c.x c.y c.z) s with
            shade_queue := [] } with
        render_queue := [] } ∧
    (flush_calls s.shade_queue).Nodup ∧
    (∀ c, c ∈ flush_calls s.shade_queue ↔ c ∈ s.shade_queue) ∧
    (flush_calls s.render_queue).Nodup ∧
    (∀ c, c ∈ flush_calls s.render_queue ↔ c ∈ s.render_queue) ∧
    (∀ a b : ivec3, a.valid → b.valid → (ivec3cmp a b = 0 ↔ a = b)) :=
  ⟨vxl_flush_incremental s hf, (flush_calls_spec _ hs).1, (flush_calls_spec _ hs).2,
    (flush_calls_spec _ hr).1, (flush_calls_spec _ hr).2, ivec3cmp_eq_zero_iff⟩

theorem C10_flush_dedup_witness :
    (flush_calls (vxl_put (vxl_put (vxl_init 4 4 1) 1 2 0 5).2 1 2 0 0).2.render_queue).Nodup ∧
    (⟨6, 7, 5⟩ ∈ flush_calls (vxl_put (vxl_put (vxl_init 4 4 1) 1 2 0 5).2 1 2 0 0).2.render_queue ↔
      ⟨6, 7, 5⟩ ∈ (vxl_put (vxl_put (vxl_init 4 4 1) 1 2 0 5).2 1 2 0 0).2.render_queue) :=
  ⟨(C10_flush_dedup (vxl_put (vxl_put (vxl_init 4 4 1) 1 2 0 5).2 1 2 0 0).2
      (by decide) (by decide) (by decide)).2.2.2.1,
    (C10_flush_dedup (vxl_put (vxl_put (vxl_init 4 4 1) 1 2 0 5).2 1 2 0 0).2
      (by decide) (by decide) (by decide)).2.2.2.2.1 ⟨6, 7, 5⟩⟩

/-- C7. One in-bounds write on a fresh 16×16×8 volume at rotation 0, then one
flush: left in incremental mode the volume shows the voxel (pixel 1666 has
the class-Z colour), put in full-update mode before the write it does not
(the pixel is 0). -/
theorem C7_incremental_differs_from_full :
    (vxl_flush (vxl_put (vxl_init 16 16 8) 15 3 3 1).2).bitmap 1666 = 0xffaaaaaa ∧
    (vxl_flush (vxl_put (vxl_set_full_update (vxl_init 16 16 8)) 15 3 3 1).2).bitmap 1666
      = 0 := by
  constructor
  · decide!
  · decide!

/-! ## Rotation and the full-update flag -/

theorem view_of_rotation_cases (m : Int) (h0 : 0 ≤ m) (h4 : m < 4) :
    (m = 0 ∧ view_of_rotation m = (-1, -1)) ∨ (m = 1 ∧ view_of_rotation m = (-1, 1)) ∨
    (m = 2 ∧ view_of_rotation m = (1, 1)) ∨ (m = 3 ∧ view_of_rotation m = (1, -1)) := by
  have h : m = 0 ∨ m = 1 ∨ m = 2 ∨ m = 3 := by omega
  rcases h with h | h | h | h <;> subst h
  · exact Or.inl ⟨rfl, by decide⟩
  · exact Or.inr (Or.inl ⟨rfl, by decide⟩)
  · exact Or.inr (Or.inr (Or.inl ⟨rfl, by decide⟩))
  · exact Or.inr (Or.inr (Or.inr ⟨rfl, by decide⟩))

theorem view_of_rotation_unit (m : Int) (h0 : 0 ≤ m) (h4 : m < 4) :
    ((view_of_rotation m).1 = 1 ∨ (view_of_rotation m).1 = -1) ∧
    ((view_of_rotation m).2 = 1 ∨ (view_of_rotation m).2 = -1) := by
  rcases view_of_rotation_cases m h0 h4 with ⟨-, h⟩ | ⟨-, h⟩ | ⟨-, h⟩ | ⟨-, h⟩ <;>
    rw [h] <;> simp

theorem vxl_set_full_update_frame (s : vxl) :
    (vxl_set_full_update s).frame =
      (if s.full_update ≠ 0 then s
       else { s with shade_queue := [], render_queue := [], full_update := 1 }).frame := by
  unfold vxl_set_full_update
  by_cases h : s.full_update ≠ 0
  · rw [if_pos h, if_pos h]
  · rw [if_neg h, if_neg h]
    have e := vxl_flush_frame_incr s (by simpa using h)
    simp only [vxl.frame, vxl.mk.injEq] at e ⊢
    simp only [e, and_self]

theorem vxl_set_full_update_geom (s : vxl) : (vxl_set_full_update s).geom = s.geom := by
  rw [frame_geom (vxl_set_full_update_frame s)]
  split <;> rfl

theorem vxl_set_full_update_data (s : vxl) : (vxl_set_full_update s).data = s.data := by
  rw [(frame_dynamic (vxl_set_full_update_frame s)).1]
  split <;> rfl

theorem vxl_set_full_update_view (s : vxl) :
    (vxl_set_full_update s).rotation = s.rotation ∧
    (vxl_set_full_update s).rotation_vx = s.rotation_vx ∧
    (vxl_set_full_update s).rotation_vy = s.rotation_vy := by
  obtain ⟨-, -, -, -, a, b, c⟩ := frame_dynamic (vxl_set_full_update_frame s)
  rw [a, b, c]
  split <;> exact ⟨rfl, rfl, rfl⟩

theorem band_mask_three (r : Int) : band_mask r 3 = r % 4 := by
  simp [band_mask]

/-- The rotation state `vxl_set_rotation` leaves. -/
theorem vxl_set_rotation_view (s : vxl) (r : Int) :
    (vxl_set_rotation s r).rotation = r % 4 ∧
    ((vxl_set_rotation s r).rotation_vx, (vxl_set_rotation s r).rotation_vy) =
      view_of_rotation (r % 4) := by
  unfold vxl_set_rotation
  simp only [band_mask_three]
  split
  · obtain ⟨a, b, c⟩ := vxl_set_full_update_view
      { s with rotation_vx := (Nat.iterate rotate_view (r % 4).toNat (-1, -1)).1,
               rotation_vy := (Nat.iterate rotate_view (r % 4).toNat (-1, -1)).2,
               rotation := r % 4 }
    rw [a, b, c]
    exact ⟨rfl, rfl⟩
  · rename_i h
    simp only [ne_eq, not_not] at h
    exact ⟨h.symm, rfl⟩

/-- C11. Rotation 4-cycle. For every integer `r`, `vxl_set_rotation` stores the
rotation `r mod 4`, a value of `0..3`, and the view vector obtained from
`(-1,-1)` by `r mod 4` turns `(vx,vy) ← (vy,-vx)`; both components are 1 or -1;
`r` and `r+4` give the same view vector, and the vector for `r+1` is the turn
of the vector for `r`. -/
theorem C11_rotation_cycle (s t : vxl) (r : Int) :
    (vxl_set_rotation s r).rotation = r % 4 ∧
    0 ≤ (vxl_set_rotation s r).rotation ∧ (vxl_set_rotation s r).rotation < 4 ∧
    ((vxl_set_rotation s r).rotation_vx, (vxl_set_rotation s r).rotation_vy) =
      Nat.iterate rotate_view (r % 4).toNat (-1, -1) ∧
    ((vxl_set_rotation s r).rotation_vx = 1 ∨ (vxl_set_rotation s r).rotation_vx = -1) ∧
    ((vxl_set_rotation s r).rotation_vy = 1 ∨ (vxl_set_rotation s r).rotation_vy = -1) ∧
    ((vxl_set_rotation t (r + 4)).rotation_vx, (vxl_set_rotation t (r + 4)).rotation_vy) =
      ((vxl_set_rotation s r).rotation_vx, (vxl_set_rotation s r).rotation_vy) ∧
    ((vxl_set_rotation t (r + 1)).rotation_vx, (vxl_set_rotation t (r + 1)).rotation_vy) =
      rotate_view ((vxl_set_rotation s r).rotation_vx, (vxl_set_rotation s r).rotation_vy) := by
  obtain ⟨a, b⟩ := vxl_set_rotation_view s r
  obtain ⟨-, b4⟩ := vxl_set_rotation_view t (r + 4)
  obtain ⟨-, b1⟩ := vxl_set_rotation_view t (r + 1)
  have h0 : 0 ≤ r % 4 := Int.emod_nonneg _ (by decide)
  have h4 : r % 4 < 4 := Int.emod_lt_of_pos _ (by decide)
  have hu := view_of_rotation_unit (r % 4) h0 h4
  have e4 : (r + 4) % 4 = r % 4 := by omega
  refine ⟨a, by rw [a]; exact h0, by rw [a]; exact h4, b, ?_, ?_, ?_, ?_⟩
  · have := congrArg Prod.fst b
    simp only at this
    rw [this]; exact hu.1
  · have := congrArg Prod.snd b
    simp only at this
    rw [this]; exact hu.2
  · rw [b4, b, e4]
  · rw [b1, b]
    have h01 : 0 ≤ (r + 1) % 4 := Int.emod_nonneg _ (by decide)
    have h41 : (r + 1) % 4 < 4 := Int.emod_lt_of_pos _ (by decide)
    rcases view_of_rotation_cases (r % 4) h0 h4 with ⟨m, h⟩ | ⟨m, h⟩ | ⟨m, h⟩ | ⟨m, h⟩ <;>
      rcases view_of_rotation_cases ((r + 1) % 4) h01 h41 with
        ⟨m', h'⟩ | ⟨m', h'⟩ | ⟨m', h'⟩ | ⟨m', h'⟩ <;>
      first
        | omega
        | (rw [h, h']; rfl)

theorem ViewInv_of_frame {t s : vxl} (h : t.frame = s.frame) (hs : ViewInv s) : ViewInv t := by
  obtain ⟨-, -, -, -, r1, r2, r3⟩ := frame_dynamic h
  obtain ⟨d1, d2, d3, -, -, -, -, -, -, w, hh⟩ := frame_static h
  refine ⟨?_, ?_, ?_, ?_⟩
  · rw [r1]; exact hs.rot
  · rw [r1, r2, r3]; exact hs.view
  · rw [w, d1, d2]; exact hs.width
  · rw [hh, d1, d2, d3]; exact hs.height

theorem ViewInv_vxl_flush (s : vxl) (hs : ViewInv s) : ViewInv (vxl_flush s) := by
  refine ViewInv_of_frame (vxl_flush_frame s) ?_
  split <;> exact ⟨hs.rot, hs.view, hs.width, hs.height⟩

theorem ViewInv_vxl_set_full_update (s : vxl) (hs : ViewInv s) :
    ViewInv (vxl_set_full_update s) := by
  refine ViewInv_of_frame (vxl_set_full_update_frame s) ?_
  split <;> exact ⟨hs.rot, hs.view, hs.width, hs.height⟩

theorem put_ready_frame (s : vxl) (x y z : Int) (v : Nat) (hf : s.full_update = 0) :
    (put_ready s x y z v).frame =
      (if must_flush { s with data := Function.update s.data (vxl_idx s x y z) (v % 256) }
        then { s with data := Function.update s.data (vxl_idx s x y z) (v % 256),
                      shade_queue := [], render_queue := [] }
        else { s with data := Function.update s.data (vxl_idx s x y z) (v % 256) }).frame := by
  simp only [put_ready]
  split
  · exact vxl_flush_frame_incr _ hf
  · rfl

theorem vxl_put_view (s : vxl) (x y z : Int) (v : Nat) :
    (vxl_put s x y z v).2.rotation = s.rotation ∧
    (vxl_put s x y z v).2.rotation_vx = s.rotation_vx ∧
    (vxl_put s x y z v).2.rotation_vy = s.rotation_vy := by
  by_cases hin : vxl_inside s x y z = true
  · by_cases hq : s.full_update ≠ 0 ∨ s.data (vxl_idx s x y z) = v % 256
    · rw [vxl_put_quiet s x y z v hin hq]
      exact ⟨rfl, rfl, rfl⟩
    · have hf : s.full_update = 0 := by
        by_contra hc; exact hq (Or.inl hc)
      have hv : s.data (vxl_idx s x y z) ≠ v % 256 := fun hc => hq (Or.inr hc)
      rw [vxl_put_queued s x y z v hin hf hv]
      obtain ⟨-, -, -, -, a, b, c⟩ := frame_dynamic (put_ready_frame s x y z v hf)
      simp only [a, b, c]
      split <;> exact ⟨rfl, rfl, rfl⟩
  · have hout : vxl_inside s x y z = false := by simpa using hin
    rw [vxl_put_outside s x y z v hout]
    exact ⟨rfl, rfl, rfl⟩

theorem ViewInv_vxl_put (s : vxl) (x y z : Int) (v : Nat) (hs : ViewInv s) :
    ViewInv (vxl_put s x y z v).2 := by
  obtain ⟨a, b, c⟩ := vxl_put_view s x y z v
  obtain ⟨d1, d2, d3, -, -, -, -, -, -, w, hh⟩ := geom_fields (vxl_put_geom s x y z v)
  refine ⟨?_, ?_, ?_, ?_⟩
  · rw [a]; exact hs.rot
  · rw [a, b, c]; exact hs.view
  · rw [w, d1, d2]; exact hs.width
  · rw [hh, d1, d2, d3]; exact hs.height

theorem vxl_set_rotation_geom (s : vxl) (r : Int) : (vxl_set_rotation s r).geom = s.geom := by
  unfold vxl_set_rotation
  simp only
  split
  · rw [vxl_set_full_update_geom]; rfl
  · rfl

theorem vxl_set_rotation_data (s : vxl) (r : Int) : (vxl_set_rotation s r).data = s.data := by
  unfold vxl_set_rotation
  simp only
  split
  · rw [vxl_set_full_update_data]
  · rfl

theorem ViewInv_vxl_set_rotation (s : vxl) (r : Int) (hs : ViewInv s) :
    ViewInv (vxl_set_rotation s r) := by
  obtain ⟨a, b⟩ := vxl_set_rotation_view s r
  obtain ⟨d1, d2, d3, -, -, -, -, -, -, w, hh⟩ := geom_fields (vxl_set_rotation_geom s r)
  refine ⟨?_, ?_, ?_, ?_⟩
  · rw [a]; exact ⟨Int.emod_nonneg _ (by decide), Int.emod_lt_of_pos _ (by decide)⟩
  · rw [b, a]
  · rw [w, d1, d2]; exact hs.width
  · rw [hh, d1, d2, d3]; exact hs.height

theorem ViewInv_vxl_init (dx dy dz : Int) : ViewInv (vxl_init dx dy dz) := by
  refine ⟨?_, ?_, ?_, ?_⟩ <;>
    simp [vxl_init, vxl_set_rotation, band_mask, vxl_bounding_rect, view_of_rotation]

theorem Reachable.view_inv {s : vxl} (h : Reachable s) : ViewInv s := by
  induction h with
  | init dx dy dz hx hy hz => exact ViewInv_vxl_init dx dy dz
  | put s x y z v _ ih => exact ViewInv_vxl_put s x y z v ih
  | flush s _ ih => exact ViewInv_vxl_flush s ih
  | set_rotation s r _ ih => exact ViewInv_vxl_set_rotation s r ih
  | set_full_update s _ ih => exact ViewInv_vxl_set_full_update s ih

/-- The view vector of a reachable volume has components 1 or -1. -/
theorem Reachable.view_unit {s : vxl} (h : Reachable s) :
    (s.rotation_vx = 1 ∨ s.rotation_vx = -1) ∧ (s.rotation_vy = 1 ∨ s.rotation_vy = -1) := by
  have hv := h.view_inv
  have hu := view_of_rotation_unit s.rotation hv.rot.1 hv.rot.2
  rw [← hv.view] at hu
  exact hu

/-- C12. On a reachable volume: when `r mod 4` differs from the current
rotation, `vxl_set_rotation` leaves the full-update flag set (1) and both
queues empty; when `r mod 4` equals the current rotation, it gives back the
volume unchanged (flag, queues, shade, bitmap, occupancy, view vector). -/
theorem C12_set_rotation_effect (s : vxl) (h : Reachable s) (r : Int) :
    (r % 4 ≠ s.rotation →
      (vxl_set_rotation s r).full_update = 1 ∧ (vxl_set_rotation s r).shade_queue = [] ∧
      (vxl_set_rotation s r).render_queue = []) ∧
    (r % 4 = s.rotation → vxl_set_rotation s r = s) := by
  constructor
  · intro hne
    have hi : Inv (vxl_set_rotation s r) := Inv_vxl_set_rotation s r h.inv
    have hf : (vxl_set_rotation s r).full_update ≠ 0 := by
      unfold vxl_set_rotation
      simp only [band_mask_three, if_pos hne]
      unfold vxl_set_full_update
      split
      · assumption
      · simp
    refine ⟨?_, hi.idle hf⟩
    rcases hi.flag with h0 | h1
    · exact absurd h0 hf
    · exact h1
  · intro he
    have hv := h.view_inv.view
    rw [← he] at hv
    unfold vxl_set_rotation
    simp only [band_mask_three]
    have hn : ¬ (r % 4 ≠ s.rotation) := by simp [he]
    rw [if_neg hn]
    have h1 := congrArg Prod.fst hv
    have h2 := congrArg Prod.snd hv
    simp only [view_of_rotation] at h1 h2
    rw [← h1, ← h2]

theorem C12_set_rotation_effect_witness :
    ((vxl_set_rotation (vxl_put (vxl_init 4 4 1) 1 2 0 5).2 (-1)).full_update = 1 ∧
      (vxl_set_rotation (vxl_put (vxl_init 4 4 1) 1 2 0 5).2 (-1)).shade_queue = [] ∧
      (vxl_set_rotation (vxl_put (vxl_init 4 4 1) 1 2 0 5).2 (-1)).render_queue = []) ∧
    vxl_set_rotation (vxl_put (vxl_init 4 4 1) 1 2 0 5).2 4 = (vxl_put (vxl_init 4 4 1) 1 2 0 5).2 :=
  ⟨(C12_set_rotation_effect _ (Reachable.put _ 1 2 0 5
      (Reachable.init 4 4 1 (by decide) (by decide) (by decide))) (-1)).1 (by decide),
    (C12_set_rotation_effect _ (Reachable.put _ 1 2 0 5
      (Reachable.init 4 4 1 (by decide) (by decide) (by decide))) 4).2 (by decide)⟩

theorem vxl_set_full_update_of_set (t : vxl) (h : t.full_update ≠ 0) :
    vxl_set_full_update t = t := by
  unfold vxl_set_full_update
  rw [if_pos h]

/-- The control flow of `vxl_set_full_update`. Twice is once; with the flag
clear the call is an incremental flush (the queued shade and render work is
applied and both queues are emptied) followed by setting the flag to 1; with
the flag already set it gives back the volume unchanged. -/
theorem vxl_set_full_update_twice (s : vxl) :
    vxl_set_full_update (vxl_set_full_update s) = vxl_set_full_update s ∧
    (s.full_update = 0 →
      vxl_set_full_update s =
        { (flush_calls s.render_queue).foldl (fun t c => render_diagonal t c.x c.y c.z)
            { (flush_calls s.shade_queue).foldl (fun t c => update_shade t c.x c.y c.z) s with
              shade_queue := [] } with
          render_queue := [], full_update := 1 }) ∧
    (s.full_update ≠ 0 → vxl_set_full_update s = s) := by
  refine ⟨?_, ?_, vxl_set_full_update_of_set s⟩
  · apply vxl_set_full_update_of_set
    unfold vxl_set_full_update
    split
    · assumption
    · simp
  · intro h0
    have hn : ¬ (s.full_update ≠ 0) := by simp [h0]
    unfold vxl_set_full_update
    rw [if_neg hn, vxl_flush_incremental s h0]

/-! ## vxl_init -/

theorem vxl_init_fields (dx dy dz : Int) :
    (vxl_init dx dy dz).dim_x = potceil dx CHUNK_LENGTH_LOG2 ∧
    (vxl_init dx dy dz).dim_y = potceil dy CHUNK_LENGTH_LOG2 ∧
    (vxl_init dx dy dz).dim_z = potceil dz CHUNK_LENGTH_LOG2 ∧
    (vxl_init dx dy dz).bitmap_width =
      2 * ((vxl_init dx dy dz).dim_x + (vxl_init dx dy dz).dim_y - 1) ∧
    (vxl_init dx dy dz).bitmap_height =
      (vxl_init dx dy dz).dim_x + (vxl_init dx dy dz).dim_y +
        2 * ((vxl_init dx dy dz).dim_z - 1) := by
  simp only [vxl_init, vxl_set_rotation, band_mask, vxl_bounding_rect]
  norm_num
  ring

theorem potceil_least (v : Int) :
    potceil v CHUNK_LENGTH_LOG2 % 8 = 0 ∧ v ≤ potceil v CHUNK_LENGTH_LOG2 ∧
    potceil v CHUNK_LENGTH_LOG2 < v + 8 ∧
    ∀ m : Int, m % 8 = 0 → v ≤ m → potceil v CHUNK_LENGTH_LOG2 ≤ m := by
  rw [potceil_three]
  refine ⟨by omega, by omega, by omega, ?_⟩
  intro m hm hv
  omega

/-- C15. For positive requested dimensions `vxl_init` stores as `dim_x`, `dim_y`,
`dim_z` the value `potceil(v,3)` of each request `v`: a multiple of 8 with
`v ≤ potceil(v,3) < v+8`, the least multiple of 8 not below `v`. The bitmap
size is `2*(dim_x+dim_y-1)` by `dim_x+dim_y+2*(dim_z-1)` on the stored
dimensions. -/
theorem C15_init_dimensions (dx dy dz : Int) (_hx : 0 < dx) (_hy : 0 < dy) (_hz : 0 < dz) :
    ((vxl_init dx dy dz).dim_x = potceil dx 3 ∧ (vxl_init dx dy dz).dim_x % 8 = 0 ∧
      dx ≤ (vxl_init dx dy dz).dim_x ∧ (vxl_init dx dy dz).dim_x < dx + 8 ∧
      ∀ m : Int, m % 8 = 0 → dx ≤ m → (vxl_init dx dy dz).dim_x ≤ m) ∧
    ((vxl_init dx dy dz).dim_y = potceil dy 3 ∧ (vxl_init dx dy dz).dim_y % 8 = 0 ∧
      dy ≤ (vxl_init dx dy dz).dim_y ∧ (vxl_init dx dy dz).dim_y < dy + 8 ∧
      ∀ m : Int, m % 8 = 0 → dy ≤ m → (vxl_init dx dy dz).dim_y ≤ m) ∧
    ((vxl_init dx dy dz).dim_z = potceil dz 3 ∧ (vxl_init dx dy dz).dim_z % 8 = 0 ∧
      dz ≤ (vxl_init dx dy dz).dim_z ∧ (vxl_init dx dy dz).dim_z < dz + 8 ∧
      ∀ m : Int, m % 8 = 0 → dz ≤ m → (vxl_init dx dy dz).dim_z ≤ m) ∧
    (vxl_init dx dy dz).bitmap_width =
      2 * ((vxl_init dx dy dz).dim_x + (vxl_init dx dy dz).dim_y - 1) ∧
    (vxl_init dx dy dz).bitmap_height =
      (vxl_init dx dy dz).dim_x + (vxl_init dx dy dz).dim_y +
        2 * ((vxl_init dx dy dz).dim_z - 1) := by
  obtain ⟨ex, ey, ez, ew, eh⟩ := vxl_init_fields dx dy dz
  obtain ⟨x1, x2, x3, x4⟩ := potceil_least dx
  obtain ⟨y1, y2, y3, y4⟩ := potceil_least dy
  obtain ⟨z1, z2, z3, z4⟩ := potceil_least dz
  refine ⟨⟨?_, ?_, ?_, ?_, ?_⟩, ⟨?_, ?_, ?_, ?_, ?_⟩, ⟨?_, ?_, ?_, ?_, ?_⟩, ew, eh⟩
  · exact ex
  · rw [ex]; exact x1
  · rw [ex]; exact x2
  · rw [ex]; exact x3
  · rw [ex]; exact x4
  · exact ey
  · rw [ey]; exact y1
  · rw [ey]; exact y2
  · rw [ey]; exact y3
  · rw [ey]; exact y4
  · exact ez
  · rw [ez]; exact z1
  · rw [ez]; exact z2
  · rw [ez]; exact z3
  · rw [ez]; exact z4

theorem C15_init_dimensions_witness :
    (vxl_init 9 4 1).dim_x = potceil 9 3 ∧ (vxl_init 9 4 1).dim_x % 8 = 0 ∧
    (9 : Int) ≤ (vxl_init 9 4 1).dim_x ∧ (vxl_init 9 4 1).dim_x < 9 + 8 ∧
    (vxl_init 9 4 1).bitmap_width = 2 * ((vxl_init 9 4 1).dim_x + (vxl_init 9 4 1).dim_y - 1) :=
  ⟨(C15_init_dimensions 9 4 1 (by decide) (by decide) (by decide)).1.1,
    (C15_init_dimensions 9 4 1 (by decide) (by decide) (by decide)).1.2.1,
    (C15_init_dimensions 9 4 1 (by decide) (by decide) (by decide)).1.2.2.1,
    (C15_init_dimensions 9 4 1 (by decide) (by decide) (by decide)).1.2.2.2.1,
    (C15_init_dimensions 9 4 1 (by decide) (by decide) (by decide)).2.2.2.1⟩

/-! ## Diagonals -/

theorem diagonal_dist_eq (vx vy vz dx dy dz x y z : Int) :
    diagonal_dist vx vy vz dx dy dz x y z =
      min (if vx < 0 then x else dx - x - 1)
        (min (if vy < 0 then y else dy - y - 1) (if vz < 0 then z else dz - z - 1)) := by
  simp only [diagonal_dist, MIN]
  split_ifs <;> omega

/-- The step count of `diagonal_dist` to the edge of the box. -/
theorem diagonal_dist_steps (vx vy vz dx dy dz x y z : Int)
    (hvx : vx = 1 ∨ vx = -1) (hvy : vy = 1 ∨ vy = -1) (hvz : vz = 1 ∨ vz = -1)
    (hin : in_box dx dy dz x y z) :
    0 ≤ diagonal_dist vx vy vz dx dy dz x y z ∧
    (∀ k : Int, 0 ≤ k → k ≤ diagonal_dist vx vy vz dx dy dz x y z →
      in_box dx dy dz (x + k * vx) (y + k * vy) (z + k * vz)) ∧
    ¬ in_box dx dy dz (x + (diagonal_dist vx vy vz dx dy dz x y z + 1) * vx)
      (y + (diagonal_dist vx vy vz dx dy dz x y z + 1) * vy)
      (z + (diagonal_dist vx vy vz dx dy dz x y z + 1) * vz) := by
  rw [diagonal_dist_eq]
  simp only [in_box] at hin ⊢
  have hp : ¬ ((1 : Int) < 0) := by decide
  have hm : ((-1 : Int) < 0) := by decide
  rcases hvx with rfl | rfl <;> rcases hvy with rfl | rfl <;> rcases hvz with rfl | rfl <;>
    simp only [if_neg hp, if_pos hm, mul_one, mul_neg] <;>
    (refine ⟨by omega, fun k hk0 hk => by omega, by omega⟩)

/-- C18. `diagonal_dist` counts the steps to the edge of the box. For a
direction with components 1 or -1 and a position `p` in the box (whose
dimensions are then positive), `n = diagonal_dist` is not negative, `p + k*v` is in the box for
every `0 ≤ k ≤ n`, and `p + (n+1)*v` is outside it. -/
theorem C18_diagonal_dist_steps (vx vy vz dx dy dz x y z : Int)
    (hvx : vx = 1 ∨ vx = -1) (hvy : vy = 1 ∨ vy = -1) (hvz : vz = 1 ∨ vz = -1)
    (hin : in_box dx dy dz x y z) :
    0 ≤ diagonal_dist vx vy vz dx dy dz x y z ∧
    (∀ k : Int, 0 ≤ k → k ≤ diagonal_dist vx vy vz dx dy dz x y z →
      in_box dx dy dz (x + k * vx) (y + k * vy) (z + k * vz)) ∧
    ¬ in_box dx dy dz (x + (diagonal_dist vx vy vz dx dy dz x y z + 1) * vx)
      (y + (diagonal_dist vx vy vz dx dy dz x y z + 1) * vy)
      (z + (diagonal_dist vx vy vz dx dy dz x y z + 1) * vz) :=
  diagonal_dist_steps vx vy vz dx dy dz x y z hvx hvy hvz hin

theorem C18_diagonal_dist_steps_witness :
    0 ≤ diagonal_dist (-1) 1 (-1) 8 8 8 3 5 6 ∧
    in_box 8 8 8 (3 + 2 * (-1)) (5 + 2 * 1) (6 + 2 * (-1)) ∧
    ¬ in_box 8 8 8 (3 + (diagonal_dist (-1) 1 (-1) 8 8 8 3 5 6 + 1) * (-1))
      (5 + (diagonal_dist (-1) 1 (-1) 8 8 8 3 5 6 + 1) * 1)
      (6 + (diagonal_dist (-1) 1 (-1) 8 8 8 3 5 6 + 1) * (-1)) :=
  ⟨(C18_diagonal_dist_steps (-1) 1 (-1) 8 8 8 3 5 6 (Or.inr rfl) (Or.inl rfl) (Or.inr rfl)
      (by decide)).1,
    (C18_diagonal_dist_steps (-1) 1 (-1) 8 8 8 3 5 6 (Or.inr rfl) (Or.inl rfl) (Or.inr rfl)
      (by decide)).2.1 2 (by decide) (by decide),
    (C18_diagonal_dist_steps (-1) 1 (-1) 8 8 8 3 5 6 (Or.inr rfl) (Or.inl rfl) (Or.inr rfl)
      (by decide)).2.2⟩

theorem diagonal_dist_step (vx vy vz dx dy dz x y z k : Int)
    (hvx : vx = 1 ∨ vx = -1) (hvy : vy = 1 ∨ vy = -1) (hvz : vz = 1 ∨ vz = -1) :
    diagonal_dist vx vy vz dx dy dz (x + k * vx) (y + k * vy) (z + k * vz) =
      diagonal_dist vx vy vz dx dy dz x y z - k := by
  rw [diagonal_dist_eq, diagonal_dist_eq]
  have hp : ¬ ((1 : Int) < 0) := by decide
  have hm : ((-1 : Int) < 0) := by decide
  rcases hvx with rfl | rfl <;> rcases hvy with rfl | rfl <;> rcases hvz with rfl | rfl <;>
    simp only [if_neg hp, if_pos hm, mul_one, mul_neg] <;> omega

theorem as_diagonal_step (vx vy vz dx dy dz : Int) (p : ivec3) (k : Int)
    (hvx : vx = 1 ∨ vx = -1) (hvy : vy = 1 ∨ vy = -1) (hvz : vz = 1 ∨ vz = -1) :
    as_diagonal vx vy vz dx dy dz (p.step vx vy vz k) = as_diagonal vx vy vz dx dy dz p := by
  simp only [as_diagonal, ivec3.step, diagonal_dist_step _ _ _ _ _ _ _ _ _ _ hvx hvy hvz,
    ivec3.mk.injEq]
  refine ⟨by ring, by ring, by ring⟩

/-- C19. Anchor uniqueness. For a direction `v` with components 1 or -1, two
coordinates `p` and `q = p + k*v` of one diagonal (in the box or not) have the
same `as_diagonal`; in particular `as_diagonal` is idempotent, so the writes
to the voxels of one diagonal queue the same render coordinate. -/
theorem C19_anchor_unique (vx vy vz dx dy dz : Int) (p q : ivec3) (k : Int)
    (hvx : vx = 1 ∨ vx = -1) (hvy : vy = 1 ∨ vy = -1) (hvz : vz = 1 ∨ vz = -1)
    (hq : q = ⟨p.x + k * vx, p.y + k * vy, p.z + k * vz⟩) :
    as_diagonal vx vy vz dx dy dz q = as_diagonal vx vy vz dx dy dz p ∧
    as_diagonal vx vy vz dx dy dz (as_diagonal vx vy vz dx dy dz p) =
      as_diagonal vx vy vz dx dy dz p := by
  constructor
  · rw [hq]
    exact as_diagonal_step vx vy vz dx dy dz p k hvx hvy hvz
  · have e : as_diagonal vx vy vz dx dy dz p =
        p.step vx vy vz (diagonal_dist vx vy vz dx dy dz p.x p.y p.z) := by
      simp only [as_diagonal, ivec3.step, ivec3.mk.injEq]
      exact ⟨by ring, by ring, by ring⟩
    conv_lhs => rw [e]
    exact as_diagonal_step vx vy vz dx dy dz p _ hvx hvy hvz

theorem C19_anchor_unique_witness :
    as_diagonal 1 1 1 8 8 8 ⟨3, 4, 2⟩ = as_diagonal 1 1 1 8 8 8 ⟨1, 2, 0⟩ ∧
    as_diagonal 1 1 1 8 8 8 (as_diagonal 1 1 1 8 8 8 ⟨1, 2, 0⟩) =
      as_diagonal 1 1 1 8 8 8 ⟨1, 2, 0⟩ :=
  C19_anchor_unique 1 1 1 8 8 8 ⟨1, 2, 0⟩ ⟨3, 4, 2⟩ 2 (Or.inl rfl) (Or.inl rfl) (Or.inl rfl)
    (by decide)

/-- C17. On a reachable volume, an in-bounds `vxl_put` of a byte in incremental
mode whose value differs from the old one appends exactly one coordinate to
the render queue (to the queue as it was, or to the empty queue when the put
flushed): `as_diagonal(-vx,-vy,1)` of `(x,y,z)`. That coordinate is
`(x,y,z) + n*(-vx,-vy,1)` for some `n ≥ 0`, lies in the box, and one more
step along `(-vx,-vy,1)` leaves the box. -/
theorem C17_put_render_entry (s : vxl) (hr : Reachable s) (x y z : Int) (v : Nat)
    (hv : v < 256) (hin : vxl_inside s x y z = true) (hf : s.full_update = 0)
    (hne : s.data (vxl_idx s x y z) ≠ v) :
    (vxl_put s x y z v).2.render_queue =
      (if must_flush { s with data := Function.update s.data (vxl_idx s x y z) v }
        then [] else s.render_queue) ++
        [as_diagonal (-s.rotation_vx) (-s.rotation_vy) 1 s.dim_x s.dim_y s.dim_z ⟨x, y, z⟩] ∧
    ∃ n : Int, 0 ≤ n ∧
      as_diagonal (-s.rotation_vx) (-s.rotation_vy) 1 s.dim_x s.dim_y s.dim_z ⟨x, y, z⟩ =
        ⟨x + n * (-s.rotation_vx), y + n * (-s.rotation_vy), z + n * 1⟩ ∧
      vxl_inside s (x + n * (-s.rotation_vx)) (y + n * (-s.rotation_vy)) (z + n * 1) = true ∧
      vxl_inside s (x + (n + 1) * (-s.rotation_vx)) (y + (n + 1) * (-s.rotation_vy))
        (z + (n + 1) * 1) = false := by
  have hm : v % 256 = v := Nat.mod_eq_of_lt hv
  have hne' : s.data (vxl_idx s x y z) ≠ v % 256 := by rw [hm]; exact hne
  constructor
  · rw [vxl_put_queued s x y z v hin hf hne']
    obtain ⟨-, -, q, -, -, a, b⟩ := frame_dynamic (put_ready_frame s x y z v hf)
    obtain ⟨d1, d2, d3, -⟩ := frame_static (put_ready_frame s x y z v hf)
    simp only [q, a, b, d1, d2, d3, hm]
    split <;> rfl
  · obtain ⟨ux, uy⟩ := hr.view_unit
    have hbox : in_box s.dim_x s.dim_y s.dim_z x y z := by
      rw [vxl_inside_iff] at hin
      simp only [in_box]
      omega
    have hnx : -s.rotation_vx = 1 ∨ -s.rotation_vx = -1 := by omega
    have hny : -s.rotation_vy = 1 ∨ -s.rotation_vy = -1 := by omega
    obtain ⟨h0, hk, hout⟩ := diagonal_dist_steps (-s.rotation_vx) (-s.rotation_vy) 1
      s.dim_x s.dim_y s.dim_z x y z hnx hny (Or.inl rfl) hbox
    refine ⟨diagonal_dist (-s.rotation_vx) (-s.rotation_vy) 1 s.dim_x s.dim_y s.dim_z x y z,
      h0, ?_, ?_, ?_⟩
    · simp only [as_diagonal, ivec3.mk.injEq]
      refine ⟨by ring, by ring, by ring⟩
    · have := hk _ h0 (le_refl _)
      rw [vxl_inside_iff]
      simp only [in_box] at this
      omega
    · rw [← Bool.not_eq_true, vxl_inside_iff]
      simp only [in_box] at hout
      omega

theorem C17_put_render_entry_witness :
    (vxl_put (vxl_init 4 4 1) 1 2 0 5).2.render_queue = [⟨6, 7, 5⟩] :=
  (C17_put_render_entry (vxl_init 4 4 1)
    (Reachable.init 4 4 1 (by decide) (by decide) (by decide)) 1 2 0 5 (by decide)
    (by decide) (by decide) (by decide)).1

/-- C16. One in-bounds write at the corner `(0,0,0)` of a fresh volume in
incremental mode appends all 27 coordinates of the 3×3×3 block to the shade
queue, the out-of-bounds `(-1,-1,-1)` among them, and not only the 8
coordinates of the block that lie in the volume. -/
theorem C16_put_pushes_out_of_bounds :
    (vxl_put (vxl_init 4 4 1) 0 0 0 1).2.shade_queue.length = 27 ∧
    (⟨-1, -1, -1⟩ : ivec3) ∈ (vxl_put (vxl_init 4 4 1) 0 0 0 1).2.shade_queue ∧
    vxl_inside (vxl_init 4 4 1) (-1) (-1) (-1) = false := by
  decide

/-! ## render_diagonal -/

theorem render_march_miss (s : vxl) (vx vy vz : Int) (n : Nat) (x y z : Int)
    (h : ∀ j : Nat, j < n →
      s.data (vxl_idx s (x + j * vx) (y + j * vy) (z + j * vz)) = 0) :
    render_march s vx vy vz n x y z = ((0, 0), ⟨x + n * vx, y + n * vy, z + n * vz⟩) := by
  induction n generalizing x y z with
  | zero => simp [render_march]
  | succ n ih =>
    have h0 := h 0 (Nat.succ_pos n)
    simp only [Nat.cast_zero, zero_mul, add_zero] at h0
    simp only [render_march, h0, gt_iff_lt, lt_self_iff_false, if_false]
    rw [ih]
    · simp only [Nat.cast_add, Nat.cast_one, Prod.mk.injEq, ivec3.mk.injEq, true_and]
      exact ⟨by ring, by ring, by ring⟩
    · intro j hj
      have := h (j + 1) (Nat.succ_lt_succ hj)
      simp only [Nat.cast_add, Nat.cast_one] at this
      rw [← this]
      congr 2 <;> ring

theorem render_march_hit (s : vxl) (vx vy vz : Int) (n k : Nat) (x y z : Int) (hk : k < n)
    (hz : ∀ j : Nat, j < k →
      s.data (vxl_idx s (x + j * vx) (y + j * vy) (z + j * vz)) = 0)
    (ho : s.data (vxl_idx s (x + k * vx) (y + k * vy) (z + k * vz)) ≠ 0) :
    render_march s vx vy vz n x y z =
      (get_voxel_rgba (0, 0)
          (s.data (vxl_idx s (x + k * vx) (y + k * vy) (z + k * vz)))
          (s.shade (vxl_idx s (x + k * vx) (y + k * vy) (z + k * vz))),
        ⟨x + k * vx, y + k * vy, z + k * vz⟩) := by
  induction k generalizing n x y z with
  | zero =>
    obtain ⟨m, rfl⟩ : ∃ m, n = m + 1 := ⟨n - 1, by omega⟩
    simp only [Nat.cast_zero, zero_mul, add_zero] at ho ⊢
    simp only [render_march, gt_iff_lt, Nat.pos_of_ne_zero ho, if_true]
  | succ k ih =>
    obtain ⟨m, rfl⟩ : ∃ m, n = m + 1 := ⟨n - 1, by omega⟩
    have h0 := hz 0 (Nat.succ_pos k)
    simp only [Nat.cast_zero, zero_mul, add_zero] at h0
    simp only [render_march, h0, gt_iff_lt, lt_self_iff_false, if_false]
    have e1 : x + ((k + 1 : Nat) : Int) * vx = x + vx + (k : Int) * vx := by push_cast; ring
    have e2 : y + ((k + 1 : Nat) : Int) * vy = y + vy + (k : Int) * vy := by push_cast; ring
    have e3 : z + ((k + 1 : Nat) : Int) * vz = z + vz + (k : Int) * vz := by push_cast; ring
    rw [e1, e2, e3] at ho ⊢
    apply ih m (x + vx) (y + vy) (z + vz) (by omega) _ ho
    intro j hj
    have := hz (j + 1) (Nat.succ_lt_succ hj)
    rw [← this]
    congr 2 <;> (push_cast; ring)

theorem render_diagonal_bitmap (s : vxl) (x y z : Int) (hw : 2 ≤ s.bitmap_width) :
    (render_diagonal s x y z).bitmap
        ((render_target s x y z).1.1 + (render_target s x y z).1.2 * s.bitmap_width) =
      (render_target s x y z).2.1 ∧
    (render_diagonal s x y z).bitmap
        ((render_target s x y z).1.1 + (render_target s x y z).1.2 * s.bitmap_width + 1) =
      (render_target s x y z).2.2 ∧
    (render_diagonal s x y z).bitmap
        ((render_target s x y z).1.1 + (render_target s x y z).1.2 * s.bitmap_width +
          s.bitmap_width) =
      (render_target s x y z).2.1 ∧
    (render_diagonal s x y z).bitmap
        ((render_target s x y z).1.1 + (render_target s x y z).1.2 * s.bitmap_width +
          (s.bitmap_width + 1)) =
      (render_target s x y z).2.2 ∧
    ∀ i : Int,
      i ≠ (render_target s x y z).1.1 + (render_target s x y z).1.2 * s.bitmap_width →
      i ≠ (render_target s x y z).1.1 + (render_target s x y z).1.2 * s.bitmap_width + 1 →
      i ≠ (render_target s x y z).1.1 + (render_target s x y z).1.2 * s.bitmap_width +
        s.bitmap_width →
      i ≠ (render_target s x y z).1.1 + (render_target s x y z).1.2 * s.bitmap_width +
        (s.bitmap_width + 1) →
      (render_diagonal s x y z).bitmap i = s.bitmap i := by
  simp only [render_diagonal]
  generalize (render_target s x y z).1.1 + (render_target s x y z).1.2 * s.bitmap_width = px
  generalize (render_target s x y z).2.1 = c0
  generalize (render_target s x y z).2.2 = c1
  have n1 : px ≠ px + 1 := by omega
  have n2 : px ≠ px + s.bitmap_width := by omega
  have n3 : px ≠ px + (s.bitmap_width + 1) := by omega
  have n4 : px + 1 ≠ px + s.bitmap_width := by omega
  have n5 : px + 1 ≠ px + (s.bitmap_width + 1) := by omega
  have n6 : px + s.bitmap_width ≠ px + (s.bitmap_width + 1) := by omega
  refine ⟨?_, ?_, ?_, ?_, ?_⟩
  · rw [Function.update_noteq n3, Function.update_noteq n2, Function.update_noteq n1,
      Function.update_same]
  · rw [Function.update_noteq n5, Function.update_noteq n4, Function.update_same]
  · rw [Function.update_noteq n6, Function.update_same]
  · rw [Function.update_same]
  · intro i h1 h2 h3 h4
    rw [Function.update_noteq h4, Function.update_noteq h3, Function.update_noteq h2,
      Function.update_noteq h1]

theorem Reachable.width_ge {s : vxl} (h : Reachable s) : 30 ≤ s.bitmap_width := by
  obtain ⟨hx, hy, -, mx, my, -⟩ := h.inv.dims
  have := h.view_inv.width
  omega

/-- C20. `render_diagonal` draws the first occupied voxel of its diagonal. With
`n = diagonal_dist((vx,vy,-1), dims, p)` for the start `p = (x,y,z)`: if `k ≤ n`
is the least index whose voxel `p + k*(vx,vy,-1)` has non-zero occupancy, the
block is drawn at the projection of that voxel with the colour pair that
`get_voxel_rgba` gives for its cached shade (X, Y, Z, XY as in the table
below); if no voxel of index `0..n` is occupied the colour pair is `(0,0)`.
On a reachable volume the four pixels of the block get `rgba0` in the left
column and `rgba1` in the right column, and no other pixel changes. -/
theorem C20_render_first_occupied (s : vxl) (hr : Reachable s) (x y z : Int) :
    (∀ k : Nat,
      (k : Int) ≤ diagonal_dist s.rotation_vx s.rotation_vy (-1) s.dim_x s.dim_y s.dim_z x y z →
      s.data (vxl_idx s (x + k * s.rotation_vx) (y + k * s.rotation_vy) (z + k * (-1))) ≠ 0 →
      (∀ j : Nat, j < k →
        s.data (vxl_idx s (x + j * s.rotation_vx) (y + j * s.rotation_vy) (z + j * (-1))) = 0) →
      render_target s x y z =
        ((2 * (s.dim_x - 1 + (x + k * s.rotation_vx) - (y + k * s.rotation_vy)),
          (x + k * s.rotation_vx) + (y + k * s.rotation_vy) +
            2 * (s.dim_z - 1 - (z + k * (-1)))),
         get_voxel_rgba (0, 0)
          (s.data (vxl_idx s (x + k * s.rotation_vx) (y + k * s.rotation_vy) (z + k * (-1))))
          (s.shade (vxl_idx s (x + k * s.rotation_vx) (y + k * s.rotation_vy) (z + k * (-1)))))) ∧
    ((∀ k : Nat,
      (k : Int) ≤ diagonal_dist s.rotation_vx s.rotation_vy (-1) s.dim_x s.dim_y s.dim_z x y z →
      s.data (vxl_idx s (x + k * s.rotation_vx) (y + k * s.rotation_vy) (z + k * (-1))) = 0) →
      (render_target s x y z).2 = (0, 0)) ∧
    (∀ v : Nat, get_voxel_rgba (0, 0) v SHADE_X = (0xff555555, 0xff555555) ∧
      get_voxel_rgba (0, 0) v SHADE_Y = (0xff777777, 0xff777777) ∧
      get_voxel_rgba (0, 0) v SHADE_Z = (0xffaaaaaa, 0xffaaaaaa) ∧
      get_voxel_rgba (0, 0) v SHADE_XY = (0xff777777, 0xff555555)) ∧
    ((render_diagonal s x y z).bitmap
        ((render_target s x y z).1.1 + (render_target s x y z).1.2 * s.bitmap_width) =
      (render_target s x y z).2.1 ∧
    (render_diagonal s x y z).bitmap
        ((render_target s x y z).1.1 + (render_target s x y z).1.2 * s.bitmap_width + 1) =
      (render_target s x y z).2.2 ∧
    (render_diagonal s x y z).bitmap
        ((render_target s x y z).1.1 + (render_target s x y z).1.2 * s.bitmap_width +
          s.bitmap_width) =
      (render_target s x y z).2.1 ∧
    (render_diagonal s x y z).bitmap
        ((render_target s x y z).1.1 + (render_target s x y z).1.2 * s.bitmap_width +
          (s.bitmap_width + 1)) =
      (render_target s x y z).2.2 ∧
    ∀ i : Int,
      i ≠ (render_target s x y z).1.1 + (render_target s x y z).1.2 * s.bitmap_width →
      i ≠ (render_target s x y z).1.1 + (render_target s x y z).1.2 * s.bitmap_width + 1 →
      i ≠ (render_target s x y z).1.1 + (render_target s x y z).1.2 * s.bitmap_width +
        s.bitmap_width →
      i ≠ (render_target s x y z).1.1 + (render_target s x y z).1.2 * s.bitmap_width +
        (s.bitmap_width + 1) →
      (render_diagonal s x y z).bitmap i = s.bitmap i) := by
  refine ⟨?_, ?_, ?_, render_diagonal_bitmap s x y z (by have := hr.width_ge; omega)⟩
  · intro k hk ho hz
    have hlt : k < (diagonal_dist s.rotation_vx s.rotation_vy (-1) s.dim_x s.dim_y s.dim_z
        x y z + 1).toNat := by omega
    simp only [render_target]
    rw [render_march_hit s s.rotation_vx s.rotation_vy (-1) _ k x y z hlt hz ho]
  · intro hz
    simp only [render_target]
    rw [render_march_miss s s.rotation_vx s.rotation_vy (-1) _ x y z]
    intro j hj
    exact hz j (by omega)
  · intro v
    simp [get_voxel_rgba, SHADE_X, SHADE_Y, SHADE_Z, SHADE_XY]

theorem C20_render_first_occupied_witness :
    render_target (vxl_flush (vxl_put (vxl_init 4 4 1) 1 2 0 5).2) 6 7 5 =
      ((2 * ((vxl_flush (vxl_put (vxl_init 4 4 1) 1 2 0 5).2).dim_x - 1 +
            (6 + (5 : Nat) * (vxl_flush (vxl_put (vxl_init 4 4 1) 1 2 0 5).2).rotation_vx) -
            (7 + (5 : Nat) * (vxl_flush (vxl_put (vxl_init 4 4 1) 1 2 0 5).2).rotation_vy)),
        (6 + (5 : Nat) * (vxl_flush (vxl_put (vxl_init 4 4 1) 1 2 0 5).2).rotation_vx) +
          (7 + (5 : Nat) * (vxl_flush (vxl_put (vxl_init 4 4 1) 1 2 0 5).2).rotation_vy) +
          2 * ((vxl_flush (vxl_put (vxl_init 4 4 1) 1 2 0 5).2).dim_z - 1 -
            (5 + (5 : Nat) * (-1)))),
       get_voxel_rgba (0, 0)
        ((vxl_flush (vxl_put (vxl_init 4 4 1) 1 2 0 5).2).data
          (vxl_idx (vxl_flush (vxl_put (vxl_init 4 4 1) 1 2 0 5).2)
            (6 + (5 : Nat) * (vxl_flush (vxl_put (vxl_init 4 4 1) 1 2 0 5).2).rotation_vx)
            (7 + (5 : Nat) * (vxl_flush (vxl_put (vxl_init 4 4 1) 1 2 0 5).2).rotation_vy)
            (5 + (5 : Nat) * (-1))))
        ((vxl_flush (vxl_put (vxl_init 4 4 1) 1 2 0 5).2).shade
          (vxl_idx (vxl_flush (vxl_put (vxl_init 4 4 1) 1 2 0 5).2)
            (6 + (5 : Nat) * (vxl_flush (vxl_put (vxl_init 4 4 1) 1 2 0 5).2).rotation_vx)
            (7 + (5 : Nat) * (vxl_flush (vxl_put (vxl_init 4 4 1) 1 2 0 5).2).rotation_vy)
            (5 + (5 : Nat) * (-1))))) :=
  (C20_render_first_occupied (vxl_flush (vxl_put (vxl_init 4 4 1) 1 2 0 5).2)
    (Reachable.flush _ (Reachable.put _ 1 2 0 5
      (Reachable.init 4 4 1 (by decide) (by decide) (by decide)))) 6 7 5).1 5
    (by decide!) (by decide!) (by decide!)

/-! ## The 4×4×1 scenario -/

theorem render_diagonal_eq_write (s : vxl) (x y z : Int) :
    render_diagonal s x y z =
      { s with bitmap := write_block s.bitmap s.bitmap_width (render_target s x y z) } := rfl

theorem render_march_bitmap (s : vxl) (b : Int → Nat) (vx vy vz : Int) (n : Nat)
    (x y z : Int) :
    render_march { s with bitmap := b } vx vy vz n x y z = render_march s vx vy vz n x y z := by
  induction n generalizing x y z with
  | zero => rfl
  | succ n ih =>
    simp only [render_march]
    rw [ih]
    rfl

theorem render_target_bitmap (s : vxl) (b : Int → Nat) (x y z : Int) :
    render_target { s with bitmap := b } x y z = render_target s x y z := by
  simp only [render_target]
  rw [render_march_bitmap]

/-- A run of `render_diagonal` calls draws, in order, the targets computed on
the volume it starts from. -/
theorem foldl_render_bitmap (l : List ivec3) (s : vxl) :
    (l.foldl (fun t c => render_diagonal t c.x c.y c.z) s).bitmap =
      (l.map (fun c => render_target s c.x c.y c.z)).foldl
        (fun b t => write_block b s.bitmap_width t) s.bitmap := by
  induction l generalizing s with
  | nil => rfl
  | cons c l ih =>
    simp only [List.foldl_cons, List.map_cons]
    rw [ih, render_diagonal_eq_write]
    simp only [render_target_bitmap]

theorem foldl_update_shade_bitmap (l : List ivec3) (s : vxl) :
    (l.foldl (fun t c => update_shade t c.x c.y c.z) s).bitmap = s.bitmap := by
  induction l generalizing s with
  | nil => rfl
  | cons c l ih => rw [List.foldl_cons, ih]; rfl

/-- Writes that all agree with a picture `E` leave every pixel either as `E`
has it or untouched. -/
theorem foldl_write_block_agree (E : Int → Nat) (w : Int)
    (W : List ((Int × Int) × (Nat × Nat))) (b : Int → Nat)
    (h : ∀ t ∈ W, E (t.1.1 + t.1.2 * w) = t.2.1 ∧ E (t.1.1 + t.1.2 * w + 1) = t.2.2 ∧
      E (t.1.1 + t.1.2 * w + w) = t.2.1 ∧ E (t.1.1 + t.1.2 * w + (w + 1)) = t.2.2)
    (i : Int) :
    (W.foldl (fun b t => write_block b w t) b) i = E i ∨
    ((W.foldl (fun b t => write_block b w t) b) i = b i ∧
      ∀ t ∈ W, i ≠ t.1.1 + t.1.2 * w ∧ i ≠ t.1.1 + t.1.2 * w + 1 ∧
        i ≠ t.1.1 + t.1.2 * w + w ∧ i ≠ t.1.1 + t.1.2 * w + (w + 1)) := by
  induction W using List.reverseRecOn with
  | nil => exact Or.inr ⟨rfl, fun t ht => by simp at ht⟩
  | append_singleton W t ih =>
    obtain ⟨e1, e2, e3, e4⟩ := h t (by simp)
    have ih' := ih (fun u hu => h u (by simp [hu]))
    rw [List.foldl_append]
    simp only [List.foldl_cons, List.foldl_nil, write_block]
    by_cases c4 : i = t.1.1 + t.1.2 * w + (w + 1)
    · left; rw [c4, Function.update_same, e4]
    · rw [Function.update_noteq c4]
      by_cases c3 : i = t.1.1 + t.1.2 * w + w
      · left; rw [c3, Function.update_same, e3]
      · rw [Function.update_noteq c3]
        by_cases c2 : i = t.1.1 + t.1.2 * w + 1
        · left; rw [c2, Function.update_same, e2]
        · rw [Function.update_noteq c2]
          by_cases c1 : i = t.1.1 + t.1.2 * w
          · left; rw [c1, Function.update_same, e1]
          · rw [Function.update_noteq c1]
            rcases ih' with a | ⟨a, hu⟩
            · exact Or.inl a
            · refine Or.inr ⟨a, ?_⟩
              intro u hu'
              rcases List.mem_append.1 hu' with m | m
              · exact hu u m
              · simp only [List.mem_singleton] at m
                subst m
                exact ⟨c1, c2, c3, c4⟩

/-- The bitmap a full flush leaves: the cleared bitmap with the targets of the
render loops drawn on it, the targets computed after the shade loops. -/
theorem vxl_flush_full_bitmap (s : vxl) (h : s.full_update ≠ 0) :
    (vxl_flush s).bitmap =
      ((full_render_coords ((full_shade_coords (clear_bitmap s)).foldl
          (fun t c => update_shade t c.x c.y c.z) (clear_bitmap s))).map
        (fun c => render_target ((full_shade_coords (clear_bitmap s)).foldl
          (fun t c => update_shade t c.x c.y c.z) (clear_bitmap s)) c.x c.y c.z)).foldl
        (fun b t => write_block b s.bitmap_width t) (clear_bitmap s).bitmap := by
  simp only [vxl_flush, if_pos h]
  rw [foldl_render_bitmap, foldl_update_shade_bitmap]
  have e := foldl_frame (fun t c => update_shade t c.x c.y c.z)
    (fun t c => update_shade_frame t c.x c.y c.z) (full_shade_coords (clear_bitmap s))
    (clear_bitmap s)
  obtain ⟨-, -, -, -, -, -, -, -, -, w, -⟩ := frame_static e
  rw [w]
  rfl

set_option maxRecDepth 100000 in
theorem scenario_4x4x1_flag : scenario_4x4x1_written.full_update ≠ 0 := by decide!

set_option maxRecDepth 100000 in
theorem scenario_4x4x1_size :
    scenario_4x4x1_written.bitmap_width = 30 ∧ scenario_4x4x1_written.bitmap_height = 30 := by
  decide!

theorem scenario_4x4x1_bitmap :
    scenario_4x4x1.bitmap =
      scenario_4x4x1_targets.foldl (fun b t => write_block b 30 t)
        (clear_bitmap scenario_4x4x1_written).bitmap := by
  have e := vxl_flush_full_bitmap scenario_4x4x1_written scenario_4x4x1_flag
  rw [scenario_4x4x1_size.1] at e
  exact e

theorem scenario_4x4x1_agree :
    ∀ t ∈ scenario_4x4x1_targets,
      scenario_4x4x1_expected (t.1.1 + t.1.2 * 30) = t.2.1 ∧
      scenario_4x4x1_expected (t.1.1 + t.1.2 * 30 + 1) = t.2.2 ∧
      scenario_4x4x1_expected (t.1.1 + t.1.2 * 30 + 30) = t.2.1 ∧
      scenario_4x4x1_expected (t.1.1 + t.1.2 * 30 + (30 + 1)) = t.2.2 := by
  decide!

theorem scenario_4x4x1_cover :
    ∀ y ∈ irange 0 4, ∀ x ∈ irange 0 4, ∃ t ∈ scenario_4x4x1_targets,
      t.1 = (2 * (8 - 1 + x - y), x + y + 2 * (8 - 1 - 0)) := by
  decide!

theorem in_silhouette_iff (px py : Int) :
    in_silhouette px py = true ↔
      ∃ y ∈ irange 0 4, ∃ x ∈ irange 0 4,
        (px = 2 * (8 - 1 + x - y) ∨ px = 2 * (8 - 1 + x - y) + 1) ∧
        (py = x + y + 2 * (8 - 1 - 0) ∨ py = x + y + 2 * (8 - 1 - 0) + 1) := by
  simp only [in_silhouette, List.any_eq_true, Bool.and_eq_true, Bool.or_eq_true,
    decide_eq_true_eq]

/-- C14. The concrete scenario: after `vxl_init(4,4,1)`, `vxl_set_full_update`,
`vxl_set_rotation(0)`, `vxl_put(x,y,0,1)` for all `0 ≤ x,y < 4` and one
`vxl_flush`, the bitmap is 30 by 30 and each of its pixels `(px,py)` holds the
class-Z colour `0xffaaaaaa` when it lies in the 2×2 block at the projected
position of one of the sixteen voxels, and 0 otherwise. -/
theorem C14_scenario_bitmap :
    scenario_4x4x1.bitmap_width = 30 ∧ scenario_4x4x1.bitmap_height = 30 ∧
    ∀ px py : Int, 0 ≤ px → px < 30 → 0 ≤ py → py < 30 →
      scenario_4x4x1.bitmap (px + py * scenario_4x4x1.bitmap_width) =
        if in_silhouette px py then 0xffaaaaaa else 0 := by
  have hg : scenario_4x4x1.geom = scenario_4x4x1_written.geom :=
    vxl_flush_geom scenario_4x4x1_written
  obtain ⟨-, -, -, -, -, -, -, -, -, gw, gh⟩ := geom_fields hg
  obtain ⟨sw, sh⟩ := scenario_4x4x1_size
  refine ⟨gw.trans sw, gh.trans sh, ?_⟩
  intro px py x0 x1 y0 y1
  rw [gw, sw, scenario_4x4x1_bitmap]
  have hm : (px + py * 30) % 30 = px := by omega
  have hd : (px + py * 30) / 30 = py := by omega
  have hE : scenario_4x4x1_expected (px + py * 30) =
      if in_silhouette px py then 0xffaaaaaa else 0 := by
    simp only [scenario_4x4x1_expected, hm, hd]
  rcases foldl_write_block_agree scenario_4x4x1_expected 30 scenario_4x4x1_targets
    (clear_bitmap scenario_4x4x1_written).bitmap scenario_4x4x1_agree (px + py * 30) with
    a | ⟨a, hu⟩
  · rw [a, hE]
  · rw [a]
    have hz : (clear_bitmap scenario_4x4x1_written).bitmap (px + py * 30) = 0 := by
      simp only [clear_bitmap, sw, sh]
      rw [if_pos (by omega)]
    rw [hz]
    by_cases hs : in_silhouette px py = true
    · exfalso
      obtain ⟨y, hy, x, hx, hpx, hpy⟩ := (in_silhouette_iff px py).1 hs
      obtain ⟨t, ht, et⟩ := scenario_4x4x1_cover y hy x hx
      obtain ⟨u1, u2, u3, u4⟩ := hu t ht
      have e1 : t.1.1 = 2 * (8 - 1 + x - y) := by rw [et]
      have e2 : t.1.2 = x + y + 2 * (8 - 1 - 0) := by rw [et]
      rw [e1, e2] at u1 u2 u3 u4
      rcases hpx with h | h <;> rcases hpy with h' | h' <;> omega
    · rw [if_neg hs]

theorem C14_scenario_bitmap_witness :
    scenario_4x4x1.bitmap (14 + 14 * scenario_4x4x1.bitmap_width) =
      (if in_silhouette 14 14 then 0xffaaaaaa else 0) ∧
    scenario_4x4x1.bitmap (13 + 14 * scenario_4x4x1.bitmap_width) =
      (if in_silhouette 13 14 then 0xffaaaaaa else 0) :=
  ⟨C14_scenario_bitmap.2.2 14 14 (by decide) (by decide) (by decide) (by decide),
    C14_scenario_bitmap.2.2 13 14 (by decide) (by decide) (by decide) (by decide)⟩

/-! ## update_shade -/

theorem update_shade_eq (s : vxl) (x y z : Int) :
    update_shade s x y z =
      { s with shade := Function.update s.shade (vxl_idx s x y z) (shade_class s x y z) } := by
  have hz : z - (-1 : Int) = z + 1 := by ring
  simp only [update_shade, shade_class, shade_class_spec, SHADE_X, SHADE_Y, SHADE_Z, SHADE_XY, hz]

theorem shade_class_spec_range (nx ny nz : Bool) :
    shade_class_spec nx ny nz = 1 ∨ shade_class_spec nx ny nz = 2 ∨
    shade_class_spec nx ny nz = 3 ∨ shade_class_spec nx ny nz = 4 := by
  cases nx <;> cases ny <;> cases nz <;> simp [shade_class_spec]

theorem flatMap_singleton_map {α β : Type} (l : List α) (f : α → β) :
    l.flatMap (fun a => List.singleton (f a)) = l.map f := by
  induction l with
  | nil => rfl
  | cons a l ih =>
    rw [List.flatMap_cons, ih]
    rfl

theorem irange_eq (lo hi : Int) :
    irange lo hi = (List.range (hi - lo).toNat).map (fun i : Nat => lo + (i : Int)) := by
  unfold irange
  simp only [bind, pure, flatMap_singleton_map, List.map_map, Function.comp_def]

theorem mem_irange (lo hi a : Int) : a ∈ irange lo hi ↔ lo ≤ a ∧ a < hi := by
  simp only [irange_eq, List.mem_map, List.mem_range]
  constructor
  · rintro ⟨i, hi', rfl⟩
    omega
  · rintro ⟨h1, h2⟩
    exact ⟨(a - lo).toNat, by omega, by omega⟩

theorem full_shade_coords_frame {t s : vxl} (h : t.frame = s.frame) :
    full_shade_coords t = full_shade_coords s := by
  obtain ⟨-, -, -, -, -, r2, r3⟩ := frame_dynamic h
  obtain ⟨d1, d2, d3, -⟩ := frame_static h
  simp only [full_shade_coords, d1, d2, d3, r2, r3]

theorem full_render_coords_frame {t s : vxl} (h : t.frame = s.frame) :
    full_render_coords t = full_render_coords s := by
  obtain ⟨-, -, -, -, -, r2, r3⟩ := frame_dynamic h
  obtain ⟨d1, d2, d3, -⟩ := frame_static h
  simp only [full_render_coords, d1, d2, d3, r2, r3]

/-- A full flush: the bitmap is cleared, `update_shade` runs over
`full_shade_coords`, `render_diagonal` over `full_render_coords`, and the flag
is cleared. -/
theorem vxl_flush_full (s : vxl) (h : s.full_update ≠ 0) :
    vxl_flush s =
      { (full_render_coords s).foldl (fun t c => render_diagonal t c.x c.y c.z)
          ((full_shade_coords s).foldl (fun t c => update_shade t c.x c.y c.z)
            (clear_bitmap s)) with
        full_update := 0 } := by
  have e1 : full_shade_coords (clear_bitmap s) = full_shade_coords s := rfl
  have e2 := full_render_coords_frame ((foldl_frame (fun t c => update_shade t c.x c.y c.z)
    (fun t c => update_shade_frame t c.x c.y c.z) (full_shade_coords s)
    (clear_bitmap s)).trans (clear_bitmap_frame s))
  simp only [vxl_flush, if_pos h, e1, e2]

theorem foldl_render_shade (l : List ivec3) (s : vxl) :
    (l.foldl (fun t c => render_diagonal t c.x c.y c.z) s).shade = s.shade := by
  induction l generalizing s with
  | nil => rfl
  | cons c l ih => rw [List.foldl_cons, ih]; rfl

theorem mem_full_render_coords (s : vxl) (c : ivec3) :
    c ∈ full_render_coords s ↔
      ((0 ≤ c.y ∧ c.y < s.dim_y) ∧ (0 ≤ c.x ∧ c.x < s.dim_x) ∧ c.z = s.dim_z - 1) ∨
      ((0 ≤ c.z ∧ c.z < s.dim_z - 1) ∧
        (((0 ≤ c.x ∧ c.x < s.dim_x) ∧
            c.y = (if s.rotation_vy < 0 then s.dim_y - 1 else 0)) ∨
          ((0 ≤ c.y ∧ c.y < s.dim_y) ∧
            c.x = (if s.rotation_vx < 0 then s.dim_x - 1 else 0)))) := by
  simp only [full_render_coords, List.mem_append, List.mem_flatMap, List.mem_map, mem_irange]
  constructor
  · rintro (⟨v, hv, u, hu, rfl⟩ | ⟨v, hv, ⟨u, hu, rfl⟩ | ⟨u, hu, rfl⟩⟩)
    · exact Or.inl ⟨hv, hu, rfl⟩
    · exact Or.inr ⟨hv, Or.inl ⟨hu, rfl⟩⟩
    · exact Or.inr ⟨hv, Or.inr ⟨hu, rfl⟩⟩
  · rintro (⟨hv, hu, hz⟩ | ⟨hv, ⟨hu, hy⟩ | ⟨hu, hx⟩⟩)
    · refine Or.inl ⟨c.y, hv, c.x, hu, ?_⟩
      cases c
      simp only [ivec3.mk.injEq, true_and]
      exact hz.symm
    · refine Or.inr ⟨c.z, hv, Or.inl ⟨c.x, hu, ?_⟩⟩
      cases c
      simp only [ivec3.mk.injEq, true_and, and_true]
      exact hy.symm
    · refine Or.inr ⟨c.z, hv, Or.inr ⟨c.y, hu, ?_⟩⟩
      cases c
      simp only [ivec3.mk.injEq, true_and, and_true]
      exact hx.symm

/-- A start coordinate of the render loops is in bounds and is its own anchor. -/
theorem full_render_coords_anchor (s : vxl) (hd : dims_chunked s)
    (hvx : s.rotation_vx = 1 ∨ s.rotation_vx = -1)
    (hvy : s.rotation_vy = 1 ∨ s.rotation_vy = -1) (c : ivec3)
    (hc : c ∈ full_render_coords s) :
    vxl_inside s c.x c.y c.z = true ∧
    as_diagonal (-s.rotation_vx) (-s.rotation_vy) 1 s.dim_x s.dim_y s.dim_z c = c := by
  obtain ⟨px, py, pz, -⟩ := hd
  rw [mem_full_render_coords] at hc
  have hp : ¬ ((1 : Int) < 0) := by decide
  have hm : ((-1 : Int) < 0) := by decide
  have hdist : vxl_inside s c.x c.y c.z = true ∧
      diagonal_dist (-s.rotation_vx) (-s.rotation_vy) 1 s.dim_x s.dim_y s.dim_z c.x c.y c.z
        = 0 := by
    rw [diagonal_dist_eq, vxl_inside_iff]
    rcases hvx with e | e <;> rcases hvy with e' | e' <;>
      simp only [e, e', if_neg hp, if_pos hm, neg_neg] at hc ⊢ <;> omega
  refine ⟨hdist.1, ?_⟩
  simp only [as_diagonal, hdist.2, mul_zero, add_zero]

/-- The anchor of an in-bounds coordinate is a start coordinate of the render
loops. -/
theorem anchor_mem_full_render_coords (s : vxl)
    (hvx : s.rotation_vx = 1 ∨ s.rotation_vx = -1)
    (hvy : s.rotation_vy = 1 ∨ s.rotation_vy = -1) (p : ivec3)
    (hp : vxl_inside s p.x p.y p.z = true) :
    as_diagonal (-s.rotation_vx) (-s.rotation_vy) 1 s.dim_x s.dim_y s.dim_z p ∈
      full_render_coords s := by
  have hbox : in_box s.dim_x s.dim_y s.dim_z p.x p.y p.z := by
    rw [vxl_inside_iff] at hp
    simp only [in_box]
    omega
  have hnx : -s.rotation_vx = 1 ∨ -s.rotation_vx = -1 := by omega
  have hny : -s.rotation_vy = 1 ∨ -s.rotation_vy = -1 := by omega
  obtain ⟨h0, hk, hout⟩ := diagonal_dist_steps (-s.rotation_vx) (-s.rotation_vy) 1
    s.dim_x s.dim_y s.dim_z p.x p.y p.z hnx hny (Or.inl rfl) hbox
  have hin := hk _ h0 (le_refl _)
  rw [mem_full_render_coords]
  simp only [as_diagonal]
  generalize diagonal_dist (-s.rotation_vx) (-s.rotation_vy) 1 s.dim_x s.dim_y s.dim_z
    p.x p.y p.z = n at h0 hin hout
  simp only [in_box] at hin hout
  have hp1 : ¬ ((1 : Int) < 0) := by decide
  have hm1 : ((-1 : Int) < 0) := by decide
  rcases hvx with e | e <;> rcases hvy with e' | e' <;>
    simp only [e, e', if_neg hp1, if_pos hm1, neg_neg, mul_one, mul_neg, one_mul, neg_mul]
      at hin hout ⊢ <;> omega

/-- The march from a start coordinate of the render loops covers its diagonal:
an in-bounds coordinate `k` steps along `(vx,vy,-1)` has `0 ≤ k ≤ diagonal_dist`. -/
theorem full_render_coords_march (s : vxl) (hd : dims_chunked s)
    (hvx : s.rotation_vx = 1 ∨ s.rotation_vx = -1)
    (hvy : s.rotation_vy = 1 ∨ s.rotation_vy = -1) (c : ivec3)
    (hc : c ∈ full_render_coords s) (k : Int)
    (hk : vxl_inside s (c.x + k * s.rotation_vx) (c.y + k * s.rotation_vy)
      (c.z + k * (-1)) = true) :
    0 ≤ k ∧ k ≤ diagonal_dist s.rotation_vx s.rotation_vy (-1) s.dim_x s.dim_y s.dim_z
      c.x c.y c.z := by
  obtain ⟨px, py, pz, -⟩ := hd
  rw [mem_full_render_coords] at hc
  rw [vxl_inside_iff] at hk
  rw [diagonal_dist_eq]
  have hp : ¬ ((1 : Int) < 0) := by decide
  have hm : ((-1 : Int) < 0) := by decide
  rcases hvx with e | e <;> rcases hvy with e' | e' <;>
    simp only [e, e', if_neg hp, if_pos hm, mul_one, mul_neg] at hc hk ⊢ <;> omega

/-- C26. Full-sweep coverage. For a view vector with components 1 or -1, a full
flush passes to `render_diagonal` the coordinates of `full_render_coords`, and
these are exactly the anchors `as_diagonal((-vx,-vy,1), dims, p)` of the
in-bounds coordinates `p`. Each start coordinate is in bounds and is its own
anchor, and every in-bounds coordinate of its diagonal is `k` steps along
`(vx,vy,-1)` from it with `0 ≤ k ≤ diagonal_dist`, within the range of the
march. -/
theorem C26_full_sweep_anchors (s : vxl) (hd : dims_chunked s) (hf : s.full_update ≠ 0)
    (hvx : s.rotation_vx = 1 ∨ s.rotation_vx = -1)
    (hvy : s.rotation_vy = 1 ∨ s.rotation_vy = -1) :
    vxl_flush s =
      { (full_render_coords s).foldl (fun t c => render_diagonal t c.x c.y c.z)
          ((full_shade_coords s).foldl (fun t c => update_shade t c.x c.y c.z)
            (clear_bitmap s)) with
        full_update := 0 } ∧
    (∀ c : ivec3, c ∈ full_render_coords s ↔
      ∃ p : ivec3, vxl_inside s p.x p.y p.z = true ∧
        c = as_diagonal (-s.rotation_vx) (-s.rotation_vy) 1 s.dim_x s.dim_y s.dim_z p) ∧
    (∀ c : ivec3, c ∈ full_render_coords s →
      vxl_inside s c.x c.y c.z = true ∧
      as_diagonal (-s.rotation_vx) (-s.rotation_vy) 1 s.dim_x s.dim_y s.dim_z c = c) ∧
    (∀ c : ivec3, c ∈ full_render_coords s → ∀ k : Int,
      vxl_inside s (c.x + k * s.rotation_vx) (c.y + k * s.rotation_vy) (c.z + k * (-1)) = true →
      0 ≤ k ∧ k ≤ diagonal_dist s.rotation_vx s.rotation_vy (-1) s.dim_x s.dim_y s.dim_z
        c.x c.y c.z) := by
  refine ⟨vxl_flush_full s hf, ?_, full_render_coords_anchor s hd hvx hvy,
    full_render_coords_march s hd hvx hvy⟩
  intro c
  constructor
  · intro hc
    obtain ⟨h1, h2⟩ := full_render_coords_anchor s hd hvx hvy c hc
    exact ⟨c, h1, h2.symm⟩
  · rintro ⟨p, hp, rfl⟩
    exact anchor_mem_full_render_coords s hvx hvy p hp

theorem C26_full_sweep_anchors_witness :
    ((⟨7, 3, 2⟩ : ivec3) ∈ full_render_coords (vxl_set_full_update (vxl_init 4 4 1)) ↔
      ∃ p : ivec3, vxl_inside (vxl_set_full_update (vxl_init 4 4 1)) p.x p.y p.z = true ∧
        (⟨7, 3, 2⟩ : ivec3) =
          as_diagonal (-(vxl_set_full_update (vxl_init 4 4 1)).rotation_vx)
            (-(vxl_set_full_update (vxl_init 4 4 1)).rotation_vy) 1
            (vxl_set_full_update (vxl_init 4 4 1)).dim_x
            (vxl_set_full_update (vxl_init 4 4 1)).dim_y
            (vxl_set_full_update (vxl_init 4 4 1)).dim_z p) :=
  (C26_full_sweep_anchors (vxl_set_full_update (vxl_init 4 4 1))
    (Inv_vxl_set_full_update _ (Inv_vxl_init 4 4 1 (by decide) (by decide) (by decide))).dims
    (by decide) (Or.inr (by decide)) (Or.inr (by decide))).2.1 ⟨7, 3, 2⟩

set_option maxRecDepth 100000 in
/-- C24. On a fresh 8×8×8 volume in full-update mode (rotation 0) the render
loops of a full flush pass the coordinate `(7,7,0)` to `render_diagonal` twice,
once in each of the two side loops, so its diagonal is rendered twice and not
once; the loops make 176 calls while `diagonal_count` counts 169 diagonals. -/
theorem C24_shared_column_rendered_twice :
    (full_render_coords (vxl_set_full_update (vxl_init 8 8 8))).count ⟨7, 7, 0⟩ = 2 ∧
    ((full_render_coords (vxl_set_full_update (vxl_init 8 8 8))).length : Int) = 176 ∧
    diagonal_count (vxl_set_full_update (vxl_init 8 8 8)).dim_x
      (vxl_set_full_update (vxl_init 8 8 8)).dim_y
      (vxl_set_full_update (vxl_init 8 8 8)).dim_z = 169 := by
  decide!

/-! ## The projection -/

theorem render_target_position (s : vxl) (x y z : Int) :
    (render_target s x y z).1 =
      render_project s (render_march s s.rotation_vx s.rotation_vy (-1)
        (diagonal_dist s.rotation_vx s.rotation_vy (-1) s.dim_x s.dim_y s.dim_z x y z
          + 1).toNat x y z).2 := rfl

/-- C25. With the projection `render_diagonal` uses, `sx = 2*(dim_x-1+x-y)` and
`sy = x+y+2*(dim_z-1-z)`, the 2×2 blocks of two coordinates share a pixel
exactly when the coordinates differ by `k*(1,1,1)` for an integer `k`, and
then the two blocks are the same: `(x+k,y+k,z+k)` covers the cell of `(x,y,z)`,
and the blocks of coordinates that do not lie on one such line are disjoint. -/
theorem C25_blocks_overlap_iff_same_diagonal (s : vxl) (c d : ivec3) :
    ((∃ q : Int × Int, q ∈ block_pixels (render_project s c) ∧
        q ∈ block_pixels (render_project s d)) ↔
      ∃ k : Int, d = ⟨c.x + k, c.y + k, c.z + k⟩) ∧
    ((∃ k : Int, d = ⟨c.x + k, c.y + k, c.z + k⟩) →
      render_project s d = render_project s c ∧
      block_pixels (render_project s d) = block_pixels (render_project s c)) ∧
    (∀ x y z : Int, (render_target s x y z).1 =
      render_project s (render_march s s.rotation_vx s.rotation_vy (-1)
        (diagonal_dist s.rotation_vx s.rotation_vy (-1) s.dim_x s.dim_y s.dim_z x y z
          + 1).toNat x y z).2) := by
  have key : (∃ k : Int, d = ⟨c.x + k, c.y + k, c.z + k⟩) →
      render_project s d = render_project s c := by
    rintro ⟨k, rfl⟩
    simp only [render_project, Prod.mk.injEq]
    constructor <;> ring
  refine ⟨⟨?_, ?_⟩, fun h => ⟨key h, by rw [key h]⟩, render_target_position s⟩
  · rintro ⟨q, h1, h2⟩
    refine ⟨d.x - c.x, ?_⟩
    simp only [block_pixels, render_project, List.mem_cons, List.mem_singleton,
      List.not_mem_nil, or_false] at h1 h2
    cases d
    cases c
    simp only [ivec3.mk.injEq]
    obtain ⟨q1, q2⟩ := q
    simp only [Prod.mk.injEq] at h1 h2
    omega
  · intro h
    refine ⟨((render_project s c).1, (render_project s c).2), ?_, ?_⟩
    · simp [block_pixels]
    · rw [key h]
      simp [block_pixels]

theorem C25_blocks_overlap_iff_same_diagonal_witness :
    render_project (vxl_init 4 4 1) ⟨3, 4, 2⟩ = render_project (vxl_init 4 4 1) ⟨1, 2, 0⟩ ∧
    block_pixels (render_project (vxl_init 4 4 1) ⟨3, 4, 2⟩) =
      block_pixels (render_project (vxl_init 4 4 1) ⟨1, 2, 0⟩) :=
  (C25_blocks_overlap_iff_same_diagonal (vxl_init 4 4 1) ⟨1, 2, 0⟩ ⟨3, 4, 2⟩).2.1
    ⟨2, by decide⟩

/-! ## Bitmap bounds of render_diagonal -/

theorem render_march_end (s : vxl) (vx vy vz : Int) (n : Nat) (x y z : Int) :
    ∃ k : Nat, k ≤ n ∧
      (render_march s vx vy vz n x y z).2 = ⟨x + k * vx, y + k * vy, z + k * vz⟩ := by
  induction n generalizing x y z with
  | zero => exact ⟨0, le_refl _, by simp [render_march]⟩
  | succ n ih =>
    simp only [render_march]
    split
    · exact ⟨0, Nat.zero_le _, by simp⟩
    · obtain ⟨k, hk, e⟩ := ih (x + vx) (y + vy) (z + vz)
      refine ⟨k + 1, Nat.succ_le_succ hk, ?_⟩
      rw [e]
      simp only [Nat.cast_add, Nat.cast_one, ivec3.mk.injEq]
      exact ⟨by ring, by ring, by ring⟩

/-- C27. Square footprint. On a reachable volume with `dim_x = dim_y` at
rotation 0, for every in-bounds start coordinate the position `(sx,sy)` at
which `render_diagonal` writes has `0 ≤ sx`, `sx+1 < bitmap_width`, `0 ≤ sy`,
`sy+1 < bitmap_height`, whether the march finds an occupied voxel or ends one
step past the box; the four pixel indices written lie in
`[0, bitmap_width*bitmap_height)`. -/
theorem C27_square_footprint_bounds (s : vxl) (hr : Reachable s) (h0 : s.rotation = 0)
    (hsq : s.dim_x = s.dim_y) (x y z : Int) (hin : vxl_inside s x y z = true) :
    (0 ≤ (render_target s x y z).1.1 ∧ (render_target s x y z).1.1 + 1 < s.bitmap_width ∧
      0 ≤ (render_target s x y z).1.2 ∧ (render_target s x y z).1.2 + 1 < s.bitmap_height) ∧
    (0 ≤ (render_target s x y z).1.1 + (render_target s x y z).1.2 * s.bitmap_width ∧
      (render_target s x y z).1.1 + (render_target s x y z).1.2 * s.bitmap_width + 1 <
        s.bitmap_width * s.bitmap_height) ∧
    (0 ≤ (render_target s x y z).1.1 + (render_target s x y z).1.2 * s.bitmap_width +
        s.bitmap_width ∧
      (render_target s x y z).1.1 + (render_target s x y z).1.2 * s.bitmap_width +
        (s.bitmap_width + 1) < s.bitmap_width * s.bitmap_height) := by
  have hv := hr.view_inv
  have hview : s.rotation_vx = -1 ∧ s.rotation_vy = -1 := by
    have e := hv.view
    rw [h0] at e
    have e' : view_of_rotation 0 = (-1, -1) := by decide
    rw [e'] at e
    simp only [Prod.mk.injEq] at e
    exact e
  obtain ⟨k, -, ek⟩ := render_march_end s s.rotation_vx s.rotation_vy (-1)
    (diagonal_dist s.rotation_vx s.rotation_vy (-1) s.dim_x s.dim_y s.dim_z x y z
      + 1).toNat x y z
  have hpos : (render_target s x y z).1 =
      (2 * (s.dim_x - 1 + x - y), (x + y) + 2 * (s.dim_z - 1 - z)) := by
    rw [render_target_position, ek]
    simp only [render_project, hview.1, hview.2, Prod.mk.injEq]
    constructor <;> ring
  have h1 : (render_target s x y z).1.1 = 2 * (s.dim_x - 1 + x - y) := by rw [hpos]
  have h2 : (render_target s x y z).1.2 = (x + y) + 2 * (s.dim_z - 1 - z) := by rw [hpos]
  rw [vxl_inside_iff] at hin
  have hw := hv.width
  have hh := hv.height
  have b1 : 0 ≤ (render_target s x y z).1.1 := by rw [h1]; omega
  have b2 : (render_target s x y z).1.1 + 1 < s.bitmap_width := by rw [h1]; omega
  have b3 : 0 ≤ (render_target s x y z).1.2 := by rw [h2]; omega
  have b4 : (render_target s x y z).1.2 + 1 < s.bitmap_height := by rw [h2]; omega
  generalize (render_target s x y z).1.1 = sx at b1 b2 ⊢
  generalize (render_target s x y z).1.2 = sy at b3 b4 ⊢
  have hwpos : 0 ≤ s.bitmap_width := by omega
  have m1 : 0 ≤ sy * s.bitmap_width := Int.mul_nonneg b3 hwpos
  have m2 : (sy + 2) * s.bitmap_width ≤ s.bitmap_height * s.bitmap_width :=
    Int.mul_le_mul_of_nonneg_right (by omega) hwpos
  have m3 : (sy + 2) * s.bitmap_width = sy * s.bitmap_width + 2 * s.bitmap_width := by ring
  have m4 : s.bitmap_height * s.bitmap_width = s.bitmap_width * s.bitmap_height := by ring
  refine ⟨⟨b1, b2, b3, b4⟩, ⟨by omega, by omega⟩, ⟨by omega, by omega⟩⟩

theorem C27_square_footprint_bounds_witness :
    0 ≤ (render_target (vxl_init 4 4 1) 7 0 0).1.1 ∧
    (render_target (vxl_init 4 4 1) 7 0 0).1.1 + 1 < (vxl_init 4 4 1).bitmap_width ∧
    0 ≤ (render_target (vxl_init 4 4 1) 7 0 0).1.2 ∧
    (render_target (vxl_init 4 4 1) 7 0 0).1.2 + 1 < (vxl_init 4 4 1).bitmap_height :=
  (C27_square_footprint_bounds (vxl_init 4 4 1)
    (Reachable.init 4 4 1 (by decide) (by decide) (by decide)) (by decide) (by decide)
    7 0 0 (by decide)).1

/-- C21. On the volume of `vxl_init(8,8,8)` turned to rotation 1, the in-bounds
start coordinate `(0,7,7)`, one the full flush passes to `render_diagonal`,
finds no occupied voxel and is drawn at `sx = -4`, left of the bitmap: the
assertion `sx >= 0` of `render_diagonal` fails. -/
theorem C21_render_position_out_of_bitmap :
    vxl_inside (vxl_set_rotation (vxl_init 8 8 8) 1) 0 7 7 = true ∧
    (⟨0, 7, 7⟩ : ivec3) ∈ full_render_coords (vxl_set_rotation (vxl_init 8 8 8) 1) ∧
    (render_target (vxl_set_rotation (vxl_init 8 8 8) 1) 0 7 7).1 = (-4, 9) ∧
    (vxl_set_rotation (vxl_init 8 8 8) 1).rotation = 1 := by
  decide!

/-! ## Writes of a flush outside the shade buffer -/

/-- The shade cache after an incremental flush: `update_shade` folded over the
calls of the shade queue. -/
theorem vxl_flush_incremental_shade (s : vxl) (hf : s.full_update = 0) :
    (vxl_flush s).shade =
      ((flush_calls s.shade_queue).foldl (fun t c => update_shade t c.x c.y c.z) s).shade := by
  rw [vxl_flush_incremental s hf]
  simp only
  rw [foldl_render_shade]

/-- After `update_shade` has run over a list of coordinates, the shade cell at
the index of each of them holds one of the four classes, whatever the reads of
the occupancy returned. -/
theorem foldl_update_shade_written (s : vxl) (l : List ivec3) (c : ivec3) (hc : c ∈ l) :
    (l.foldl (fun t c => update_shade t c.x c.y c.z) s).shade (vxl_idx s c.x c.y c.z) ∈
      [SHADE_X, SHADE_Y, SHADE_Z, SHADE_XY] := by
  induction l using List.reverseRecOn with
  | nil => simp at hc
  | append_singleton l d ih =>
    have hfr := foldl_frame (fun t c => update_shade t c.x c.y c.z)
      (fun t c => update_shade_frame t c.x c.y c.z) l s
    rw [List.foldl_append, List.foldl_cons, List.foldl_nil, update_shade_eq]
    simp only
    rw [geom_vxl_idx (frame_geom hfr)]
    by_cases e : vxl_idx s c.x c.y c.z = vxl_idx s d.x d.y d.z
    · rw [e, Function.update_same]
      simp only [shade_class]
      rcases shade_class_spec_range
        ((List.foldl (fun t c => update_shade t c.x c.y c.z) s l).data
          (vxl_idx (List.foldl (fun t c => update_shade t c.x c.y c.z) s l)
            (d.x - (List.foldl (fun t c => update_shade t c.x c.y c.z) s l).rotation_vx)
            d.y d.z) == 0)
        ((List.foldl (fun t c => update_shade t c.x c.y c.z) s l).data
          (vxl_idx (List.foldl (fun t c => update_shade t c.x c.y c.z) s l) d.x
            (d.y - (List.foldl (fun t c => update_shade t c.x c.y c.z) s l).rotation_vy)
            d.z) == 0)
        ((List.foldl (fun t c => update_shade t c.x c.y c.z) s l).data
          (vxl_idx (List.foldl (fun t c => update_shade t c.x c.y c.z) s l) d.x d.y
            (d.z + 1)) == 0) with h | h | h | h <;> rw [h] <;> decide
    · rw [Function.update_noteq e]
      rcases List.mem_append.1 hc with m | m
      · exact ih m
      · simp only [List.mem_singleton] at m
        subst m
        exact absurd rfl e

/-- The fresh volume of `vxl_init(4,4,1)`, stored as 8 x 8 x 8, evaluated: the
27 entries a write at `(1,2,0)` pushes, the out-of-volume `(1,2,-1)` among
them with chunked index -47, the queue capacities and the 512 cells of the
buffers. -/
theorem fresh_block_facts :
    (put_shade_pushes (vxl_init 4 4 1) 1 2 0).length = 27 ∧
    (⟨1, 2, -1⟩ : ivec3) ∈ put_shade_pushes (vxl_init 4 4 1) 1 2 0 ∧
    vxl_inside (vxl_init 4 4 1) 1 2 0 = true ∧
    vxl_inside (vxl_init 4 4 1) 1 2 (-1) = false ∧
    vxl_idx (vxl_init 4 4 1) 1 2 (-1) = -47 ∧
    (vxl_init 4 4 1).shade_queue_cap = 65536 ∧
    (vxl_init 4 4 1).render_queue_cap = 16384 ∧
    (vxl_init 4 4 1).dim_x * (vxl_init 4 4 1).dim_y * (vxl_init 4 4 1).dim_z = 512 := by
  decide!

/-- One non-flushing write at `(1,2,0)` on a volume with the geometry of the
fresh one: the cell changes, 27 shade entries and one render entry are
appended, the shade cache is untouched. -/
theorem toggle_step (s : vxl) (old v : Nat) (hv : v < 256)
    (hg : s.geom = (vxl_init 4 4 1).geom) (hf : s.full_update = 0)
    (hd : s.data (vxl_idx s 1 2 0) = old) (hne : (old = 0) ≠ (v = 0))
    (hl : s.shade_queue.length + 27 ≤ 65536) (hr : s.render_queue.length + 1 ≤ 16384) :
    (vxl_put s 1 2 0 v).2.geom = (vxl_init 4 4 1).geom ∧
    (vxl_put s 1 2 0 v).2.full_update = 0 ∧
    (vxl_put s 1 2 0 v).2.data (vxl_idx (vxl_put s 1 2 0 v).2 1 2 0) = v ∧
    (vxl_put s 1 2 0 v).2.shade = s.shade ∧
    (vxl_put s 1 2 0 v).2.shade_queue =
      s.shade_queue ++ put_shade_pushes (vxl_init 4 4 1) 1 2 0 ∧
    (vxl_put s 1 2 0 v).2.render_queue.length = s.render_queue.length + 1 := by
  obtain ⟨-, -, f3, -, -, f6, f7, -⟩ := fresh_block_facts
  have hin : vxl_inside s 1 2 0 = true := by rw [geom_vxl_inside hg]; exact f3
  have hm : v % 256 = v := Nat.mod_eq_of_lt hv
  obtain ⟨-, -, -, -, -, -, -, g8, g9, -⟩ := geom_fields hg
  have hsc : s.shade_queue_cap = 65536 := g8.trans f6
  have hrc : s.render_queue_cap = 16384 := g9.trans f7
  have hdv : s.data (vxl_idx s 1 2 0) ≠ v % 256 := by
    rw [hd, hm]; intro e; apply hne; rw [e]
  have hmf : must_flush
      { s with data := Function.update s.data (vxl_idx s 1 2 0) (v % 256) } = false := by
    simp only [must_flush, vxl.shade_queue_len, vxl.render_queue_len, hsc, hrc,
      decide_eq_false_iff_not, Bool.or_eq_false_iff, not_lt]
    omega
  have hch : ((decide (s.data (vxl_idx s 1 2 0) = 0)) != (decide (v % 256 = 0))) = true := by
    rw [hd, hm]
    by_cases a : old = 0 <;> by_cases b : v = 0 <;> simp [a, b] at hne ⊢
  rw [vxl_put_unflushed s 1 2 0 v hin hf hdv hmf]
  simp only [hch, if_true]
  refine ⟨?_, hf, ?_, trivial, ?_, ?_⟩
  · rw [← hg]; rfl
  · show Function.update s.data (vxl_idx s 1 2 0) (v % 256) (vxl_idx s 1 2 0) = v
    rw [Function.update_same, hm]
  · rw [put_shade_pushes_geom hg]
  · simp only [List.length_append, List.length_singleton]

/-- The invariant of `toggle_puts` holds for up to 1213 rounds on the fresh
volume. -/
theorem toggle_puts_inv (k : Nat) (hk : k ≤ 1213) :
    toggle_inv k (toggle_puts k (vxl_init 4 4 1)) := by
  induction k with
  | zero =>
    refine ⟨rfl, ?_, ?_, rfl, ?_, ?_, ?_⟩
    · rfl
    · rfl
    · rfl
    · rfl
    · intro c hc
      have e : (toggle_puts 0 (vxl_init 4 4 1)).shade_queue = [] := rfl
      rw [e] at hc
      exact absurd hc (List.not_mem_nil c)
  | succ k ih =>
    obtain ⟨g, f, d, sh, sl, rl, m⟩ := ih (by omega)
    obtain ⟨f1, -⟩ := fresh_block_facts
    obtain ⟨g1, f1w, d1, sh1, sl1, rl1⟩ :=
      toggle_step (toggle_puts k (vxl_init 4 4 1)) 0 1 (by decide) g f d (by decide)
        (by omega) (by omega)
    obtain ⟨g2, f2, d2, sh2, sl2, rl2⟩ :=
      toggle_step (vxl_put (toggle_puts k (vxl_init 4 4 1)) 1 2 0 1).2 1 0 (by decide) g1 f1w d1
        (by decide) (by rw [sl1, List.length_append, f1]; omega) (by omega)
    refine ⟨g2, f2, d2, by rw [← sh]; exact sh2.trans sh1, ?_, ?_, ?_⟩
    · show (vxl_put (vxl_put (toggle_puts k (vxl_init 4 4 1)) 1 2 0 1).2 1 2 0 0).2.shade_queue.length = _
      rw [sl2, sl1, List.length_append, List.length_append, f1]; omega
    · show (vxl_put (vxl_put (toggle_puts k (vxl_init 4 4 1)) 1 2 0 1).2 1 2 0 0).2.render_queue.length = _
      omega
    · intro c hc
      have hc2 : c ∈ (vxl_put (vxl_put (toggle_puts k (vxl_init 4 4 1)) 1 2 0 1).2 1 2 0
          0).2.shade_queue := hc
      rw [sl2, sl1] at hc2
      rcases List.mem_append.1 hc2 with h | h
      · rcases List.mem_append.1 h with h | h
        · exact m c h
        · exact h
      · exact h

/-- Every state `toggle_puts` passes through is reachable. -/
theorem toggle_puts_reachable (k : Nat) (s : vxl) (h : Reachable s) :
    Reachable (toggle_puts k s) := by
  induction k with
  | zero => exact h
  | succ k ih => exact Reachable.put _ _ _ _ _ (Reachable.put _ _ _ _ _ ih)

/-- The entries a write at `(1,2,0)` pushes are C ints. -/
theorem fresh_block_valid : ∀ c ∈ put_shade_pushes (vxl_init 4 4 1) 1 2 0, c.valid := by
  decide!

/-- One more write of 1 at `(1,2,0)` after 1213 rounds of `toggle_puts`: the
volume is in incremental mode, voxel `(1,2,0)` holds 1, 65529 shade entries
are queued, the out-of-volume coordinate `(1,2,-1)` among them, and the shade
cache is still all zero. -/
theorem toggle_filled (s : vxl) (h : toggle_inv 1213 s) :
    (vxl_put s 1 2 0 1).2.geom = (vxl_init 4 4 1).geom ∧
    (vxl_put s 1 2 0 1).2.full_update = 0 ∧
    (vxl_put s 1 2 0 1).2.data (vxl_idx (vxl_put s 1 2 0 1).2 1 2 0) = 1 ∧
    (vxl_put s 1 2 0 1).2.shade = (vxl_init 4 4 1).shade ∧
    (vxl_put s 1 2 0 1).2.shade_queue.length = 65529 ∧
    (⟨1, 2, -1⟩ : ivec3) ∈ (vxl_put s 1 2 0 1).2.shade_queue ∧
    (∀ c ∈ (vxl_put s 1 2 0 1).2.shade_queue, c.valid) := by
  obtain ⟨g, f, d, sh, sl, rl, m⟩ := h
  obtain ⟨f1, f2, -⟩ := fresh_block_facts
  obtain ⟨g1, f1w, d1, sh1, sl1, -⟩ :=
    toggle_step s 0 1 (by decide) g f d (by decide) (by rw [sl]; norm_num)
      (by rw [rl]; norm_num)
  refine ⟨g1, f1w, d1, sh1.trans sh, ?_, ?_, ?_⟩
  · rw [sl1, List.length_append, f1, sl]
  · rw [sl1]
    exact List.mem_append_right _ f2
  · intro c hc
    rw [sl1] at hc
    rcases List.mem_append.1 hc with h | h
    · exact fresh_block_valid c (m c h)
    · exact fresh_block_valid c h

/-- A flushing write of 0 at `(1,2,0)` on a volume with the geometry of the
fresh one whose shade queue is within 27 entries of its capacity and holds the
out-of-volume coordinate `(1,2,-1)`: the put returns 1 and the shade cell of
index -47 ends up holding one of the four shade classes. -/
theorem filled_put_flushes (a : vxl) (g : a.geom = (vxl_init 4 4 1).geom)
    (f : a.full_update = 0) (d : a.data (vxl_idx a 1 2 0) = 1)
    (sh : a.shade = (vxl_init 4 4 1).shade) (sl : a.shade_queue.length = 65529)
    (m : (⟨1, 2, -1⟩ : ivec3) ∈ a.shade_queue) (mall : ∀ c ∈ a.shade_queue, c.valid) :
    vxl_inside a 1 2 0 = true ∧
    (vxl_put a 1 2 0 0).1 = 1 ∧
    vxl_inside a 1 2 (-1) = false ∧
    vxl_idx a 1 2 (-1) = -47 ∧
    a.dim_x * a.dim_y * a.dim_z = 512 ∧
    a.shade (-47) = 0 ∧
    (vxl_put a 1 2 0 0).2.shade (-47) ∈ [SHADE_X, SHADE_Y, SHADE_Z, SHADE_XY] := by
  obtain ⟨-, -, f3, f4, f5, f6, f7, f8⟩ := fresh_block_facts
  obtain ⟨g1, g2, g3, -, -, -, -, g8, g9, -⟩ := geom_fields g
  have hin : vxl_inside a 1 2 0 = true := by rw [geom_vxl_inside g]; exact f3
  have hdv : a.data (vxl_idx a 1 2 0) ≠ 0 % 256 := by
    rw [d]; decide
  have hmf : must_flush { a with
      data := Function.update a.data (vxl_idx a 1 2 0) (0 % 256) } = true := by
    rw [must_flush_iff]
    left
    simp only [vxl.shade_queue_len, sl, g8, f6]
    decide
  obtain ⟨p1, p2⟩ := vxl_put_flushed a 1 2 0 0 hin f hdv hmf
  have hidx : vxl_idx a 1 2 (-1) = -47 := by rw [geom_vxl_idx g]; exact f5
  refine ⟨hin, p1, ?_, hidx, ?_, ?_, ?_⟩
  · rw [geom_vxl_inside g]; exact f4
  · rw [g1, g2, g3]; exact f8
  · rw [sh]; rfl
  · rw [p2, vxl_flush_incremental_shade
      { a with data := Function.update a.data (vxl_idx a 1 2 0) (0 % 256) } f]
    have hc : (⟨1, 2, -1⟩ : ivec3) ∈ flush_calls a.shade_queue :=
      ((flush_calls_spec a.shade_queue mall).2 _).2 m
    have hw := foldl_update_shade_written
      { a with data := Function.update a.data (vxl_idx a 1 2 0) (0 % 256) }
      (flush_calls a.shade_queue) ⟨1, 2, -1⟩ hc
    have e : vxl_idx { a with data := Function.update a.data (vxl_idx a 1 2 0) (0 % 256) }
        1 2 (-1) = -47 := hidx
    simp only [e] at hw
    exact hw


theorem put_volume_eq (s : vxl) (x y z : Int) (v : Nat) :
    put_volume s x y z v = (vxl_put s x y z v).2 := rfl

/-- C3. A `vxl_put` that flushes writes outside the shade buffer. The volume
`queue_filled` is reachable (`vxl_init(4,4,1)`, then 2427 writes at the
in-bounds voxel `(1,2,0)` alternating 1 and 0, none of which flushes); its
shade queue holds the out-of-volume coordinate `(1,2,-1)`, whose chunked index
is -47, while the buffers have 512 cells. The next `vxl_put(1,2,0,0)` is in
bounds, returns 1, and the flush it runs stores one of the four shade classes
in the shade cell of index -47, which held 0 before. -/
theorem C3_flushing_put_writes_outside_shade :
    Reachable queue_filled ∧
    (⟨1, 2, -1⟩ : ivec3) ∈ queue_filled.shade_queue ∧
    vxl_inside queue_filled 1 2 0 = true ∧
    (vxl_put queue_filled 1 2 0 0).1 = 1 ∧
    vxl_inside queue_filled 1 2 (-1) = false ∧
    vxl_idx queue_filled 1 2 (-1) = -47 ∧
    queue_filled.dim_x * queue_filled.dim_y * queue_filled.dim_z = 512 ∧
    queue_filled.shade (-47) = 0 ∧
    (vxl_put queue_filled 1 2 0 0).2.shade (-47) ∈ [SHADE_X, SHADE_Y, SHADE_Z, SHADE_XY] := by
  have e : queue_filled = (vxl_put (toggle_puts 1213 (vxl_init 4 4 1)) 1 2 0 1).2 :=
    put_volume_eq _ 1 2 0 1
  rw [e]
  obtain ⟨g, f, d, sh, sl, m, mall⟩ :=
    toggle_filled _ (toggle_puts_inv 1213 (le_refl 1213))
  exact ⟨Reachable.put _ _ _ _ _ (toggle_puts_reachable _ _
      (Reachable.init 4 4 1 (by decide) (by decide) (by decide))), m,
    filled_put_flushes _ g f d sh sl m mall⟩

set_option maxRecDepth 100000 in
/-- C9. An incremental `vxl_flush` writes outside the shade buffer. After
`vxl_init(4,4,1)` and `vxl_put(1,2,0,5)` the volume is in incremental mode and
its shade queue holds the out-of-volume coordinate `(1,2,-1)`, whose chunked
index is -47, while the buffers have 512 cells. The flush runs `update_shade`
on it and stores one of the four shade classes in the shade cell of index -47,
which held 0 before. -/
theorem C9_flush_writes_outside_shade :
    (vxl_put (vxl_init 4 4 1) 1 2 0 5).2.full_update = 0 ∧
    (⟨1, 2, -1⟩ : ivec3) ∈ (vxl_put (vxl_init 4 4 1) 1 2 0 5).2.shade_queue ∧
    vxl_inside (vxl_put (vxl_init 4 4 1) 1 2 0 5).2 1 2 (-1) = false ∧
    vxl_idx (vxl_put (vxl_init 4 4 1) 1 2 0 5).2 1 2 (-1) = -47 ∧
    (vxl_put (vxl_init 4 4 1) 1 2 0 5).2.dim_x * (vxl_put (vxl_init 4 4 1) 1 2 0 5).2.dim_y *
      (vxl_put (vxl_init 4 4 1) 1 2 0 5).2.dim_z = 512 ∧
    (vxl_put (vxl_init 4 4 1) 1 2 0 5).2.shade (-47) = 0 ∧
    (vxl_flush (vxl_put (vxl_init 4 4 1) 1 2 0 5).2).shade (-47) ∈
      [SHADE_X, SHADE_Y, SHADE_Z, SHADE_XY] := by
  decide!

set_option maxRecDepth 100000 in
/-- C13. The flush inside `vxl_set_full_update` writes outside the shade buffer.
After `vxl_init(4,4,1)` and `vxl_put(1,2,0,5)` the flag is clear and the shade
queue holds the out-of-volume coordinate `(1,2,-1)`, whose chunked index is
-47, while the buffers have 512 cells. `vxl_set_full_update` sets the flag to 1
and stores one of the four shade classes in the shade cell of index -47, which
held 0 before. -/
theorem C13_set_full_update_writes_outside_shade :
    (vxl_put (vxl_init 4 4 1) 1 2 0 5).2.full_update = 0 ∧
    (⟨1, 2, -1⟩ : ivec3) ∈ (vxl_put (vxl_init 4 4 1) 1 2 0 5).2.shade_queue ∧
    vxl_inside (vxl_put (vxl_init 4 4 1) 1 2 0 5).2 1 2 (-1) = false ∧
    vxl_idx (vxl_put (vxl_init 4 4 1) 1 2 0 5).2 1 2 (-1) = -47 ∧
    (vxl_put (vxl_init 4 4 1) 1 2 0 5).2.dim_x * (vxl_put (vxl_init 4 4 1) 1 2 0 5).2.dim_y *
      (vxl_put (vxl_init 4 4 1) 1 2 0 5).2.dim_z = 512 ∧
    (vxl_put (vxl_init 4 4 1) 1 2 0 5).2.shade (-47) = 0 ∧
    (vxl_set_full_update (vxl_put (vxl_init 4 4 1) 1 2 0 5).2).full_update = 1 ∧
    (vxl_set_full_update (vxl_put (vxl_init 4 4 1) 1 2 0 5).2).shade (-47) ∈
      [SHADE_X, SHADE_Y, SHADE_Z, SHADE_XY] := by
  decide!

end SpaceForce
